import Mathlib

/-!
Verification development for the taxonomy resolution and consistency engine of an
events-discovery API.  The definitions below are shallow embeddings of the Python
source in `src/server/main.py` and `src/server/scripts/migrate_tag_hierarchy.py`:
pure functions become Lean functions, database rows become explicit lists of
records, Python dictionaries become association lists kept in insertion order, and
Python sets are represented by canonically sorted duplicate-free lists (Python set
iteration order is unspecified; everywhere the relevant result is
order-independent, and where the code itself sorts — `sorted(legacy_keys)`,
`sorted(next_tag_ids)` — the model sorts too).  Machine integers are `Nat`/`Int`;
timestamps are naturals; wall-clock times are rationals.  Fallible code returns
`Option`/`Except`.
-/

namespace Taxo

/-- Whitespace recognized by Python `str.strip()` (ASCII subset; the repository's
data never contains non-ASCII whitespace). -/
def isPyWs (c : Char) : Bool :=
  c == ' ' || c == '\t' || c == '\n' || c == '\r' || c == '\x0b' || c == '\x0c'

/-- Drop characters satisfying `p` from both ends of a character list: the model of
Python `str.strip` / `str.strip("-")`. -/
def trimBy (p : Char → Bool) (l : List Char) : List Char :=
  ((l.dropWhile p).reverse.dropWhile p).reverse

/-- Python `value.strip()`. -/
def pyStrip (s : String) : String := ⟨trimBy isPyWs s.data⟩

/-- Python `value.lower()` (ASCII case folding; the taxonomy data is ASCII). -/
def pyLower (s : String) : String := ⟨s.data.map Char.toLower⟩

/-- A character kept verbatim by the regex `[^a-z0-9]+` substitution in `slugify`:
a lowercase ASCII letter (97-122) or a digit (48-57). -/
def isSlugChar (c : Char) : Bool :=
  (97 ≤ c.toNat && c.toNat ≤ 122) || (48 ≤ c.toNat && c.toNat ≤ 57)

/-- One character step of `re.sub(r"[^a-z0-9]+", "-", lowered)`: a kept character
maps to itself, anything else becomes a dash (runs are collapsed afterwards). -/
def dashifyChar (c : Char) : Char := if isSlugChar c then c else '-'

/-- Collapse every run of consecutive dashes to a single dash; together with
`dashifyChar` this implements the `[^a-z0-9]+ → "-"` regex substitution.  The
boolean records whether the previously emitted character was a dash. -/
def collapseDashAux : Bool → List Char → List Char
  | _, [] => []
  | true, c :: rest =>
    if c = '-' then collapseDashAux true rest
    else c :: collapseDashAux false rest
  | false, c :: rest =>
    if c = '-' then '-' :: collapseDashAux true rest
    else c :: collapseDashAux false rest

/-- Character-list core of `slugify`:
`lowered = value.strip().lower()`, `lowered = re.sub(r"[^a-z0-9]+", "-", lowered)`,
`return lowered.strip("-")`. -/
def slugChars (l : List Char) : List Char :=
  trimBy (· == '-')
    (collapseDashAux false (((trimBy isPyWs l).map Char.toLower).map dashifyChar))

end Taxo

namespace MainSrv

/-- Embeds `slugify` from `src/server/main.py` (lines 312-315). -/
def slugify (s : String) : String := ⟨Taxo.slugChars s.data⟩

end MainSrv

namespace Migrate

/-- Embeds `slugify` from `src/server/scripts/migrate_tag_hierarchy.py`
(lines 120-123); the source text is identical to the one in `main.py`. -/
def slugify (s : String) : String := ⟨Taxo.slugChars s.data⟩

end Migrate

namespace Taxo

/-- The symmetric no-two-adjacent-dashes relation. -/
def NoDD (a b : Char) : Prop := ¬(a = '-' ∧ b = '-')

instance : ∀ a b, Decidable (NoDD a b) := fun a b => by unfold NoDD; infer_instance

/-- A well-formed slug: only lowercase alphanumerics and dashes, no dash at either
end, and no two consecutive dashes. -/
def GoodSlug (l : List Char) : Prop :=
  (∀ c ∈ l, isSlugChar c = true ∨ c = '-') ∧
  (∀ c, l.head? = some c → c ≠ '-') ∧
  (∀ c, l.getLast? = some c → c ≠ '-') ∧
  l.Chain' NoDD

theorem mem_trimBy {p : Char → Bool} {l : List Char} {c : Char}
    (h : c ∈ trimBy p l) : c ∈ l := by
  unfold trimBy at h
  rw [List.mem_reverse] at h
  have h1 := (List.dropWhile_sublist _).mem h
  rw [List.mem_reverse] at h1
  exact (List.dropWhile_sublist _).mem h1

theorem head?_dropWhile {p : Char → Bool} {l : List Char} {c : Char}
    (h : (l.dropWhile p).head? = some c) : p c = false := by
  have h2 := List.head?_dropWhile_not p l
  rw [h] at h2
  exact h2

theorem getLast?_dropWhile {p : Char → Bool} {l : List Char}
    (hne : l.dropWhile p ≠ []) : (l.dropWhile p).getLast? = l.getLast? := by
  obtain ⟨t, ht⟩ := List.dropWhile_suffix p (l := l)
  conv_rhs => rw [← ht]
  rw [List.getLast?_append]
  obtain ⟨a, ha⟩ := Option.isSome_iff_exists.mp (List.getLast?_isSome.mpr hne)
  rw [ha]
  rfl

theorem trimBy_head? {p : Char → Bool} {l : List Char} {c : Char}
    (h : (trimBy p l).head? = some c) : p c = false := by
  unfold trimBy at h
  rw [List.head?_reverse] at h
  have hne : ((l.dropWhile p).reverse.dropWhile p) ≠ [] := by
    intro hcon
    rw [hcon] at h
    simp at h
  rw [getLast?_dropWhile hne, List.getLast?_reverse] at h
  exact head?_dropWhile h

theorem trimBy_getLast? {p : Char → Bool} {l : List Char} {c : Char}
    (h : (trimBy p l).getLast? = some c) : p c = false := by
  unfold trimBy at h
  rw [List.getLast?_reverse] at h
  exact head?_dropWhile h

theorem mem_collapseDashAux :
    ∀ (b : Bool) (l : List Char) (c : Char), c ∈ collapseDashAux b l → c ∈ l := by
  intro b l
  induction l generalizing b with
  | nil => intro c h; cases b <;> simp [collapseDashAux] at h
  | cons a t ih =>
    intro c h
    by_cases ha : a = '-'
    · subst ha
      cases b <;> simp only [collapseDashAux, if_pos rfl] at h
      · rcases List.mem_cons.mp h with h1 | h1
        · exact List.mem_cons.mpr (Or.inl h1)
        · exact List.mem_cons_of_mem _ (ih true c h1)
      · exact List.mem_cons_of_mem _ (ih true c h)
    · cases b <;> simp only [collapseDashAux, if_neg ha] at h <;>
        rcases List.mem_cons.mp h with h1 | h1
      · exact List.mem_cons.mpr (Or.inl h1)
      · exact List.mem_cons_of_mem _ (ih false c h1)
      · exact List.mem_cons.mpr (Or.inl h1)
      · exact List.mem_cons_of_mem _ (ih false c h1)

theorem collapseDashAux_chain' :
    ∀ (b : Bool) (l : List Char),
      (collapseDashAux b l).Chain' NoDD ∧
      (b = true → ∀ c, (collapseDashAux b l).head? = some c → c ≠ '-') := by
  intro b l
  induction l generalizing b with
  | nil => cases b <;> simp [collapseDashAux]
  | cons a t ih =>
    by_cases ha : a = '-'
    · subst ha
      cases b <;> simp only [collapseDashAux, reduceIte]
      · constructor
        · rw [List.chain'_cons']
          refine ⟨?_, (ih true).1⟩
          intro y hy
          have hne := (ih true).2 rfl y hy
          intro hdd
          exact hne hdd.2
        · intro hcon; simp at hcon
      · exact ⟨(ih true).1, fun _ c hc => (ih true).2 rfl c hc⟩
    · cases b <;> simp only [collapseDashAux, if_neg ha]
      · constructor
        · rw [List.chain'_cons']
          refine ⟨?_, (ih false).1⟩
          intro y _
          intro hdd
          exact ha hdd.1
        · intro _ c hc
          simp only [List.head?_cons, Option.some.injEq] at hc
          rw [← hc]; exact ha
      · constructor
        · rw [List.chain'_cons']
          refine ⟨?_, (ih false).1⟩
          intro y _
          intro hdd
          exact ha hdd.1
        · intro _ c hc
          simp only [List.head?_cons, Option.some.injEq] at hc
          rw [← hc]; exact ha

theorem noDD_flip : (flip NoDD) = NoDD := by
  funext a b
  unfold flip NoDD
  simp [and_comm]

theorem chain'_reverse_noDD {l : List Char} (h : l.Chain' NoDD) :
    l.reverse.Chain' NoDD := by
  rw [List.chain'_reverse, noDD_flip]
  exact h

theorem trimBy_chain' {p : Char → Bool} {l : List Char} (h : l.Chain' NoDD) :
    (trimBy p l).Chain' NoDD := by
  unfold trimBy
  exact chain'_reverse_noDD
    ((chain'_reverse_noDD (h.suffix (List.dropWhile_suffix p))).suffix
      (List.dropWhile_suffix p))

theorem slugChars_mem {l : List Char} {c : Char} (h : c ∈ slugChars l) :
    isSlugChar c = true ∨ c = '-' := by
  unfold slugChars at h
  have h1 := mem_trimBy h
  have h2 := mem_collapseDashAux _ _ _ h1
  rcases List.mem_map.mp h2 with ⟨d, _, hd⟩
  unfold dashifyChar at hd
  by_cases hs : isSlugChar d
  · rw [if_pos hs] at hd; left; rw [← hd]; exact hs
  · rw [if_neg hs] at hd; right; exact hd.symm

theorem slugChars_head? {l : List Char} {c : Char} (h : (slugChars l).head? = some c) :
    c ≠ '-' := by
  have h2 := trimBy_head? h
  intro hcon
  subst hcon
  simp at h2

theorem slugChars_getLast? {l : List Char} {c : Char}
    (h : (slugChars l).getLast? = some c) : c ≠ '-' := by
  have h2 := trimBy_getLast? h
  intro hcon
  subst hcon
  simp at h2

theorem slugChars_chain' (l : List Char) : (slugChars l).Chain' NoDD :=
  trimBy_chain' (collapseDashAux_chain' false _).1

theorem slugChars_goodSlug (l : List Char) : GoodSlug (slugChars l) :=
  ⟨fun _ h => slugChars_mem h, fun _ h => slugChars_head? h,
   fun _ h => slugChars_getLast? h, slugChars_chain' l⟩

theorem slug_toNat_range {c : Char} (h : isSlugChar c = true ∨ c = '-') :
    (97 ≤ c.toNat ∧ c.toNat ≤ 122) ∨ (48 ≤ c.toNat ∧ c.toNat ≤ 57) ∨ c.toNat = 45 := by
  rcases h with h | h
  · unfold isSlugChar at h
    rcases Bool.or_eq_true_iff.mp h with h1 | h1 <;> rw [Bool.and_eq_true] at h1 <;>
      rcases h1 with ⟨ha, hb⟩
    · exact Or.inl ⟨of_decide_eq_true ha, of_decide_eq_true hb⟩
    · exact Or.inr (Or.inl ⟨of_decide_eq_true ha, of_decide_eq_true hb⟩)
  · subst h
    exact Or.inr (Or.inr rfl)

theorem isPyWs_false_of_slug {c : Char} (h : isSlugChar c = true ∨ c = '-') :
    isPyWs c = false := by
  have hr := slug_toNat_range h
  unfold isPyWs
  simp only [Bool.or_eq_false_iff, beq_eq_false_iff_ne]
  refine ⟨⟨⟨⟨⟨?_, ?_⟩, ?_⟩, ?_⟩, ?_⟩, ?_⟩ <;>
    exact fun hcon => absurd hr (by subst hcon; decide)

theorem toLower_fixed_of_slug {c : Char} (h : isSlugChar c = true ∨ c = '-') :
    Char.toLower c = c := by
  have hr := slug_toNat_range h
  unfold Char.toLower
  rw [if_neg]
  omega

theorem dashifyChar_fixed {c : Char} (h : isSlugChar c = true ∨ c = '-') :
    dashifyChar c = c := by
  unfold dashifyChar
  rcases h with h | h
  · rw [if_pos h]
  · subst h; rfl

theorem map_eq_self_of {f : Char → Char} :
    ∀ {l : List Char}, (∀ c ∈ l, f c = c) → l.map f = l := by
  intro l
  induction l with
  | nil => intro _; rfl
  | cons a t ih =>
    intro h
    rw [List.map_cons, h a (List.mem_cons_self a t), ih (fun c hc => h c (List.mem_cons_of_mem _ hc))]

theorem dropWhile_eq_self_of {p : Char → Bool} {l : List Char}
    (h : ∀ c ∈ l, p c = false) : l.dropWhile p = l := by
  cases l with
  | nil => rfl
  | cons a t =>
    rw [List.dropWhile_cons, if_neg]
    rw [h a (List.mem_cons_self a t)]
    simp

theorem trimBy_eq_self_of {p : Char → Bool} {l : List Char}
    (h : ∀ c ∈ l, p c = false) : trimBy p l = l := by
  unfold trimBy
  rw [dropWhile_eq_self_of h]
  rw [dropWhile_eq_self_of (fun c hc => h c (List.mem_reverse.mp hc))]
  exact List.reverse_reverse l

theorem collapseDashAux_eq_self :
    ∀ (b : Bool) (l : List Char), l.Chain' NoDD →
      (b = true → ∀ c, l.head? = some c → c ≠ '-') → collapseDashAux b l = l := by
  intro b l
  induction l generalizing b with
  | nil => intro _ _; cases b <;> rfl
  | cons a t ih =>
    intro hch hh
    by_cases ha : a = '-'
    · subst ha
      cases b
      · simp only [collapseDashAux, reduceIte]
        congr 1
        refine ih true hch.tail ?_
        intro _ c hc
        rcases List.chain'_cons'.mp hch with ⟨h1, _⟩
        intro hcon
        subst hcon
        exact h1 '-' hc ⟨rfl, rfl⟩
      · exact absurd rfl (hh rfl '-' (by simp))
    · cases b <;> simp only [collapseDashAux, if_neg ha] <;>
        exact congrArg _ (ih false hch.tail (by intro hcon; simp at hcon))

theorem trimBy_dash_eq_self {l : List Char}
    (hh : ∀ c, l.head? = some c → c ≠ '-')
    (hl : ∀ c, l.getLast? = some c → c ≠ '-') :
    trimBy (· == '-') l = l := by
  unfold trimBy
  have h1 : l.dropWhile (· == '-') = l := by
    cases l with
    | nil => rfl
    | cons a t =>
      rw [List.dropWhile_cons, if_neg]
      simp only [beq_iff_eq]
      exact hh a (by simp)
  rw [h1]
  have h2 : l.reverse.dropWhile (· == '-') = l.reverse := by
    cases hrev : l.reverse with
    | nil => rfl
    | cons a t =>
      rw [List.dropWhile_cons, if_neg]
      simp only [beq_iff_eq]
      apply hl a
      rw [← List.head?_reverse, hrev]
      rfl
  rw [h2, List.reverse_reverse]

theorem slugChars_idem {l : List Char} (h : GoodSlug l) : slugChars l = l := by
  obtain ⟨hmem, hh, hl, hch⟩ := h
  unfold slugChars
  rw [trimBy_eq_self_of (fun c hc => isPyWs_false_of_slug (hmem c hc))]
  rw [map_eq_self_of (fun c hc => toLower_fixed_of_slug (hmem c hc))]
  rw [map_eq_self_of (fun c hc => dashifyChar_fixed (hmem c hc))]
  rw [collapseDashAux_eq_self false l hch (by intro hcon; simp at hcon)]
  exact trimBy_dash_eq_self hh hl

end Taxo

/-- C9: for every input string, `slugify` produces only lowercase alphanumerics and
hyphens with no leading/trailing hyphen and no two consecutive hyphens; it is
idempotent; and the `slugify` in `main.py` and the one in
`migrate_tag_hierarchy.py` compute the same function. -/
theorem slugify_wellformed_idempotent_agree (s : String) :
    (∀ c ∈ (MainSrv.slugify s).data, Taxo.isSlugChar c = true ∨ c = '-') ∧
    (∀ c, (MainSrv.slugify s).data.head? = some c → c ≠ '-') ∧
    (∀ c, (MainSrv.slugify s).data.getLast? = some c → c ≠ '-') ∧
    (MainSrv.slugify s).data.Chain' Taxo.NoDD ∧
    MainSrv.slugify (MainSrv.slugify s) = MainSrv.slugify s ∧
    MainSrv.slugify s = Migrate.slugify s := by
  have hgood : Taxo.GoodSlug (Taxo.slugChars s.data) := Taxo.slugChars_goodSlug s.data
  refine ⟨hgood.1, hgood.2.1, hgood.2.2.1, hgood.2.2.2, ?_, rfl⟩
  show (⟨Taxo.slugChars (Taxo.slugChars s.data)⟩ : String) = ⟨Taxo.slugChars s.data⟩
  rw [Taxo.slugChars_idem hgood]

namespace Taxo

/-- Code-point lexicographic comparison of character lists: the order Python uses
to compare strings, written structurally so that the kernel can evaluate it. -/
def charListLt : List Char → List Char → Bool
  | [], [] => false
  | [], _ :: _ => true
  | _ :: _, [] => false
  | a :: as, b :: bs => if a < b then true else if b < a then false else charListLt as bs

theorem charListLt_irrefl : ∀ l, charListLt l l = false := by
  intro l
  induction l with
  | nil => rfl
  | cons a as ih =>
    unfold charListLt
    rw [if_neg (lt_irrefl a), if_neg (lt_irrefl a)]
    exact ih

theorem charListLt_trans : ∀ {l1 l2 l3 : List Char}, charListLt l1 l2 = true →
    charListLt l2 l3 = true → charListLt l1 l3 = true := by
  intro l1
  induction l1 with
  | nil =>
    intro l2 l3 h12 h23
    cases l2 with
    | nil => simp [charListLt] at h12
    | cons b bs =>
      cases l3 with
      | nil => simp [charListLt] at h23
      | cons c cs => rfl
  | cons a as ih =>
    intro l2 l3 h12 h23
    cases l2 with
    | nil => simp [charListLt] at h12
    | cons b bs =>
      cases l3 with
      | nil => simp [charListLt] at h23
      | cons c cs =>
        unfold charListLt at h12 h23 ⊢
        by_cases hab : a < b
        · by_cases hbc : b < c
          · rw [if_pos (lt_trans hab hbc)]
          · by_cases hcb : c < b
            · rw [if_neg hbc, if_pos hcb] at h23
              exact absurd h23 (by simp)
            · have heq : b = c := le_antisymm (le_of_not_lt hcb) (le_of_not_lt hbc)
              subst heq
              rw [if_pos hab]
        · by_cases hba : b < a
          · rw [if_neg hab, if_pos hba] at h12
            exact absurd h12 (by simp)
          · have heq : a = b := le_antisymm (le_of_not_lt hba) (le_of_not_lt hab)
            subst heq
            rw [if_neg (lt_irrefl a), if_neg (lt_irrefl a)] at h12
            by_cases hac : a < c
            · rw [if_pos hac]
            · by_cases hca : c < a
              · rw [if_neg hac, if_pos hca] at h23
                exact absurd h23 (by simp)
              · have heq2 : a = c := le_antisymm (le_of_not_lt hca) (le_of_not_lt hac)
                subst heq2
                rw [if_neg (lt_irrefl a), if_neg (lt_irrefl a)] at h23 ⊢
                exact ih h12 h23

theorem charListLt_conn : ∀ {l1 l2 : List Char}, charListLt l1 l2 = false →
    charListLt l2 l1 = false → l1 = l2 := by
  intro l1
  induction l1 with
  | nil =>
    intro l2 h12 _
    cases l2 with
    | nil => rfl
    | cons b bs => simp [charListLt] at h12
  | cons a as ih =>
    intro l2 h12 h21
    cases l2 with
    | nil => simp [charListLt] at h21
    | cons b bs =>
      unfold charListLt at h12 h21
      by_cases hab : a < b
      · rw [if_pos hab] at h12
        exact absurd h12 (by simp)
      · by_cases hba : b < a
        · rw [if_pos hba] at h21
          exact absurd h21 (by simp)
        · have heq : a = b := le_antisymm (le_of_not_lt hba) (le_of_not_lt hab)
          subst heq
          rw [if_neg (lt_irrefl a), if_neg (lt_irrefl a)] at h12 h21
          rw [ih h12 h21]

/-- Python string comparison `a < b` on the model strings. -/
def strLtB (a b : String) : Bool := charListLt a.data b.data

theorem strLtB_irrefl (a : String) : strLtB a a = false := charListLt_irrefl _

theorem strLtB_trans {a b c : String} (h1 : strLtB a b = true) (h2 : strLtB b c = true) :
    strLtB a c = true := charListLt_trans h1 h2

theorem strLtB_conn {a b : String} (h1 : strLtB a b = false) (h2 : strLtB b a = false) :
    a = b := by
  obtain ⟨da⟩ := a
  obtain ⟨db⟩ := b
  exact congrArg String.mk (charListLt_conn h1 h2)

/-- Strict insertion into a strictly sorted duplicate-free list of naturals. -/
def sinsertNat (x : Nat) : List Nat → List Nat
  | [] => [x]
  | y :: ys => if x < y then x :: y :: ys else if x = y then y :: ys else y :: sinsertNat x ys

/-- Canonical form of a Python set of naturals: `sorted(set(l))`. -/
def canonNat (l : List Nat) : List Nat := l.foldr sinsertNat []

/-- Strict insertion for strings under the code-point order. -/
def sinsertStr (x : String) : List String → List String
  | [] => [x]
  | y :: ys =>
    if strLtB x y then x :: y :: ys else if x = y then y :: ys else y :: sinsertStr x ys

/-- Canonical form of a Python set of strings: `sorted(set(l))`. -/
def canonStr (l : List String) : List String := l.foldr sinsertStr []

theorem mem_sinsertNat {a x : Nat} : ∀ {l : List Nat}, a ∈ sinsertNat x l ↔ a = x ∨ a ∈ l := by
  intro l
  induction l with
  | nil => simp [sinsertNat]
  | cons y ys ih =>
    unfold sinsertNat
    by_cases h1 : x < y
    · rw [if_pos h1]
      simp
    · rw [if_neg h1]
      by_cases h2 : x = y
      · subst h2
        rw [if_pos rfl]
        constructor
        · intro h; exact Or.inr h
        · rintro (rfl | h)
          · simp
          · exact h
      · rw [if_neg h2]
        simp only [List.mem_cons, ih]
        tauto

theorem pairwise_sinsertNat {x : Nat} : ∀ {l : List Nat}, l.Pairwise (· < ·) →
    (sinsertNat x l).Pairwise (· < ·) := by
  intro l
  induction l with
  | nil => intro _; simp [sinsertNat]
  | cons y ys ih =>
    intro h
    obtain ⟨hy, hys⟩ := List.pairwise_cons.mp h
    unfold sinsertNat
    by_cases h1 : x < y
    · rw [if_pos h1]
      refine List.pairwise_cons.mpr ⟨?_, h⟩
      intro z hz
      rcases List.mem_cons.mp hz with rfl | hz2
      · exact h1
      · exact lt_trans h1 (hy z hz2)
    · rw [if_neg h1]
      by_cases h2 : x = y
      · rw [if_pos h2]; exact h
      · rw [if_neg h2]
        refine List.pairwise_cons.mpr ⟨?_, ih hys⟩
        intro z hz
        rcases mem_sinsertNat.mp hz with rfl | hz2
        · omega
        · exact hy z hz2

theorem mem_canonNat {a : Nat} {l : List Nat} : a ∈ canonNat l ↔ a ∈ l := by
  induction l with
  | nil => simp [canonNat]
  | cons y ys ih =>
    show a ∈ sinsertNat y (canonNat ys) ↔ _
    rw [mem_sinsertNat]
    simp [ih]

theorem pairwise_canonNat (l : List Nat) : (canonNat l).Pairwise (· < ·) := by
  induction l with
  | nil => simp [canonNat]
  | cons y ys ih => exact pairwise_sinsertNat ih

theorem canonNat_eq_nil_iff {l : List Nat} : canonNat l = [] ↔ l = [] := by
  constructor
  · intro h
    cases l with
    | nil => rfl
    | cons y ys =>
      have : y ∈ canonNat (y :: ys) := mem_canonNat.mpr (by simp)
      rw [h] at this
      simp at this
  · intro h; subst h; rfl

theorem sublist_of_sorted_subset :
    ∀ (P T : List Nat), T.Pairwise (· < ·) → P.Pairwise (· < ·) →
      (∀ x ∈ T, x ∈ P) → T.Sublist P := by
  intro P
  induction P with
  | nil =>
    intro T _ _ hsub
    cases T with
    | nil => exact List.Sublist.refl []
    | cons t ts => exact absurd (hsub t (by simp)) (by simp)
  | cons p ps ih =>
    intro T hT hP hsub
    cases T with
    | nil => exact List.nil_sublist _
    | cons t ts =>
      by_cases htp : t = p
      · subst htp
        refine List.Sublist.cons₂ t (ih ts hT.of_cons hP.of_cons ?_)
        intro x hx
        have hxP := hsub x (List.mem_cons_of_mem _ hx)
        rcases List.mem_cons.mp hxP with rfl | h2
        · have hlt := (List.pairwise_cons.mp hT).1 x hx
          exact absurd hlt (lt_irrefl x)
        · exact h2
      · refine List.Sublist.cons p (ih (t :: ts) hT hP.of_cons ?_)
        intro x hx
        have hxP := hsub x hx
        rcases List.mem_cons.mp hxP with rfl | h2
        · rcases List.mem_cons.mp hx with rfl | h3
          · exact absurd rfl htp
          · have htP := hsub t (by simp)
            rcases List.mem_cons.mp htP with h4 | h4
            · exact absurd h4 htp
            · have hpt := (List.pairwise_cons.mp hP).1 t h4
              have htx := (List.pairwise_cons.mp hT).1 x h3
              exact absurd (lt_trans hpt htx) (lt_irrefl _)
        · exact h2

end Taxo

namespace Migrate

/-- Embeds `CATEGORY_PRIORITY` (migrate_tag_hierarchy.py lines 16-24). -/
def CATEGORY_PRIORITY : List String :=
  ["music", "nightlife", "food-drink", "arts-culture", "entertainment", "outdoor", "other"]

/-- Embeds `LEGACY_CATEGORY_ALIASES` (lines 95-105). -/
def LEGACY_CATEGORY_ALIASES : List (String × String) :=
  [("music", "music"), ("party", "nightlife"), ("nightlife", "nightlife"),
   ("food", "food-drink"), ("food-drink", "food-drink"),
   ("arts-culture", "arts-culture"), ("art", "arts-culture"),
   ("entertainment", "entertainment"), ("outdoor", "outdoor")]

/-- Embeds `DEFAULT_SUBCATEGORY_BY_CATEGORY` (lines 84-92). -/
def DEFAULT_SUBCATEGORY_BY_CATEGORY : List (String × String) :=
  [("music", "electronic"), ("nightlife", "clubs"), ("food-drink", "wine"),
   ("arts-culture", "theater"), ("entertainment", "comedy-shows"),
   ("outdoor", "adventure-outdoors"), ("other", "other")]

/-- Embeds `category_priority_index` (lines 414-417): position in the fixed
priority list, or the list's length for unlisted categories. -/
def category_priority_index (category_slug : String) : Nat :=
  if category_slug ∈ CATEGORY_PRIORITY then CATEGORY_PRIORITY.indexOf category_slug
  else CATEGORY_PRIORITY.length

/-- The sort key order used by `candidates.sort(key=lambda item:
(category_priority_index(item[0]), item[1]))`: lexicographic on
(priority index, subcategory slug), strings compared by code points. -/
def BranchKeyLE (a b : String × String) : Prop :=
  category_priority_index a.1 < category_priority_index b.1 ∨
    (category_priority_index a.1 = category_priority_index b.1 ∧
      (Taxo.strLtB a.2 b.2 = true ∨ a.2 = b.2))

instance : ∀ a b, Decidable (BranchKeyLE a b) := fun a b => by
  unfold BranchKeyLE
  infer_instance

/-- A mapped target `(category_slug, subcategory_slug, tag_id)`. -/
abbrev Target := String × String × Nat

/-- The `(category, subcategory)` branch of a target. -/
def branchOf (t : Target) : String × String := (t.1, t.2.1)

/-- One step of the vote tally `counts[(cat, sub)] = counts.get((cat, sub), 0) + 1`
on an insertion-ordered association list (the model of a Python dict). -/
def bumpCount (b : String × String) :
    List ((String × String) × Nat) → List ((String × String) × Nat)
  | [] => [(b, 1)]
  | (b', n) :: rest => if b' = b then (b', n + 1) :: rest else (b', n) :: bumpCount b rest

/-- The vote tally of `choose_branch` (lines 425-427). -/
def tallyBranches (mapped : List Target) : List ((String × String) × Nat) :=
  mapped.foldl (fun acc t => bumpCount (branchOf t) acc) []

/-- Embeds `choose_branch` (lines 420-436).  With at least one mapped target the
branch with the most votes wins, ties resolved by the stable sort on
`(category_priority_index, subcategory_slug)`; with no targets the branch comes
from the legacy category text through the alias and default-subcategory maps. -/
def choose_branch (mapped_targets : List Target)
    (event_category_text : Option String) : String × String :=
  match mapped_targets with
  | [] =>
    let category_slug :=
      (LEGACY_CATEGORY_ALIASES.lookup (slugify (event_category_text.getD ""))).getD "other"
    let subcategory_slug :=
      (DEFAULT_SUBCATEGORY_BY_CATEGORY.lookup category_slug).getD "other"
    (category_slug, subcategory_slug)
  | _ :: _ =>
    let counts := tallyBranches mapped_targets
    let max_count := (counts.map (·.2)).foldl max 0
    let candidates := (counts.filter (fun e => e.2 == max_count)).map (·.1)
    (List.insertionSort BranchKeyLE candidates).headD ("other", "other")

/-- Number of votes a branch receives from a target list. -/
def branchVotes (mapped : List Target) (b : String × String) : Nat :=
  mapped.countP (fun t => branchOf t == b)

end Migrate


namespace Taxo

theorem lookup_cons_self2 {α β : Type} [BEq α] [LawfulBEq α] (k : α) (v : β)
    (l : List (α × β)) : ((k, v) :: l).lookup k = some v := by
  simp [List.lookup]

theorem lookup_cons_ne {α β : Type} [BEq α] [LawfulBEq α] {k k' : α} (v : β)
    (l : List (α × β)) (h : k' ≠ k) : ((k, v) :: l).lookup k' = l.lookup k' := by
  have hbeq : (k' == k) = false := by simp [h]
  simp [List.lookup, hbeq]

theorem lookup_mem {α β : Type} [BEq α] [LawfulBEq α] {l : List (α × β)} {k : α} {v : β}
    (h : l.lookup k = some v) : (k, v) ∈ l := by
  rcases List.lookup_eq_some_iff.mp h with ⟨l₁, l₂, rfl, _⟩
  simp

theorem mem_lookup_of_nodup {α β : Type} [BEq α] [LawfulBEq α]
    {l : List (α × β)} {k : α} {v : β}
    (hnd : (l.map (·.1)).Nodup) (h : (k, v) ∈ l) : l.lookup k = some v := by
  induction l with
  | nil => simp at h
  | cons e rest ih =>
    obtain ⟨k0, v0⟩ := e
    rcases List.mem_cons.mp h with he | hmem
    · rw [Prod.mk.injEq] at he
      obtain ⟨rfl, rfl⟩ := he
      exact lookup_cons_self2 k v rest
    · have hk : k ≠ k0 := by
        intro hcon
        subst hcon
        have hmem2 : k ∈ rest.map (·.1) := List.mem_map.mpr ⟨(k, v), hmem, rfl⟩
        simp only [List.map_cons, List.nodup_cons] at hnd
        exact hnd.1 hmem2
      rw [lookup_cons_ne v0 rest hk]
      exact ih (by simp only [List.map_cons, List.nodup_cons] at hnd; exact hnd.2) hmem

theorem le_foldl_max (a : Nat) : ∀ (l : List Nat), a ≤ l.foldl max a := by
  intro l
  induction l generalizing a with
  | nil => simp
  | cons x xs ih =>
    rw [List.foldl_cons]
    exact le_trans (le_max_left a x) (ih (max a x))

theorem mem_le_foldl_max {x : Nat} {l : List Nat} (h : x ∈ l) (a : Nat) :
    x ≤ l.foldl max a := by
  induction l generalizing a with
  | nil => simp at h
  | cons y ys ih =>
    rw [List.foldl_cons]
    rcases List.mem_cons.mp h with rfl | hmem
    · exact le_trans (le_max_right a x) (le_foldl_max _ _)
    · exact ih hmem _

theorem foldl_max_cases (a : Nat) : ∀ (l : List Nat), l.foldl max a = a ∨ l.foldl max a ∈ l := by
  intro l
  induction l generalizing a with
  | nil => exact Or.inl rfl
  | cons x xs ih =>
    rw [List.foldl_cons]
    rcases ih (max a x) with h | h
    · rw [h]
      rcases Nat.le_total a x with hle | hle
      · right; rw [max_eq_right hle]; simp
      · left; rw [max_eq_left hle]
    · right; exact List.mem_cons_of_mem _ h

end Taxo

namespace Migrate

theorem bumpCount_cons_eq (b : String × String) (n : Nat)
    (rest : List ((String × String) × Nat)) :
    bumpCount b ((b, n) :: rest) = (b, n + 1) :: rest := by
  unfold bumpCount
  rw [if_pos rfl]

theorem bumpCount_cons_ne {b b0 : String × String} (hne : b0 ≠ b) (n : Nat)
    (rest : List ((String × String) × Nat)) :
    bumpCount b ((b0, n) :: rest) = (b0, n) :: bumpCount b rest := by
  unfold bumpCount
  rw [if_neg hne]
  cases rest with
  | nil => rfl
  | cons e r => rfl

theorem bumpCount_lookup_self (b : String × String) :
    ∀ (acc : List ((String × String) × Nat)),
      (bumpCount b acc).lookup b = some (((acc.lookup b).getD 0) + 1) := by
  intro acc
  induction acc with
  | nil => simp [bumpCount, Taxo.lookup_cons_self2]
  | cons e rest ih =>
    obtain ⟨b', n⟩ := e
    by_cases hb : b' = b
    · subst hb
      rw [bumpCount_cons_eq, Taxo.lookup_cons_self2, Taxo.lookup_cons_self2]
      rfl
    · rw [bumpCount_cons_ne hb, Taxo.lookup_cons_ne n rest (fun h => hb h.symm),
        Taxo.lookup_cons_ne n (bumpCount b rest) (fun h => hb h.symm)]
      exact ih

theorem bumpCount_lookup_other {b b' : String × String} (hne : b' ≠ b) :
    ∀ (acc : List ((String × String) × Nat)),
      (bumpCount b acc).lookup b' = acc.lookup b' := by
  intro acc
  induction acc with
  | nil =>
    show ((b, 1) :: []).lookup b' = List.lookup b' []
    rw [Taxo.lookup_cons_ne 1 [] hne]
  | cons e rest ih =>
    obtain ⟨b0, n⟩ := e
    by_cases hb : b0 = b
    · subst hb
      rw [bumpCount_cons_eq]
      rw [Taxo.lookup_cons_ne (n + 1) rest hne, Taxo.lookup_cons_ne n rest hne]
    · rw [bumpCount_cons_ne hb]
      by_cases h0 : b' = b0
      · subst h0
        rw [Taxo.lookup_cons_self2, Taxo.lookup_cons_self2]
      · rw [Taxo.lookup_cons_ne n (bumpCount b rest) h0, Taxo.lookup_cons_ne n rest h0]
        exact ih

theorem bumpCount_keys (b : String × String) :
    ∀ (acc : List ((String × String) × Nat)),
      (bumpCount b acc).map (·.1) =
        if b ∈ acc.map (·.1) then acc.map (·.1) else acc.map (·.1) ++ [b] := by
  intro acc
  induction acc with
  | nil => simp [bumpCount]
  | cons e rest ih =>
    obtain ⟨b0, n⟩ := e
    by_cases hb : b0 = b
    · subst hb
      rw [bumpCount_cons_eq]
      simp
    · rw [bumpCount_cons_ne hb]
      simp only [List.map_cons]
      rw [ih]
      by_cases hmem : b ∈ rest.map (·.1)
      · rw [if_pos hmem, if_pos (by simp [hmem])]
      · rw [if_neg hmem, if_neg (by simp [hmem, Ne.symm hb])]
        simp

theorem tallyAux_spec :
    ∀ (ts : List Target) (acc : List ((String × String) × Nat)),
      (acc.map (·.1)).Nodup →
      ((ts.foldl (fun acc t => bumpCount (branchOf t) acc) acc).map (·.1)).Nodup ∧
      (∀ b, (((ts.foldl (fun acc t => bumpCount (branchOf t) acc) acc).lookup b).getD 0) =
        ((acc.lookup b).getD 0) + branchVotes ts b) ∧
      (∀ b, ((ts.foldl (fun acc t => bumpCount (branchOf t) acc) acc).lookup b).isSome ↔
        ((acc.lookup b).isSome ∨ ∃ t ∈ ts, branchOf t = b)) := by
  intro ts
  induction ts with
  | nil =>
    intro acc hnd
    refine ⟨hnd, ?_, ?_⟩
    · intro b; simp [branchVotes]
    · intro b; simp
  | cons t ts ih =>
    intro acc hnd
    have hnd2 : ((bumpCount (branchOf t) acc).map (·.1)).Nodup := by
      rw [bumpCount_keys]
      by_cases hmem : branchOf t ∈ acc.map (·.1)
      · rw [if_pos hmem]; exact hnd
      · rw [if_neg hmem]
        rw [List.nodup_append]
        exact ⟨hnd, List.nodup_singleton _, by simpa using hmem⟩
    obtain ⟨ha, hb, hc⟩ := ih (bumpCount (branchOf t) acc) hnd2
    refine ⟨ha, ?_, ?_⟩
    · intro b
      rw [List.foldl_cons, hb b]
      by_cases hbt : branchOf t = b
      · subst hbt
        rw [bumpCount_lookup_self]
        have hv : branchVotes (t :: ts) (branchOf t) = branchVotes ts (branchOf t) + 1 := by
          unfold branchVotes
          rw [List.countP_cons]
          simp
        rw [hv]
        simp only [Option.getD_some]
        omega
      · rw [bumpCount_lookup_other (fun hcon => hbt hcon.symm)]
        have hv : branchVotes (t :: ts) b = branchVotes ts b := by
          unfold branchVotes
          rw [List.countP_cons]
          simp [hbt]
        rw [hv]
    · intro b
      rw [List.foldl_cons, hc b]
      by_cases hbt : branchOf t = b
      · subst hbt
        rw [bumpCount_lookup_self]
        simp
      · rw [bumpCount_lookup_other (fun hcon => hbt hcon.symm)]
        constructor
        · rintro (h | h)
          · exact Or.inl h
          · obtain ⟨t', ht', he⟩ := h
            exact Or.inr ⟨t', List.mem_cons_of_mem _ ht', he⟩
        · rintro (h | ⟨t', ht', he⟩)
          · exact Or.inl h
          · rcases List.mem_cons.mp ht' with rfl | hmem
            · exact absurd he hbt
            · exact Or.inr ⟨t', hmem, he⟩

theorem branchKeyLE_trans {a b c : String × String} (hab : BranchKeyLE a b)
    (hbc : BranchKeyLE b c) : BranchKeyLE a c := by
  unfold BranchKeyLE at hab hbc ⊢
  rcases hab with h1 | ⟨h1, h1s⟩ <;> rcases hbc with h2 | ⟨h2, h2s⟩
  · exact Or.inl (lt_trans h1 h2)
  · exact Or.inl (lt_of_lt_of_le h1 (le_of_eq h2))
  · exact Or.inl (lt_of_le_of_lt (le_of_eq h1) h2)
  · refine Or.inr ⟨h1.trans h2, ?_⟩
    rcases h1s with h3 | h3 <;> rcases h2s with h4 | h4
    · exact Or.inl (Taxo.strLtB_trans h3 h4)
    · exact Or.inl (h4 ▸ h3)
    · exact Or.inl (h3 ▸ h4)
    · exact Or.inr (h3.trans h4)

instance : IsTrans (String × String) BranchKeyLE :=
  ⟨fun _ _ _ => branchKeyLE_trans⟩

theorem branchKeyLE_total (a b : String × String) : BranchKeyLE a b ∨ BranchKeyLE b a := by
  unfold BranchKeyLE
  rcases Nat.lt_trichotomy (category_priority_index a.1) (category_priority_index b.1)
    with h | h | h
  · exact Or.inl (Or.inl h)
  · by_cases h2 : Taxo.strLtB a.2 b.2 = true
    · exact Or.inl (Or.inr ⟨h, Or.inl h2⟩)
    · by_cases h3 : Taxo.strLtB b.2 a.2 = true
      · exact Or.inr (Or.inr ⟨h.symm, Or.inl h3⟩)
      · have heq : a.2 = b.2 :=
          Taxo.strLtB_conn (Bool.of_not_eq_true h2) (Bool.of_not_eq_true h3)
        exact Or.inl (Or.inr ⟨h, Or.inr heq⟩)
  · exact Or.inr (Or.inl h)

instance : IsTotal (String × String) BranchKeyLE := ⟨branchKeyLE_total⟩

theorem branchKeyLE_refl (a : String × String) : BranchKeyLE a a :=
  Or.inr ⟨rfl, Or.inr rfl⟩

end Migrate

namespace Migrate

/-- The concrete 2-2 music-vs-nightlife target list from the spec's tie-break
scenario. -/
def tieExample : List Target :=
  [("music", "electronic", 1), ("music", "electronic", 2),
   ("nightlife", "clubs", 3), ("nightlife", "clubs", 4)]

theorem choose_branch_core :
    ∀ (ts : List Target) (txt : Option String), ts ≠ [] →
      (∃ t ∈ ts, branchOf t = choose_branch ts txt) ∧
      (∀ b, branchVotes ts b ≤ branchVotes ts (choose_branch ts txt)) ∧
      (∀ b, branchVotes ts b = branchVotes ts (choose_branch ts txt) →
        (∃ t ∈ ts, branchOf t = b) → BranchKeyLE (choose_branch ts txt) b) := by
  intro ts txt hne
  obtain ⟨t0, ts', rfl⟩ := List.exists_cons_of_ne_nil hne
  obtain ⟨hnd, hval, hsome⟩ := tallyAux_spec (t0 :: ts') [] (by simp)
  set counts := (t0 :: ts').foldl (fun acc t => bumpCount (branchOf t) acc) [] with hcounts
  set maxc := (counts.map (·.2)).foldl max 0 with hmaxc
  have hlookupnil : ∀ b : String × String, (List.lookup b ([] : List ((String × String) × Nat))) = none := by
    intro b; rfl
  have hval2 : ∀ b, ((counts.lookup b).getD 0) = branchVotes (t0 :: ts') b := by
    intro b
    have := hval b
    rw [hlookupnil b] at this
    simpa using this
  have hsome2 : ∀ b, (counts.lookup b).isSome ↔ ∃ t ∈ t0 :: ts', branchOf t = b := by
    intro b
    have := hsome b
    rw [hlookupnil b] at this
    simpa using this
  have hbranchLookup : ∀ b, (∃ t ∈ t0 :: ts', branchOf t = b) →
      counts.lookup b = some (branchVotes (t0 :: ts') b) := by
    intro b hb
    obtain ⟨v, hv⟩ := Option.isSome_iff_exists.mp ((hsome2 b).mpr hb)
    have := hval2 b
    rw [hv] at this ⊢
    simp only [Option.getD_some] at this
    rw [this]
  have hentry : ∀ e ∈ counts, e.2 = branchVotes (t0 :: ts') e.1 ∧
      ∃ t ∈ t0 :: ts', branchOf t = e.1 := by
    intro e he
    obtain ⟨b, n⟩ := e
    have hl : counts.lookup b = some n := Taxo.mem_lookup_of_nodup hnd he
    have hb : ∃ t ∈ t0 :: ts', branchOf t = b := (hsome2 b).mp (by rw [hl]; rfl)
    have hv := hval2 b
    rw [hl] at hv
    simp only [Option.getD_some] at hv
    exact ⟨hv, hb⟩
  have hvotes_le : ∀ b, branchVotes (t0 :: ts') b ≤ maxc := by
    intro b
    by_cases hb : ∃ t ∈ t0 :: ts', branchOf t = b
    · have hl := hbranchLookup b hb
      have hmem : branchVotes (t0 :: ts') b ∈ counts.map (·.2) :=
        List.mem_map.mpr ⟨(b, branchVotes (t0 :: ts') b), Taxo.lookup_mem hl, rfl⟩
      exact Taxo.mem_le_foldl_max hmem 0
    · have h0 : branchVotes (t0 :: ts') b = 0 := by
        unfold branchVotes
        rw [List.countP_eq_zero]
        intro t ht
        simp only [beq_iff_eq]
        exact fun hcon => hb ⟨t, ht, hcon⟩
      rw [h0]
      exact Nat.zero_le _
  have hmax_pos : 1 ≤ maxc := by
    have hb0 : ∃ t ∈ t0 :: ts', branchOf t = branchOf t0 := ⟨t0, by simp, rfl⟩
    have h1 : 1 ≤ branchVotes (t0 :: ts') (branchOf t0) := by
      unfold branchVotes
      rw [Nat.succ_le_iff, List.countP_pos_iff]
      exact ⟨t0, by simp, by simp⟩
    exact le_trans h1 (hvotes_le _)
  have hmax_mem : maxc ∈ counts.map (·.2) := by
    rcases Taxo.foldl_max_cases 0 (counts.map (·.2)) with h | h
    · rw [← hmaxc] at h
      omega
    · rw [← hmaxc] at h
      exact h
  set candidates := (counts.filter (fun e => e.2 == maxc)).map (·.1) with hcand
  have hcand_ne : candidates ≠ [] := by
    obtain ⟨e, he, hev⟩ := List.mem_map.mp hmax_mem
    have hef : e ∈ counts.filter (fun e => e.2 == maxc) :=
      List.mem_filter.mpr ⟨he, by simp [hev]⟩
    intro hcon
    have : e.1 ∈ candidates := List.mem_map.mpr ⟨e, hef, rfl⟩
    rw [hcon] at this
    simp at this
  have hcand_spec : ∀ b ∈ candidates, branchVotes (t0 :: ts') b = maxc ∧
      ∃ t ∈ t0 :: ts', branchOf t = b := by
    intro b hb
    obtain ⟨e, hef, hb1⟩ := List.mem_map.mp hb
    obtain ⟨he, hev⟩ := List.mem_filter.mp hef
    obtain ⟨hv, hbr⟩ := hentry e he
    subst hb1
    refine ⟨?_, hbr⟩
    rw [← hv]
    simpa using hev
  have hcand_complete : ∀ b, branchVotes (t0 :: ts') b = maxc →
      (∃ t ∈ t0 :: ts', branchOf t = b) → b ∈ candidates := by
    intro b hv hb
    have hl := hbranchLookup b hb
    rw [hv] at hl
    have hmem : (b, maxc) ∈ counts := Taxo.lookup_mem hl
    exact List.mem_map.mpr ⟨(b, maxc), List.mem_filter.mpr ⟨hmem, by simp⟩, rfl⟩
  have hsorted := List.sorted_insertionSort BranchKeyLE candidates
  have hperm : List.Perm (List.insertionSort BranchKeyLE candidates) candidates :=
    List.perm_insertionSort BranchKeyLE candidates
  have hms_ne : List.insertionSort BranchKeyLE candidates ≠ [] := by
    intro hcon
    have := hperm.length_eq
    rw [hcon] at this
    simp at this
    exact hcand_ne (List.eq_nil_of_length_eq_zero this.symm)
  obtain ⟨h0, rest, hms⟩ := List.exists_cons_of_ne_nil hms_ne
  have hcb : choose_branch (t0 :: ts') txt = h0 := by
    show (List.insertionSort BranchKeyLE candidates).headD ("other", "other") = h0
    rw [hms]
    rfl
  have hh0_mem : h0 ∈ candidates := hperm.mem_iff.mp (by rw [hms]; simp)
  have hh0_min : ∀ b ∈ candidates, BranchKeyLE h0 b := by
    intro b hb
    have hmem2 : b ∈ List.insertionSort BranchKeyLE candidates := hperm.mem_iff.mpr hb
    rw [hms] at hmem2
    rcases List.mem_cons.mp hmem2 with rfl | hmem3
    · exact branchKeyLE_refl b
    · rw [hms] at hsorted
      exact (List.pairwise_cons.mp hsorted).1 b hmem3
  rw [hcb]
  obtain ⟨hv0, hbr0⟩ := hcand_spec h0 hh0_mem
  refine ⟨hbr0, ?_, ?_⟩
  · intro b
    rw [hv0]
    exact hvotes_le b
  · intro b hbv hbbr
    refine hh0_min b (hcand_complete b ?_ hbbr)
    rw [hbv, hv0]

/-- C1: `choose_branch` picks a branch that actually receives votes, with the
maximum vote count, minimal under the (category-priority-index, subcategory-slug)
lexicographic order among all maximal-vote branches; and on a 2-2 split between a
music branch and a nightlife branch it selects the music branch. -/
theorem choose_branch_max_vote_priority_tiebreak :
    (∀ (ts : List Migrate.Target) (txt : Option String), ts ≠ [] →
      (∃ t ∈ ts, Migrate.branchOf t = Migrate.choose_branch ts txt) ∧
      (∀ b, Migrate.branchVotes ts b ≤
        Migrate.branchVotes ts (Migrate.choose_branch ts txt)) ∧
      (∀ b, Migrate.branchVotes ts b =
          Migrate.branchVotes ts (Migrate.choose_branch ts txt) →
        (∃ t ∈ ts, Migrate.branchOf t = b) →
        Migrate.BranchKeyLE (Migrate.choose_branch ts txt) b)) ∧
    Migrate.choose_branch Migrate.tieExample none = ("music", "electronic") := by
  refine ⟨choose_branch_core, ?_⟩
  obtain ⟨⟨t, ht, hbr⟩, _, htie⟩ := choose_branch_core tieExample none (by decide)
  set cb := choose_branch tieExample none with hcb
  have hcases : cb = ("music", "electronic") ∨ cb = ("nightlife", "clubs") := by
    rw [← hbr]
    fin_cases ht <;> simp [branchOf]
  rcases hcases with h | h
  · exact h
  · exfalso
    have hv : branchVotes tieExample ("music", "electronic") = branchVotes tieExample cb := by
      rw [h]
      decide
    have hb : ∃ t ∈ tieExample, branchOf t = ("music", "electronic") := by
      refine ⟨("music", "electronic", 1), by decide, by decide⟩
    have hle := htie ("music", "electronic") hv hb
    rw [h] at hle
    revert hle
    decide

end Migrate

/-- Witness for C1: the hypotheses of the general part hold at the concrete 2-2
tie list, where the chosen branch is the branch of one of the targets. -/
theorem choose_branch_tiebreak_witness :
    Migrate.tieExample ≠ [] ∧
    ∃ t ∈ Migrate.tieExample,
      Migrate.branchOf t = Migrate.choose_branch Migrate.tieExample none :=
  ⟨by decide,
    (Migrate.choose_branch_max_vote_priority_tiebreak.1 Migrate.tieExample none (by decide)).1⟩

namespace Migrate

/-- A subcategory entry of `TAXONOMY_SPEC`: slug, display name, tag slugs. -/
structure SubSpec where
  slug : String
  name : String
  tags : List String
deriving DecidableEq

/-- A category entry of `TAXONOMY_SPEC`. -/
structure CatSpec where
  slug : String
  name : String
  subs : List SubSpec
deriving DecidableEq

/-- Embeds `TAXONOMY_SPEC` (lines 27-81) as an insertion-ordered list. -/
def TAXONOMY_SPEC : List CatSpec :=
  [⟨"music", "Music",
    [⟨"electronic", "Electronic", ["techno", "house", "drum-bass", "trance", "electronic"]⟩,
     ⟨"rock-indie", "Rock & Indie", ["live", "rock", "indie"]⟩,
     ⟨"jazz-blues", "Jazz & Blues", ["jazz", "blues"]⟩,
     ⟨"classical", "Classical", ["orchestra", "chamber-music"]⟩]⟩,
   ⟨"nightlife", "Nightlife",
    [⟨"clubs", "Clubs", ["vip", "dance-night"]⟩,
     ⟨"bars-lounges", "Bars & Lounges", ["cocktail", "afterwork"]⟩]⟩,
   ⟨"food-drink", "Food & Drink",
    [⟨"wine", "Wine", ["wine-tasting", "vineyard-tour"]⟩,
     ⟨"beer", "Beer", ["craft-beer", "beer-pairing"]⟩,
     ⟨"street-food", "Street Food", ["food-truck", "tasting-menu"]⟩]⟩,
   ⟨"arts-culture", "Arts & Culture",
    [⟨"theater", "Theater", ["improvisation", "drama"]⟩,
     ⟨"visual-arts", "Visual Arts", ["art", "gallery-night"]⟩,
     ⟨"museums-heritage", "Museums & Heritage", ["museum-tour", "heritage-walk"]⟩]⟩,
   ⟨"entertainment", "Entertainment",
    [⟨"comedy-shows", "Comedy Shows", ["stand-up", "family"]⟩,
     ⟨"film-media", "Film & Media", ["cinema", "tech"]⟩,
     ⟨"gaming", "Gaming", ["esports", "board-games", "indoor"]⟩]⟩,
   ⟨"outdoor", "Outdoor",
    [⟨"adventure-outdoors", "Adventure & Outdoors", ["hiking", "outdoor"]⟩,
     ⟨"festivals-markets", "Festivals & Markets", ["farmers-market", "open-air"]⟩]⟩,
   ⟨"other", "Other", [⟨"other", "Other", ["unmapped"]⟩]⟩]

/-- A row of the `categories` table (id, name, slug). -/
structure CatRow where
  id : Nat
  name : String
  slug : String
deriving DecidableEq

/-- A row of the `subcategories` table. -/
structure SubRow where
  id : Nat
  categoryId : Nat
  name : String
  slug : String
deriving DecidableEq

/-- A row of the `tags` table (`created_at` is irrelevant to the migration model
and omitted; the cache model in `MainSrv` carries timestamps explicitly). -/
structure TagRow where
  id : Nat
  subcategoryId : Nat
  name : String
  slug : String
deriving DecidableEq

/-- The durable state touched by `seed_taxonomy`: the three taxonomy tables plus a
fresh-id counter standing for the database's id generator. -/
structure DB where
  cats : List CatRow
  subs : List SubRow
  tags : List TagRow
  nextId : Nat
deriving DecidableEq

def emptyDB : DB := ⟨[], [], [], 0⟩

/-- Core of `INSERT ... ON CONFLICT (slug) DO UPDATE SET name = EXCLUDED.name
RETURNING id` on the categories table: update the row with the conflicting slug in
place, else append a fresh row.  Returns (rows, id, inserted?). -/
def upsertCatRows (name slug : String) (fresh : Nat) :
    List CatRow → List CatRow × Nat × Bool
  | [] => ([⟨fresh, name, slug⟩], fresh, true)
  | r :: rest =>
    if r.slug = slug then (⟨r.id, name, slug⟩ :: rest, r.id, false)
    else
      let (rs, i, isNew) := upsertCatRows name slug fresh rest
      (r :: rs, i, isNew)

/-- Embeds `upsert_category` (lines 315-325). -/
def upsert_category (db : DB) (name slug : String) : DB × Nat :=
  let (rows, i, isNew) := upsertCatRows name slug db.nextId db.cats
  ({ db with cats := rows, nextId := if isNew then db.nextId + 1 else db.nextId }, i)

/-- Like `upsertCatRows` for subcategories; the conflict update also rewrites
`category_id` (lines 328-340). -/
def upsertSubRows (categoryId : Nat) (name slug : String) (fresh : Nat) :
    List SubRow → List SubRow × Nat × Bool
  | [] => ([⟨fresh, categoryId, name, slug⟩], fresh, true)
  | r :: rest =>
    if r.slug = slug then (⟨r.id, categoryId, name, slug⟩ :: rest, r.id, false)
    else
      let (rs, i, isNew) := upsertSubRows categoryId name slug fresh rest
      (r :: rs, i, isNew)

/-- Embeds `upsert_subcategory` (lines 328-340). -/
def upsert_subcategory (db : DB) (categoryId : Nat) (name slug : String) : DB × Nat :=
  let (rows, i, isNew) := upsertSubRows categoryId name slug db.nextId db.subs
  ({ db with subs := rows, nextId := if isNew then db.nextId + 1 else db.nextId }, i)

/-- Like `upsertCatRows` for tags; the conflict update rewrites `name` and
`subcategory_id` (lines 343-356). -/
def upsertTagRows (subcategoryId : Nat) (name slug : String) (fresh : Nat) :
    List TagRow → List TagRow × Nat × Bool
  | [] => ([⟨fresh, subcategoryId, name, slug⟩], fresh, true)
  | r :: rest =>
    if r.slug = slug then (⟨r.id, subcategoryId, name, slug⟩ :: rest, r.id, false)
    else
      let (rs, i, isNew) := upsertTagRows subcategoryId name slug fresh rest
      (r :: rs, i, isNew)

/-- Embeds `upsert_tag` (lines 343-356). -/
def upsert_tag (db : DB) (subcategoryId : Nat) (name slug : String) : DB × Nat :=
  let (rows, i, isNew) := upsertTagRows subcategoryId name slug db.nextId db.tags
  ({ db with tags := rows, nextId := if isNew then db.nextId + 1 else db.nextId }, i)

/-- Python `tag_slug.replace("-", " ")`. -/
def pyReplaceDashSpace (s : String) : String :=
  ⟨s.data.map (fun c => if c = '-' then ' ' else c)⟩

/-- ASCII letter test used by the `str.title()` model. -/
def isAsciiAlpha (c : Char) : Bool :=
  (65 ≤ c.toNat && c.toNat ≤ 90) || (97 ≤ c.toNat && c.toNat ≤ 122)

/-- Python `str.title()` (ASCII model): uppercase each letter that follows a
non-letter, lowercase the rest. -/
def pyTitleAux : Bool → List Char → List Char
  | _, [] => []
  | prevAlpha, c :: rest =>
    (if isAsciiAlpha c then (if prevAlpha then Char.toLower c else Char.toUpper c) else c) ::
      pyTitleAux (isAsciiAlpha c) rest

def pyTitle (s : String) : String := ⟨pyTitleAux false s.data⟩

/-- `tag_name = tag_slug.replace("-", " ").title()` (line 379). -/
def tagNameOfSlug (slug : String) : String := pyTitle (pyReplaceDashSpace slug)

/-- Python dict assignment `m[k] = v` on an insertion-ordered association list:
update the existing entry in place, else append. -/
def assocSet {α β : Type} [BEq α] : List (α × β) → α → β → List (α × β)
  | [], k, v => [(k, v)]
  | (k0, v0) :: rest, k, v =>
    if k0 == k then (k, v) :: rest else (k0, v0) :: assocSet rest k v

/-- Python `m.setdefault(k, []).append(v)` on an association list of lists. -/
def assocAppend {α β : Type} [BEq α] (m : List (α × List β)) (k : α) (v : β) :
    List (α × List β) :=
  match m.lookup k with
  | none => m ++ [(k, [v])]
  | some vs => assocSet m k (vs ++ [v])

/-- The in-memory mapping structure returned by `seed_taxonomy` (lines 392-400).
Tag ids are naturals (the model of the UUIDs handed out by the database). -/
structure Taxonomy where
  category_ids : List (String × Nat)
  category_name_by_slug : List (String × String)
  subcategory_ids : List ((String × String) × Nat)
  tag_ids : List ((String × String × String) × Nat)
  tag_slug_index : List (String × List Target)
  legacy_unmapped_by_branch : List ((String × String) × Nat)
  global_fallback_tag_id : Nat
deriving DecidableEq

def emptyTaxonomy : Taxonomy := ⟨[], [], [], [], [], [], 0⟩

/-- Seeding of one spec tag inside a subcategory (lines 378-382). -/
def seedTag (catSlug subSlug : String) (subId : Nat) (st : DB × Taxonomy)
    (tagSlug : String) : DB × Taxonomy :=
  let (db2, tagId) := upsert_tag st.1 subId (tagNameOfSlug tagSlug) tagSlug
  (db2, { st.2 with
    tag_ids := assocSet st.2.tag_ids (catSlug, subSlug, tagSlug) tagId,
    tag_slug_index := assocAppend st.2.tag_slug_index tagSlug (catSlug, subSlug, tagId) })

/-- Seeding of one subcategory: its row, its spec tags, and its synthetic
`legacy-unmapped-<subcategory>` fallback tag (lines 373-388). -/
def seedSub (catSlug : String) (catId : Nat) (st : DB × Taxonomy)
    (sub : SubSpec) : DB × Taxonomy :=
  let (db2, subId) := upsert_subcategory st.1 catId sub.name sub.slug
  let tax2 := { st.2 with
    subcategory_ids := assocSet st.2.subcategory_ids (catSlug, sub.slug) subId }
  let st3 := sub.tags.foldl (seedTag catSlug sub.slug subId) (db2, tax2)
  let fallbackSlug := "legacy-unmapped-" ++ sub.slug
  let (db4, fbId) := upsert_tag st3.1 subId "Legacy Unmapped" fallbackSlug
  (db4, { st3.2 with
    tag_ids := assocSet st3.2.tag_ids (catSlug, sub.slug, fallbackSlug) fbId,
    tag_slug_index := assocAppend st3.2.tag_slug_index fallbackSlug (catSlug, sub.slug, fbId),
    legacy_unmapped_by_branch :=
      assocSet st3.2.legacy_unmapped_by_branch (catSlug, sub.slug) fbId })

/-- Seeding of one category and its subtree (lines 367-388). -/
def seedCat (st : DB × Taxonomy) (cat : CatSpec) : DB × Taxonomy :=
  let (db2, catId) := upsert_category st.1 cat.name cat.slug
  let tax2 := { st.2 with
    category_ids := assocSet st.2.category_ids cat.slug catId,
    category_name_by_slug := assocSet st.2.category_name_by_slug cat.slug cat.name }
  cat.subs.foldl (seedSub cat.slug catId) (db2, tax2)

/-- Embeds `seed_taxonomy` (lines 359-400). -/
def seed_taxonomy (db : DB) : DB × Taxonomy :=
  let st := TAXONOMY_SPEC.foldl seedCat (db, emptyTaxonomy)
  (st.1, { st.2 with
    global_fallback_tag_id := (st.2.tag_ids.lookup ("other", "other", "unmapped")).getD 0 })

end Migrate

/-- C4: `seed_taxonomy` is idempotent — running it a second time over the database
produced by the first run returns exactly the same slug-to-id mappings (categories,
subcategories, tags, and per-subcategory fallback tags) and leaves the database
rows unchanged, and the seeded tables hold no duplicate slugs. -/
theorem seed_taxonomy_idempotent :
    (Migrate.seed_taxonomy (Migrate.seed_taxonomy Migrate.emptyDB).1).2 =
      (Migrate.seed_taxonomy Migrate.emptyDB).2 ∧
    (Migrate.seed_taxonomy (Migrate.seed_taxonomy Migrate.emptyDB).1).1 =
      (Migrate.seed_taxonomy Migrate.emptyDB).1 ∧
    ((Migrate.seed_taxonomy Migrate.emptyDB).1.cats.map (·.slug)).Nodup ∧
    ((Migrate.seed_taxonomy Migrate.emptyDB).1.subs.map (·.slug)).Nodup ∧
    ((Migrate.seed_taxonomy Migrate.emptyDB).1.tags.map (·.slug)).Nodup := by
  refine ⟨?_, ?_, by decide, by decide, by decide⟩ <;> decide

namespace Migrate

/-- Python key of a raw tag slug: `str(item).strip().lower()` (line 407). -/
def slugKey (s : String) : String := Taxo.pyLower (Taxo.pyStrip s)

/-- Embeds `normalize_legacy_tag_keys` (lines 403-411): the set of nonempty keys
built from tag slugs (strip+lower) and tag names (slugify), as a canonical sorted
duplicate-free list. -/
def normalize_legacy_tag_keys (tag_names tag_slugs : List String) : List String :=
  Taxo.canonStr
    ((((tag_slugs.filter (· ≠ "")).map slugKey) ++
        ((tag_names.filter (· ≠ "")).map slugify)).filter (· ≠ ""))

/-- Embeds `LEGACY_TAG_HINTS` (lines 108-117). -/
def LEGACY_TAG_HINTS : List (String × String × String × String) :=
  [("electronic", "music", "electronic", "electronic"),
   ("live", "music", "rock-indie", "live"),
   ("outdoor", "outdoor", "adventure-outdoors", "outdoor"),
   ("indoor", "entertainment", "gaming", "indoor"),
   ("vip", "nightlife", "clubs", "vip"),
   ("family", "entertainment", "comedy-shows", "family"),
   ("art", "arts-culture", "visual-arts", "art"),
   ("tech", "entertainment", "film-media", "tech")]

/-- The hint-table path of `resolve_legacy_tag_target` (lines 443-447): when the
key is a hint, look the hinted `(category, subcategory, tag-slug)` triple up in
`tag_ids`; an absent id falls through (the Python `if tag_id:` guard). -/
def resolve_via_hint (legacy_key : String) (tax : Taxonomy) : Option Target :=
  (LEGACY_TAG_HINTS.lookup legacy_key).bind (fun hint =>
    (tax.tag_ids.lookup hint).map (fun tagId => (hint.1, hint.2.1, tagId)))

/-- The slug-index path (lines 449-452): a unique candidate in the global slug
index resolves, zero or several candidates do not. -/
def resolve_from_index (legacy_key : String) (tax : Taxonomy) : Option Target :=
  match tax.tag_slug_index.lookup legacy_key with
  | some [t] => some t
  | _ => none

/-- Embeds `resolve_legacy_tag_target` (lines 439-452): hint table first, then the
unique-match index lookup. -/
def resolve_legacy_tag_target (legacy_key : String) (tax : Taxonomy) : Option Target :=
  (resolve_via_hint legacy_key tax).or (resolve_from_index legacy_key tax)

/-- The per-event slice of the batch query (lines 467-487): legacy category text
and the distinct names and slugs of the tags linked to the event. -/
structure EventIn where
  categoryText : Option String
  tagNames : List String
  tagSlugs : List String
deriving DecidableEq

/-- The per-event result of the backfill: the chosen branch's category and
subcategory ids and the sorted deduplicated replacement tag-id set. -/
structure EventOut where
  categoryId : Nat
  subcategoryId : Nat
  tagIds : List Nat
deriving DecidableEq

/-- The `mapped_targets` accumulation (lines 491-495), iterating the key set in
its canonical sorted order. -/
def mappedTargets (tax : Taxonomy) (keys : List String) : List Target :=
  keys.filterMap (fun k => resolve_legacy_tag_target k tax)

/-- The chosen branch of an event. -/
def chosenOf (tax : Taxonomy) (e : EventIn) : String × String :=
  choose_branch (mappedTargets tax (normalize_legacy_tag_keys e.tagNames e.tagSlugs))
    e.categoryText

/-- One key's contribution to `next_tag_ids` in the sorted key loop
(lines 524-556): a target in the chosen branch keeps its tag, anything else is
replaced by the chosen branch's fallback tag. -/
def nextTagOfKey (tax : Taxonomy) (chosen : String × String) (fallbackId : Nat)
    (key : String) : Nat :=
  match resolve_legacy_tag_target key tax with
  | some (c, s, tid) => if c = chosen.1 ∧ s = chosen.2 then tid else fallbackId
  | none => fallbackId

/-- The `next_tag_ids` collection before dedup-sorting (lines 504-559): the
fallback tag alone for a tagless event, else one contribution per sorted key;
the `if not next_tag_ids` global-fallback arm is included (it is unreachable). -/
def rawTagsOf (tax : Taxonomy) (keys : List String) (chosen : String × String)
    (fbId : Nat) : List Nat :=
  let raw : List Nat :=
    match keys with
    | [] => [fbId]
    | _ :: _ => keys.map (nextTagOfKey tax chosen fbId)
  if raw = [] then [tax.global_fallback_tag_id] else raw

/-- Embeds the per-event body of `process_batches` (lines 487-589): normalize the
legacy keys, resolve targets, choose the branch, set the event's category and
subcategory ids, and replace its tag links by the new sorted tag-id set.  The
taxonomy dictionary indexings (`taxonomy["category_ids"][...]` etc.) are `Option`
lookups chained by `bind`; `none` models a `KeyError`. -/
def process_event (tax : Taxonomy) (e : EventIn) : Option EventOut :=
  let legacy_keys := normalize_legacy_tag_keys e.tagNames e.tagSlugs
  let chosen := chosenOf tax e
  (tax.category_ids.lookup chosen.1).bind (fun catId =>
    (tax.subcategory_ids.lookup chosen).bind (fun subId =>
      (tax.legacy_unmapped_by_branch.lookup chosen).map (fun fbId =>
        ⟨catId, subId, Taxo.canonNat (rawTagsOf tax legacy_keys chosen fbId)⟩)))

/-- The database state after `seed_taxonomy` on a fresh database. -/
def seededDB : DB := (seed_taxonomy emptyDB).1

/-- The taxonomy mapping produced by `seed_taxonomy` on a fresh database. -/
def seededTax : Taxonomy := (seed_taxonomy emptyDB).2

/-- Distinct tag names of the given linked tag ids (the `array_agg(DISTINCT
t.name)` column for an event whose links are `ids`). -/
def tagNamesOf (db : DB) (ids : List Nat) : List String :=
  ids.filterMap (fun i => (db.tags.find? (fun r => r.id == i)).map (·.name))

/-- Distinct tag slugs of the given linked tag ids. -/
def tagSlugsOf (db : DB) (ids : List Nat) : List String :=
  ids.filterMap (fun i => (db.tags.find? (fun r => r.id == i)).map (·.slug))

/-- The event row seen by a second backfill run: the first run's category text
(any non-empty coalesced value) and the names/slugs of the replacement tags. -/
def eventAfter (db : DB) (o : EventOut) (categoryText : Option String) : EventIn :=
  ⟨categoryText, tagNamesOf db o.tagIds, tagSlugsOf db o.tagIds⟩

/-- All tag ids the backfill can attach for a given branch: the branch's seeded
tags, its fallback included. -/
def poolOf (tax : Taxonomy) (b : String × String) : List Nat :=
  tax.tag_ids.filterMap
    (fun e => if e.1.1 = b.1 ∧ e.1.2.1 = b.2 then some e.2 else none)

def catIdOf (tax : Taxonomy) (b : String × String) : Nat :=
  (tax.category_ids.lookup b.1).getD 0

def subIdOf (tax : Taxonomy) (b : String × String) : Nat :=
  (tax.subcategory_ids.lookup b).getD 0

/-- The reprocessed event for a concrete replacement tag set. -/
def eventForTags (db : DB) (tl : List Nat) : EventIn :=
  ⟨none, tagNamesOf db tl, tagSlugsOf db tl⟩

/-- Finite check for one branch: every nonempty sorted subset `T` of the branch's
tag pool reprocesses to exactly the same branch ids and the same tag set, with a
nonempty mapped-target list. -/
def branchCheck (tax : Taxonomy) (db : DB) (b : String × String) : Bool :=
  (poolOf tax b).sublists.all (fun T =>
    T.isEmpty ||
      (decide (process_event tax (eventForTags db T) =
          some ⟨catIdOf tax b, subIdOf tax b, T⟩) &&
        !(mappedTargets tax
            (normalize_legacy_tag_keys (eventForTags db T).tagNames
              (eventForTags db T).tagSlugs)).isEmpty))

end Migrate

namespace Migrate

/-- Literal value of `seededTax`, extracted once so that the finite kernel checks
below run on plain list literals; `seededTaxLit_eq` verifies it against
`seed_taxonomy`. -/
def seededTaxLit : Taxonomy :=
  ⟨[("music", 0), ("nightlife", 21), ("food-drink", 30), ("arts-culture", 43),
    ("entertainment", 56), ("outdoor", 70), ("other", 79)],
   [("music", "Music"), ("nightlife", "Nightlife"), ("food-drink", "Food & Drink"),
    ("arts-culture", "Arts & Culture"), ("entertainment", "Entertainment"),
    ("outdoor", "Outdoor"), ("other", "Other")],
   [(("music", "electronic"), 1), (("music", "rock-indie"), 8),
    (("music", "jazz-blues"), 13), (("music", "classical"), 17),
    (("nightlife", "clubs"), 22), (("nightlife", "bars-lounges"), 26),
    (("food-drink", "wine"), 31), (("food-drink", "beer"), 35),
    (("food-drink", "street-food"), 39), (("arts-culture", "theater"), 44),
    (("arts-culture", "visual-arts"), 48), (("arts-culture", "museums-heritage"), 52),
    (("entertainment", "comedy-shows"), 57), (("entertainment", "film-media"), 61),
    (("entertainment", "gaming"), 65), (("outdoor", "adventure-outdoors"), 71),
    (("outdoor", "festivals-markets"), 75), (("other", "other"), 80)],
   [(("music", "electronic", "techno"), 2), (("music", "electronic", "house"), 3), (("music", "electronic", "drum-bass"), 4), (("music", "electronic", "trance"), 5), (("music", "electronic", "electronic"), 6), (("music", "electronic", "legacy-unmapped-electronic"), 7), (("music", "rock-indie", "live"), 9), (("music", "rock-indie", "rock"), 10), (("music", "rock-indie", "indie"), 11), (("music", "rock-indie", "legacy-unmapped-rock-indie"), 12), (("music", "jazz-blues", "jazz"), 14), (("music", "jazz-blues", "blues"), 15), (("music", "jazz-blues", "legacy-unmapped-jazz-blues"), 16), (("music", "classical", "orchestra"), 18), (("music", "classical", "chamber-music"), 19), (("music", "classical", "legacy-unmapped-classical"), 20), (("nightlife", "clubs", "vip"), 23), (("nightlife", "clubs", "dance-night"), 24), (("nightlife", "clubs", "legacy-unmapped-clubs"), 25), (("nightlife", "bars-lounges", "cocktail"), 27), (("nightlife", "bars-lounges", "afterwork"), 28), (("nightlife", "bars-lounges", "legacy-unmapped-bars-lounges"), 29), (("food-drink", "wine", "wine-tasting"), 32), (("food-drink", "wine", "vineyard-tour"), 33), (("food-drink", "wine", "legacy-unmapped-wine"), 34), (("food-drink", "beer", "craft-beer"), 36), (("food-drink", "beer", "beer-pairing"), 37), (("food-drink", "beer", "legacy-unmapped-beer"), 38), (("food-drink", "street-food", "food-truck"), 40), (("food-drink", "street-food", "tasting-menu"), 41), (("food-drink", "street-food", "legacy-unmapped-street-food"), 42), (("arts-culture", "theater", "improvisation"), 45), (("arts-culture", "theater", "drama"), 46), (("arts-culture", "theater", "legacy-unmapped-theater"), 47), (("arts-culture", "visual-arts", "art"), 49), (("arts-culture", "visual-arts", "gallery-night"), 50), (("arts-culture", "visual-arts", "legacy-unmapped-visual-arts"), 51), (("arts-culture", "museums-heritage", "museum-tour"), 53), (("arts-culture", "museums-heritage", "heritage-walk"), 54), (("arts-culture", "museums-heritage", "legacy-unmapped-museums-heritage"), 55), (("entertainment", "comedy-shows", "stand-up"), 58), (("entertainment", "comedy-shows", "family"), 59), (("entertainment", "comedy-shows", "legacy-unmapped-comedy-shows"), 60), (("entertainment", "film-media", "cinema"), 62), (("entertainment", "film-media", "tech"), 63), (("entertainment", "film-media", "legacy-unmapped-film-media"), 64), (("entertainment", "gaming", "esports"), 66), (("entertainment", "gaming", "board-games"), 67), (("entertainment", "gaming", "indoor"), 68), (("entertainment", "gaming", "legacy-unmapped-gaming"), 69), (("outdoor", "adventure-outdoors", "hiking"), 72), (("outdoor", "adventure-outdoors", "outdoor"), 73), (("outdoor", "adventure-outdoors", "legacy-unmapped-adventure-outdoors"), 74), (("outdoor", "festivals-markets", "farmers-market"), 76), (("outdoor", "festivals-markets", "open-air"), 77), (("outdoor", "festivals-markets", "legacy-unmapped-festivals-markets"), 78), (("other", "other", "unmapped"), 81), (("other", "other", "legacy-unmapped-other"), 82)],
   [("techno", [("music", "electronic", 2)]), ("house", [("music", "electronic", 3)]), ("drum-bass", [("music", "electronic", 4)]), ("trance", [("music", "electronic", 5)]), ("electronic", [("music", "electronic", 6)]), ("legacy-unmapped-electronic", [("music", "electronic", 7)]), ("live", [("music", "rock-indie", 9)]), ("rock", [("music", "rock-indie", 10)]), ("indie", [("music", "rock-indie", 11)]), ("legacy-unmapped-rock-indie", [("music", "rock-indie", 12)]), ("jazz", [("music", "jazz-blues", 14)]), ("blues", [("music", "jazz-blues", 15)]), ("legacy-unmapped-jazz-blues", [("music", "jazz-blues", 16)]), ("orchestra", [("music", "classical", 18)]), ("chamber-music", [("music", "classical", 19)]), ("legacy-unmapped-classical", [("music", "classical", 20)]), ("vip", [("nightlife", "clubs", 23)]), ("dance-night", [("nightlife", "clubs", 24)]), ("legacy-unmapped-clubs", [("nightlife", "clubs", 25)]), ("cocktail", [("nightlife", "bars-lounges", 27)]), ("afterwork", [("nightlife", "bars-lounges", 28)]), ("legacy-unmapped-bars-lounges", [("nightlife", "bars-lounges", 29)]), ("wine-tasting", [("food-drink", "wine", 32)]), ("vineyard-tour", [("food-drink", "wine", 33)]), ("legacy-unmapped-wine", [("food-drink", "wine", 34)]), ("craft-beer", [("food-drink", "beer", 36)]), ("beer-pairing", [("food-drink", "beer", 37)]), ("legacy-unmapped-beer", [("food-drink", "beer", 38)]), ("food-truck", [("food-drink", "street-food", 40)]), ("tasting-menu", [("food-drink", "street-food", 41)]), ("legacy-unmapped-street-food", [("food-drink", "street-food", 42)]), ("improvisation", [("arts-culture", "theater", 45)]), ("drama", [("arts-culture", "theater", 46)]), ("legacy-unmapped-theater", [("arts-culture", "theater", 47)]), ("art", [("arts-culture", "visual-arts", 49)]), ("gallery-night", [("arts-culture", "visual-arts", 50)]), ("legacy-unmapped-visual-arts", [("arts-culture", "visual-arts", 51)]), ("museum-tour", [("arts-culture", "museums-heritage", 53)]), ("heritage-walk", [("arts-culture", "museums-heritage", 54)]), ("legacy-unmapped-museums-heritage", [("arts-culture", "museums-heritage", 55)]), ("stand-up", [("entertainment", "comedy-shows", 58)]), ("family", [("entertainment", "comedy-shows", 59)]), ("legacy-unmapped-comedy-shows", [("entertainment", "comedy-shows", 60)]), ("cinema", [("entertainment", "film-media", 62)]), ("tech", [("entertainment", "film-media", 63)]), ("legacy-unmapped-film-media", [("entertainment", "film-media", 64)]), ("esports", [("entertainment", "gaming", 66)]), ("board-games", [("entertainment", "gaming", 67)]), ("indoor", [("entertainment", "gaming", 68)]), ("legacy-unmapped-gaming", [("entertainment", "gaming", 69)]), ("hiking", [("outdoor", "adventure-outdoors", 72)]), ("outdoor", [("outdoor", "adventure-outdoors", 73)]), ("legacy-unmapped-adventure-outdoors", [("outdoor", "adventure-outdoors", 74)]), ("farmers-market", [("outdoor", "festivals-markets", 76)]), ("open-air", [("outdoor", "festivals-markets", 77)]), ("legacy-unmapped-festivals-markets", [("outdoor", "festivals-markets", 78)]), ("unmapped", [("other", "other", 81)]), ("legacy-unmapped-other", [("other", "other", 82)])],
   [(("music", "electronic"), 7), (("music", "rock-indie"), 12),
    (("music", "jazz-blues"), 16), (("music", "classical"), 20),
    (("nightlife", "clubs"), 25), (("nightlife", "bars-lounges"), 29),
    (("food-drink", "wine"), 34), (("food-drink", "beer"), 38),
    (("food-drink", "street-food"), 42), (("arts-culture", "theater"), 47),
    (("arts-culture", "visual-arts"), 51), (("arts-culture", "museums-heritage"), 55),
    (("entertainment", "comedy-shows"), 60), (("entertainment", "film-media"), 64),
    (("entertainment", "gaming"), 69), (("outdoor", "adventure-outdoors"), 74),
    (("outdoor", "festivals-markets"), 78), (("other", "other"), 82)],
   81⟩

/-- Literal value of `seededDB`; `seededDBLit_eq` verifies it. -/
def seededDBLit : DB :=
  ⟨[⟨0, "Music", "music"⟩,
   ⟨21, "Nightlife", "nightlife"⟩,
   ⟨30, "Food & Drink", "food-drink"⟩,
   ⟨43, "Arts & Culture", "arts-culture"⟩,
   ⟨56, "Entertainment", "entertainment"⟩,
   ⟨70, "Outdoor", "outdoor"⟩,
   ⟨79, "Other", "other"⟩],
   [⟨1, 0, "Electronic", "electronic"⟩,
   ⟨8, 0, "Rock & Indie", "rock-indie"⟩,
   ⟨13, 0, "Jazz & Blues", "jazz-blues"⟩,
   ⟨17, 0, "Classical", "classical"⟩,
   ⟨22, 21, "Clubs", "clubs"⟩,
   ⟨26, 21, "Bars & Lounges", "bars-lounges"⟩,
   ⟨31, 30, "Wine", "wine"⟩,
   ⟨35, 30, "Beer", "beer"⟩,
   ⟨39, 30, "Street Food", "street-food"⟩,
   ⟨44, 43, "Theater", "theater"⟩,
   ⟨48, 43, "Visual Arts", "visual-arts"⟩,
   ⟨52, 43, "Museums & Heritage", "museums-heritage"⟩,
   ⟨57, 56, "Comedy Shows", "comedy-shows"⟩,
   ⟨61, 56, "Film & Media", "film-media"⟩,
   ⟨65, 56, "Gaming", "gaming"⟩,
   ⟨71, 70, "Adventure & Outdoors", "adventure-outdoors"⟩,
   ⟨75, 70, "Festivals & Markets", "festivals-markets"⟩,
   ⟨80, 79, "Other", "other"⟩],
   [⟨2, 1, "Techno", "techno"⟩,
   ⟨3, 1, "House", "house"⟩,
   ⟨4, 1, "Drum Bass", "drum-bass"⟩,
   ⟨5, 1, "Trance", "trance"⟩,
   ⟨6, 1, "Electronic", "electronic"⟩,
   ⟨7, 1, "Legacy Unmapped", "legacy-unmapped-electronic"⟩,
   ⟨9, 8, "Live", "live"⟩,
   ⟨10, 8, "Rock", "rock"⟩,
   ⟨11, 8, "Indie", "indie"⟩,
   ⟨12, 8, "Legacy Unmapped", "legacy-unmapped-rock-indie"⟩,
   ⟨14, 13, "Jazz", "jazz"⟩,
   ⟨15, 13, "Blues", "blues"⟩,
   ⟨16, 13, "Legacy Unmapped", "legacy-unmapped-jazz-blues"⟩,
   ⟨18, 17, "Orchestra", "orchestra"⟩,
   ⟨19, 17, "Chamber Music", "chamber-music"⟩,
   ⟨20, 17, "Legacy Unmapped", "legacy-unmapped-classical"⟩,
   ⟨23, 22, "Vip", "vip"⟩,
   ⟨24, 22, "Dance Night", "dance-night"⟩,
   ⟨25, 22, "Legacy Unmapped", "legacy-unmapped-clubs"⟩,
   ⟨27, 26, "Cocktail", "cocktail"⟩,
   ⟨28, 26, "Afterwork", "afterwork"⟩,
   ⟨29, 26, "Legacy Unmapped", "legacy-unmapped-bars-lounges"⟩,
   ⟨32, 31, "Wine Tasting", "wine-tasting"⟩,
   ⟨33, 31, "Vineyard Tour", "vineyard-tour"⟩,
   ⟨34, 31, "Legacy Unmapped", "legacy-unmapped-wine"⟩,
   ⟨36, 35, "Craft Beer", "craft-beer"⟩,
   ⟨37, 35, "Beer Pairing", "beer-pairing"⟩,
   ⟨38, 35, "Legacy Unmapped", "legacy-unmapped-beer"⟩,
   ⟨40, 39, "Food Truck", "food-truck"⟩,
   ⟨41, 39, "Tasting Menu", "tasting-menu"⟩,
   ⟨42, 39, "Legacy Unmapped", "legacy-unmapped-street-food"⟩,
   ⟨45, 44, "Improvisation", "improvisation"⟩,
   ⟨46, 44, "Drama", "drama"⟩,
   ⟨47, 44, "Legacy Unmapped", "legacy-unmapped-theater"⟩,
   ⟨49, 48, "Art", "art"⟩,
   ⟨50, 48, "Gallery Night", "gallery-night"⟩,
   ⟨51, 48, "Legacy Unmapped", "legacy-unmapped-visual-arts"⟩,
   ⟨53, 52, "Museum Tour", "museum-tour"⟩,
   ⟨54, 52, "Heritage Walk", "heritage-walk"⟩,
   ⟨55, 52, "Legacy Unmapped", "legacy-unmapped-museums-heritage"⟩,
   ⟨58, 57, "Stand Up", "stand-up"⟩,
   ⟨59, 57, "Family", "family"⟩,
   ⟨60, 57, "Legacy Unmapped", "legacy-unmapped-comedy-shows"⟩,
   ⟨62, 61, "Cinema", "cinema"⟩,
   ⟨63, 61, "Tech", "tech"⟩,
   ⟨64, 61, "Legacy Unmapped", "legacy-unmapped-film-media"⟩,
   ⟨66, 65, "Esports", "esports"⟩,
   ⟨67, 65, "Board Games", "board-games"⟩,
   ⟨68, 65, "Indoor", "indoor"⟩,
   ⟨69, 65, "Legacy Unmapped", "legacy-unmapped-gaming"⟩,
   ⟨72, 71, "Hiking", "hiking"⟩,
   ⟨73, 71, "Outdoor", "outdoor"⟩,
   ⟨74, 71, "Legacy Unmapped", "legacy-unmapped-adventure-outdoors"⟩,
   ⟨76, 75, "Farmers Market", "farmers-market"⟩,
   ⟨77, 75, "Open Air", "open-air"⟩,
   ⟨78, 75, "Legacy Unmapped", "legacy-unmapped-festivals-markets"⟩,
   ⟨81, 80, "Unmapped", "unmapped"⟩,
   ⟨82, 80, "Legacy Unmapped", "legacy-unmapped-other"⟩],
   83⟩

set_option maxRecDepth 40000 in
theorem seededTaxLit_eq : seededTaxLit = seededTax := by decide

set_option maxRecDepth 40000 in
theorem seededDBLit_eq : seededDBLit = seededDB := by decide

end Migrate

namespace Migrate

set_option maxRecDepth 40000 in
theorem all_branches_check :
    (seededTaxLit.subcategory_ids.map (·.1)).all
      (fun b => branchCheck seededTaxLit seededDBLit b) = true := by decide

set_option maxRecDepth 40000 in
theorem pools_sorted :
    (seededTaxLit.subcategory_ids.map (·.1)).all
      (fun b => decide ((poolOf seededTaxLit b).Pairwise (· < ·))) = true := by decide

set_option maxRecDepth 40000 in
theorem fallback_in_pool :
    seededTaxLit.legacy_unmapped_by_branch.all
      (fun e => decide (e.2 ∈ poolOf seededTaxLit e.1)) = true := by decide

set_option maxRecDepth 40000 in
theorem hints_in_pool :
    (LEGACY_TAG_HINTS.all (fun h =>
      match seededTaxLit.tag_ids.lookup h.2 with
      | some tid => decide (tid ∈ poolOf seededTaxLit (h.2.1, h.2.2.1))
      | none => true)) = true := by decide

set_option maxRecDepth 40000 in
theorem index_in_pool :
    (seededTaxLit.tag_slug_index.all (fun e =>
      match e.2 with
      | [t] => decide (t.2.2 ∈ poolOf seededTaxLit (t.1, t.2.1))
      | _ => true)) = true := by decide

theorem resolve_via_hint_in_pool {key : String} {c s : String} {tid : Nat}
    (h : resolve_via_hint key seededTaxLit = some (c, s, tid)) :
    tid ∈ poolOf seededTaxLit (c, s) := by
  unfold resolve_via_hint at h
  rw [Option.bind_eq_some] at h
  obtain ⟨hint, hh, hmap⟩ := h
  rw [Option.map_eq_some'] at hmap
  obtain ⟨tid0, hl, heq⟩ := hmap
  have hc : hint.1 = c := congrArg (·.1) heq
  have hs : hint.2.1 = s := congrArg (·.2.1) heq
  have htid : tid0 = tid := congrArg (·.2.2) heq
  subst htid
  have hmem := Taxo.lookup_mem hh
  have hall := List.all_eq_true.mp hints_in_pool _ hmem
  simp only [hl] at hall
  rw [← hc, ← hs]
  exact of_decide_eq_true hall

theorem resolve_from_index_in_pool {key : String} {c s : String} {tid : Nat}
    (h : resolve_from_index key seededTaxLit = some (c, s, tid)) :
    tid ∈ poolOf seededTaxLit (c, s) := by
  unfold resolve_from_index at h
  cases hidx : seededTaxLit.tag_slug_index.lookup key with
  | none => rw [hidx] at h; exact absurd h (by simp)
  | some l =>
    rw [hidx] at h
    match l, h with
    | [t], h =>
      have ht : t = (c, s, tid) := by
        have h2 : some t = some (c, s, tid) := h
        exact Option.some.inj h2
      subst ht
      have hmem := Taxo.lookup_mem hidx
      have hall := List.all_eq_true.mp index_in_pool _ hmem
      exact of_decide_eq_true hall

theorem resolve_target_in_pool {key : String} {c s : String} {tid : Nat}
    (h : resolve_legacy_tag_target key seededTaxLit = some (c, s, tid)) :
    tid ∈ poolOf seededTaxLit (c, s) := by
  unfold resolve_legacy_tag_target at h
  rw [Option.or_eq_some] at h
  rcases h with h | ⟨_, h⟩
  · exact resolve_via_hint_in_pool h
  · exact resolve_from_index_in_pool h

theorem choose_branch_text_indep (m : Target) (ms : List Target) (t t' : Option String) :
    choose_branch (m :: ms) t = choose_branch (m :: ms) t' := rfl

theorem process_event_text_indep (tax : Taxonomy) (tn ts : List String)
    (t t' : Option String)
    (hm : mappedTargets tax (normalize_legacy_tag_keys tn ts) ≠ []) :
    process_event tax ⟨t, tn, ts⟩ = process_event tax ⟨t', tn, ts⟩ := by
  obtain ⟨m, ms, hm2⟩ := List.exists_cons_of_ne_nil hm
  simp only [process_event, chosenOf]
  rw [hm2]
  rw [choose_branch_text_indep m ms t t']

end Migrate

namespace Migrate

theorem process_event_inv {tax : Taxonomy} {e : EventIn} {o : EventOut}
    (h : process_event tax e = some o) :
    ∃ catId subId fbId,
      tax.category_ids.lookup (chosenOf tax e).1 = some catId ∧
      tax.subcategory_ids.lookup (chosenOf tax e) = some subId ∧
      tax.legacy_unmapped_by_branch.lookup (chosenOf tax e) = some fbId ∧
      o = ⟨catId, subId, Taxo.canonNat
        (rawTagsOf tax (normalize_legacy_tag_keys e.tagNames e.tagSlugs)
          (chosenOf tax e) fbId)⟩ := by
  simp only [process_event] at h
  rw [Option.bind_eq_some] at h
  obtain ⟨catId, h1, h⟩ := h
  rw [Option.bind_eq_some] at h
  obtain ⟨subId, h2, h⟩ := h
  rw [Option.map_eq_some'] at h
  obtain ⟨fbId, h3, h4⟩ := h
  exact ⟨catId, subId, fbId, h1, h2, h3, h4.symm⟩

theorem rawTagsOf_ne_nil (tax : Taxonomy) (keys : List String)
    (chosen : String × String) (fbId : Nat) :
    rawTagsOf tax keys chosen fbId ≠ [] := by
  unfold rawTagsOf
  cases keys with
  | nil => simp
  | cons k ks => simp

theorem rawTagsOf_mem_pool {keys : List String} {b : String × String} {fbId x : Nat}
    (hfb : fbId ∈ poolOf seededTaxLit b)
    (hx : x ∈ rawTagsOf seededTaxLit keys b fbId) :
    x ∈ poolOf seededTaxLit b := by
  unfold rawTagsOf at hx
  rw [if_neg] at hx
  · cases keys with
    | nil =>
      simp only [List.mem_singleton] at hx
      subst hx
      exact hfb
    | cons k ks =>
      simp only [List.mem_map] at hx
      obtain ⟨key, _, hkey⟩ := hx
      unfold nextTagOfKey at hkey
      rcases hres : resolve_legacy_tag_target key seededTaxLit with _ | ⟨c, s, tid⟩
      · rw [hres] at hkey
        simp only at hkey
        subst hkey
        exact hfb
      · rw [hres] at hkey
        simp only at hkey
        by_cases hcs : c = b.1 ∧ s = b.2
        · rw [if_pos hcs] at hkey
          subst hkey
          have hpool := resolve_target_in_pool hres
          rw [hcs.1, hcs.2] at hpool
          rw [show (b.1, b.2) = b from rfl] at hpool
          exact hpool
        · rw [if_neg hcs] at hkey
          subst hkey
          exact hfb
  · cases keys with
    | nil => simp
    | cons k ks => simp

end Migrate

/-- C2: the event backfill is idempotent.  If processing an event against the
seeded taxonomy succeeds with a result (category id, subcategory id, replaced
tag-id set), then running the backfill again on the migrated event row — whose
linked tags are exactly the replaced ones and whose legacy category text is
whatever the first run coalesced — returns the very same result. -/
theorem event_backfill_idempotent (e : Migrate.EventIn) (o : Migrate.EventOut)
    (ct : Option String)
    (h : Migrate.process_event Migrate.seededTax e = some o) :
    Migrate.process_event Migrate.seededTax
      (Migrate.eventAfter Migrate.seededDB o ct) = some o := by
  rw [← Migrate.seededTaxLit_eq] at h ⊢
  rw [← Migrate.seededDBLit_eq]
  obtain ⟨catId, subId, fbId, h1, h2, h3, ho⟩ := Migrate.process_event_inv h
  set chosen := Migrate.chosenOf Migrate.seededTaxLit e with hchosen
  set T := Taxo.canonNat
    (Migrate.rawTagsOf Migrate.seededTaxLit
      (Migrate.normalize_legacy_tag_keys e.tagNames e.tagSlugs) chosen fbId) with hT
  have hbmem : chosen ∈ Migrate.seededTaxLit.subcategory_ids.map (·.1) :=
    List.mem_map.mpr ⟨(chosen, subId), Taxo.lookup_mem h2, rfl⟩
  have hfb : fbId ∈ Migrate.poolOf Migrate.seededTaxLit chosen := by
    have hmem := Taxo.lookup_mem h3
    have hall := List.all_eq_true.mp Migrate.fallback_in_pool _ hmem
    exact of_decide_eq_true hall
  have hpoolSorted : (Migrate.poolOf Migrate.seededTaxLit chosen).Pairwise (· < ·) := by
    have hall := List.all_eq_true.mp Migrate.pools_sorted _ hbmem
    exact of_decide_eq_true hall
  have hTpair : T.Pairwise (· < ·) := Taxo.pairwise_canonNat _
  have hTsub : ∀ x ∈ T, x ∈ Migrate.poolOf Migrate.seededTaxLit chosen := by
    intro x hx
    rw [hT] at hx
    exact Migrate.rawTagsOf_mem_pool hfb (Taxo.mem_canonNat.mp hx)
  have hTne : T ≠ [] := by
    rw [hT]
    intro hcon
    exact Migrate.rawTagsOf_ne_nil _ _ _ _ (Taxo.canonNat_eq_nil_iff.mp hcon)
  have hTsl : T.Sublist (Migrate.poolOf Migrate.seededTaxLit chosen) :=
    Taxo.sublist_of_sorted_subset _ _ hTpair hpoolSorted hTsub
  have hbc := List.all_eq_true.mp Migrate.all_branches_check _ hbmem
  have hTmem : T ∈ (Migrate.poolOf Migrate.seededTaxLit chosen).sublists :=
    List.mem_sublists.mpr hTsl
  have hcheck := List.all_eq_true.mp hbc _ hTmem
  have hTempty : T.isEmpty = false := by
    cases hTcases : T with
    | nil => exact absurd hTcases hTne
    | cons a l => rfl
  rw [hTempty] at hcheck
  simp only [Bool.false_or, Bool.and_eq_true, decide_eq_true_eq, Bool.not_eq_true'] at hcheck
  obtain ⟨hproc, hmapped⟩ := hcheck
  have hmapped2 : Migrate.mappedTargets Migrate.seededTaxLit
      (Migrate.normalize_legacy_tag_keys
        (Migrate.eventForTags Migrate.seededDBLit T).tagNames
        (Migrate.eventForTags Migrate.seededDBLit T).tagSlugs) ≠ [] := by
    intro hcon
    rw [hcon] at hmapped
    simp at hmapped
  have hcat : Migrate.catIdOf Migrate.seededTaxLit chosen = catId := by
    unfold Migrate.catIdOf
    rw [h1]
    rfl
  have hsub : Migrate.subIdOf Migrate.seededTaxLit chosen = subId := by
    unfold Migrate.subIdOf
    rw [h2]
    rfl
  rw [ho]
  have hev : Migrate.eventAfter Migrate.seededDBLit ⟨catId, subId, T⟩ ct =
      ⟨ct, Migrate.tagNamesOf Migrate.seededDBLit T,
        Migrate.tagSlugsOf Migrate.seededDBLit T⟩ := rfl
  rw [hev]
  have hstep := Migrate.process_event_text_indep Migrate.seededTaxLit
    (Migrate.tagNamesOf Migrate.seededDBLit T)
    (Migrate.tagSlugsOf Migrate.seededDBLit T) ct none hmapped2
  rw [hstep]
  have hforT : (⟨none, Migrate.tagNamesOf Migrate.seededDBLit T,
      Migrate.tagSlugsOf Migrate.seededDBLit T⟩ : Migrate.EventIn) =
      Migrate.eventForTags Migrate.seededDBLit T := rfl
  rw [hforT, hproc, hcat, hsub]

/-- Witness for C2: a concrete event carrying the legacy slug `techno` processes
successfully and reprocessing its migrated row reproduces the same output. -/
theorem event_backfill_idempotent_witness :
    ∃ o, Migrate.process_event Migrate.seededTax ⟨none, [], ["techno"]⟩ = some o ∧
      Migrate.process_event Migrate.seededTax
        (Migrate.eventAfter Migrate.seededDB o none) = some o := by
  have hs : (Migrate.process_event Migrate.seededTax ⟨none, [], ["techno"]⟩).isSome := by
    rw [← Migrate.seededTaxLit_eq]
    decide
  exact ⟨_, (Option.some_get hs).symm,
    event_backfill_idempotent _ _ none (Option.some_get hs).symm⟩

namespace Migrate

/-- An `events` row as the validation phase sees it. -/
structure MigEventRow where
  id : Nat
  categoryId : Option Nat
  subcategoryId : Option Nat
deriving DecidableEq

/-- The durable state examined by `validate_after_backfill`: events, event-tag
links `(event_id, tag_id)`, and each tag's (nullable) subcategory id. -/
structure MigState where
  events : List MigEventRow
  eventTags : List (Nat × Nat)
  tagSubs : List (Nat × Option Nat)
deriving DecidableEq

/-- Embeds `validate_after_backfill` (lines 597-619): the count of events with a
null category or subcategory id, and the count of event-tag links joining an
event and a tag whose subcategory ids are both non-null and differ (the SQL
`IS NOT NULL` guards and `<>`). -/
def validate_after_backfill (s : MigState) : Nat × Nat :=
  (s.events.countP (fun e => e.categoryId.isNone || e.subcategoryId.isNone),
   s.eventTags.countP (fun l =>
     match s.events.find? (fun e => e.id == l.1), s.tagSubs.lookup l.2 with
     | some e, some tsub =>
       match e.subcategoryId, tsub with
       | some es, some ts => es != ts
       | _, _ => false
     | _, _ => false))

/-- The two `RuntimeError` raises of `main` (lines 733-740). -/
inductive MigrationError
  | validationNullEvents (count : Nat)
  | validationCrossBranch (count : Nat)
deriving DecidableEq

/-- Embeds the validation / commit tail of `main` (lines 731-756): with the
post-backfill state `post` inside the still-open transaction, a nonzero
null-event count or cross-branch count raises and the `except` handler rolls the
transaction back, leaving the durable state at the pre-run `initial`; otherwise a
dry run rolls back and a real run commits `post`.  The returned pair is
(raised error, durable state visible after the run). -/
def migration_finalize (initial post : MigState) (dryRun : Bool) :
    Option MigrationError × MigState :=
  let counts := validate_after_backfill post
  if 0 < counts.1 then (some (.validationNullEvents counts.1), initial)
  else if 0 < counts.2 then (some (.validationCrossBranch counts.2), initial)
  else if dryRun then (none, initial) else (none, post)

end Migrate

/-- C3: after the backfill, the migration counts events with a null
category/subcategory and event-tag links whose tag's subcategory differs from the
event's; if either count is nonzero the run raises the corresponding validation
error carrying the exact count and the durable state stays exactly the
pre-migration state — no partial migration is committed. -/
theorem validation_failure_aborts_and_rolls_back (initial post : Migrate.MigState)
    (dryRun : Bool)
    (h : 0 < (Migrate.validate_after_backfill post).1 ∨
      0 < (Migrate.validate_after_backfill post).2) :
    (Migrate.migration_finalize initial post dryRun).2 = initial ∧
    (Migrate.migration_finalize initial post dryRun).1 =
      some (if 0 < (Migrate.validate_after_backfill post).1 then
          Migrate.MigrationError.validationNullEvents
            (Migrate.validate_after_backfill post).1
        else
          Migrate.MigrationError.validationCrossBranch
            (Migrate.validate_after_backfill post).2) := by
  unfold Migrate.migration_finalize
  by_cases h1 : 0 < (Migrate.validate_after_backfill post).1
  · rw [if_pos h1, if_pos h1]
    exact ⟨rfl, rfl⟩
  · have h2 : 0 < (Migrate.validate_after_backfill post).2 := h.resolve_left h1
    rw [if_neg h1, if_pos h2, if_neg h1]
    exact ⟨rfl, rfl⟩

/-- Witness for C3: a post-backfill state with one event missing its ids is
counted, aborts the run, and rolls the state back. -/
theorem validation_failure_witness :
    (0 < (Migrate.validate_after_backfill ⟨[⟨1, none, none⟩], [], []⟩).1 ∨
      0 < (Migrate.validate_after_backfill ⟨[⟨1, none, none⟩], [], []⟩).2) ∧
    (Migrate.migration_finalize ⟨[], [], []⟩ ⟨[⟨1, none, none⟩], [], []⟩ false).2 =
      ⟨[], [], []⟩ :=
  ⟨Or.inl (by decide),
    (validation_failure_aborts_and_rolls_back ⟨[], [], []⟩ ⟨[⟨1, none, none⟩], [], []⟩
      false (Or.inl (by decide))).1⟩

namespace MainSrv

/-- One row of the taxonomy join in `load_taxonomy_cache` (lines 522-541):
category, subcategory, and tag columns, each nullable.  Ids are strings (the code
works with `str(...)` of the database UUIDs); `created_at` timestamps are
naturals (seconds). -/
structure TRow where
  catId : Option String
  catName : Option String
  catSlug : Option String
  catCreated : Option Nat
  subId : Option String
  subName : Option String
  subSlug : Option String
  subCreated : Option Nat
  tagId : Option String
  tagName : Option String
  tagSlug : Option String
  tagCreated : Option Nat
deriving DecidableEq

/-- A tag node of the payload tree. -/
structure TagNode where
  id : String
  name : String
  slug : String
deriving DecidableEq

/-- A subcategory node of the payload tree. -/
structure SubNode where
  id : String
  name : String
  slug : String
  tags : List TagNode
deriving DecidableEq

/-- A category node of the payload tree. -/
structure CatNode where
  id : String
  name : String
  slug : String
  subcategories : List SubNode
deriving DecidableEq

/-- The single-pass state of `_build_taxonomy_cache_payload`: the category nodes
in insertion order (holding the shared subcategory and tag nodes), the key sets of
`subcategories_by_id` / `tags_by_id`, and the running `max_created_at`. -/
structure BuildState where
  cats : List CatNode
  seenSubs : List String
  seenTags : List String
  maxCreated : Option Nat
deriving DecidableEq

/-- `str(x or "").strip().lower()` — the slug normalization of the build loop. -/
def normSlug (s : Option String) : String := Taxo.pyLower (Taxo.pyStrip (s.getD ""))

/-- `str(x or "").strip()` — the name normalization of the build loop. -/
def normName (s : Option String) : String := Taxo.pyStrip (s.getD "")

/-- `if created and (max is None or created > max): max = created`. -/
def bumpMax (m : Option Nat) (c : Option Nat) : Option Nat :=
  match c with
  | none => m
  | some ts =>
    match m with
    | none => some ts
    | some m0 => if ts > m0 then some ts else some m0

/-- Append a subcategory node to the category node with the given id
(`categories_by_id[category_id_str]["subcategories"].append(...)`). -/
def addSubToCat (cats : List CatNode) (cid : String) (sub : SubNode) : List CatNode :=
  cats.map (fun c =>
    if c.id = cid then { c with subcategories := c.subcategories ++ [sub] } else c)

/-- Append a tag node to the subcategory node with the given id, wherever it sits
(`subcategories_by_id[subcategory_id_str]["tags"].append(...)` — the node is
shared between the dictionary and the tree). -/
def addTagToSub (cats : List CatNode) (sid : String) (tag : TagNode) : List CatNode :=
  cats.map (fun c =>
    { c with subcategories := c.subcategories.map (fun s =>
        if s.id = sid then { s with tags := s.tags ++ [tag] } else s) })

/-- One row of the single pass of `_build_taxonomy_cache_payload`
(lines 362-462): skip null categories, insert first-seen category nodes, then
first-seen subcategory nodes under the current row's category, then first-seen
tag nodes under the current row's subcategory, bumping `max_created_at` at each
level. -/
def buildStep (st : BuildState) (row : TRow) : BuildState :=
  match row.catId with
  | none => st
  | some cid =>
    let st1 : BuildState :=
      { st with
        maxCreated := bumpMax st.maxCreated row.catCreated,
        cats :=
          if st.cats.any (fun c => c.id == cid) then st.cats
          else st.cats ++ [⟨cid, normName row.catName, normSlug row.catSlug, []⟩] }
    match row.subId with
    | none => st1
    | some sid =>
      let st2 := { st1 with maxCreated := bumpMax st1.maxCreated row.subCreated }
      let st3 :=
        if st2.seenSubs.contains sid then st2
        else { st2 with
          cats := addSubToCat st2.cats cid ⟨sid, normName row.subName, normSlug row.subSlug, []⟩,
          seenSubs := st2.seenSubs ++ [sid] }
      match row.tagId with
      | none => st3
      | some tid =>
        let st4 := { st3 with maxCreated := bumpMax st3.maxCreated row.tagCreated }
        if st4.seenTags.contains tid then st4
        else { st4 with
          cats := addTagToSub st4.cats sid ⟨tid, normName row.tagName, normSlug row.tagSlug⟩,
          seenTags := st4.seenTags ++ [tid] }

def initBuild : BuildState := ⟨[], [], [], none⟩

def buildTree (rows : List TRow) : BuildState := rows.foldl buildStep initBuild

/-- The case-insensitive-by-name "a sorts no later than b" order of the final
`sort(key=lambda item: item["name"].lower())` calls. -/
def nameLE (a b : String) : Prop := Taxo.strLtB (Taxo.pyLower b) (Taxo.pyLower a) = false

instance : ∀ a b, Decidable (nameLE a b) := fun a b => by unfold nameLE; infer_instance

def catLE (a b : CatNode) : Prop := nameLE a.name b.name

instance : ∀ a b : CatNode, Decidable (catLE a b) := fun a b => by
  unfold catLE; infer_instance

def subLE (a b : SubNode) : Prop := nameLE a.name b.name

instance : ∀ a b : SubNode, Decidable (subLE a b) := fun a b => by
  unfold subLE; infer_instance

def tagLE (a b : TagNode) : Prop := nameLE a.name b.name

instance : ∀ a b : TagNode, Decidable (tagLE a b) := fun a b => by
  unfold tagLE; infer_instance

/-- The deterministic-output sorting pass (lines 464-469): categories,
subcategories, and tags each sorted case-insensitively by name (Python's stable
`list.sort` modelled by the stable insertion sort). -/
def sortTree (cats : List CatNode) : List CatNode :=
  (List.insertionSort catLE cats).map (fun c =>
    { c with subcategories := (List.insertionSort subLE c.subcategories).map (fun s =>
        { s with tags := List.insertionSort tagLE s.tags }) })

/-- Embeds `_compute_taxonomy_version` (lines 328-338): `f"{ts}-{c}-{s}-{t}"`
with `ts = 0` for a missing maximum timestamp. -/
def compute_taxonomy_version (maxCreated : Option Nat)
    (categoryCount subcategoryCount tagCount : Nat) : String :=
  Nat.repr (maxCreated.getD 0) ++ "-" ++ Nat.repr categoryCount ++ "-" ++
    Nat.repr subcategoryCount ++ "-" ++ Nat.repr tagCount

end MainSrv

namespace MainSrv

/-- The payload slice relevant to the spec: the version string and the nested
category tree (the payload's resolver maps are modelled separately for the
resolver component). -/
structure Payload where
  taxonomy_version : String
  categories : List CatNode
deriving DecidableEq

/-- Embeds `_build_taxonomy_cache_payload` (lines 341-509) restricted to the tree
and version: single pass, deduplicating by id at each level with first-seen node
identity, then the deterministic sort, and the version from
`(max created_at, len(categories_by_id), len(subcategories_by_id),
len(tags_by_id))`. -/
def _build_taxonomy_cache_payload (rows : List TRow) : Payload :=
  let st := buildTree rows
  ⟨compute_taxonomy_version st.maxCreated st.cats.length st.seenSubs.length
      st.seenTags.length,
    sortTree st.cats⟩

/-- The module-level `taxonomy_cache` cell: payload and expiry (seconds,
modelled as rationals standing for the float `time.time()` clock). -/
structure CacheState where
  data : Option Payload
  expires_at : ℚ
deriving DecidableEq

/-- Embeds `TAXONOMY_CACHE_TTL_SEC = max(60, min(300, int(env)))` (line 61). -/
def TAXONOMY_CACHE_TTL_SEC (cfg : Int) : Int := max 60 (min 300 cfg)

/-- Embeds `load_taxonomy_cache` (lines 512-551): return the cached payload when
one exists, is unexpired, and no forced refresh was requested; otherwise rebuild
from the durable rows and store it with `expires_at = now + TTL`.  The
database-error fallback path (absent tables) is outside this model. -/
def load_taxonomy_cache (cache : CacheState) (now : ℚ) (cfg : Int)
    (rows : List TRow) (force_refresh : Bool) : Payload × CacheState :=
  match cache.data with
  | some d =>
    if force_refresh = false ∧ cache.expires_at > now then (d, cache)
    else
      let payload := _build_taxonomy_cache_payload rows
      (payload, ⟨some payload, now + (TAXONOMY_CACHE_TTL_SEC cfg : ℚ)⟩)
  | none =>
    let payload := _build_taxonomy_cache_payload rows
    (payload, ⟨some payload, now + (TAXONOMY_CACHE_TTL_SEC cfg : ℚ)⟩)

theorem load_taxonomy_cache_eq_of_some {cache : CacheState} {d : Payload}
    (hd : cache.data = some d) (now : ℚ) (cfg : Int) (rows : List TRow)
    (force : Bool) :
    load_taxonomy_cache cache now cfg rows force =
      if force = false ∧ cache.expires_at > now then (d, cache)
      else (_build_taxonomy_cache_payload rows,
        ⟨some (_build_taxonomy_cache_payload rows),
          now + (TAXONOMY_CACHE_TTL_SEC cfg : ℚ)⟩) := by
  unfold load_taxonomy_cache
  rw [hd]

theorem load_taxonomy_cache_eq_of_none {cache : CacheState}
    (hd : cache.data = none) (now : ℚ) (cfg : Int) (rows : List TRow)
    (force : Bool) :
    load_taxonomy_cache cache now cfg rows force =
      (_build_taxonomy_cache_payload rows,
        ⟨some (_build_taxonomy_cache_payload rows),
          now + (TAXONOMY_CACHE_TTL_SEC cfg : ℚ)⟩) := by
  unfold load_taxonomy_cache
  rw [hd]

theorem load_taxonomy_cache_data_some (cache : CacheState) (now : ℚ) (cfg : Int)
    (rows : List TRow) (force : Bool) :
    (load_taxonomy_cache cache now cfg rows force).2.data =
      some (load_taxonomy_cache cache now cfg rows force).1 := by
  cases hd : cache.data with
  | none => rw [load_taxonomy_cache_eq_of_none hd]
  | some d =>
    rw [load_taxonomy_cache_eq_of_some hd]
    by_cases hc : force = false ∧ cache.expires_at > now
    · rw [if_pos hc]
      exact hd
    · rw [if_neg hc]

end MainSrv

/-- C8: `load_taxonomy_cache` returns the cached snapshot unchanged when one
exists, is unexpired, and no forced refresh is requested; otherwise it rebuilds
from the durable rows and stores the result with expiry `now + TTL`, the TTL
being the configured value clamped into [60, 300] seconds; consequently a second
call before the stored expiry returns the same payload (hence the same version
string). -/
theorem taxonomy_cache_hit_rebuild_ttl_behavior :
    (∀ (cache : MainSrv.CacheState) (now : ℚ) (cfg : Int) (rows : List MainSrv.TRow)
      (d : MainSrv.Payload), cache.data = some d → cache.expires_at > now →
      MainSrv.load_taxonomy_cache cache now cfg rows false = (d, cache)) ∧
    (∀ (cache : MainSrv.CacheState) (now : ℚ) (cfg : Int) (rows : List MainSrv.TRow)
      (force : Bool),
      (cache.data = none ∨ cache.expires_at ≤ now ∨ force = true) →
      MainSrv.load_taxonomy_cache cache now cfg rows force =
        (MainSrv._build_taxonomy_cache_payload rows,
          ⟨some (MainSrv._build_taxonomy_cache_payload rows),
            now + (MainSrv.TAXONOMY_CACHE_TTL_SEC cfg : ℚ)⟩)) ∧
    (∀ cfg : Int, 60 ≤ MainSrv.TAXONOMY_CACHE_TTL_SEC cfg ∧
      MainSrv.TAXONOMY_CACHE_TTL_SEC cfg ≤ 300) ∧
    (∀ (cache : MainSrv.CacheState) (now1 now2 : ℚ) (cfg : Int)
      (rows1 rows2 : List MainSrv.TRow),
      now2 < (MainSrv.load_taxonomy_cache cache now1 cfg rows1 false).2.expires_at →
      (MainSrv.load_taxonomy_cache
        (MainSrv.load_taxonomy_cache cache now1 cfg rows1 false).2 now2 cfg rows2
        false).1 =
        (MainSrv.load_taxonomy_cache cache now1 cfg rows1 false).1) := by
  have hhit : ∀ (cache : MainSrv.CacheState) (now : ℚ) (cfg : Int)
      (rows : List MainSrv.TRow) (d : MainSrv.Payload),
      cache.data = some d → cache.expires_at > now →
      MainSrv.load_taxonomy_cache cache now cfg rows false = (d, cache) := by
    intro cache now cfg rows d hd hexp
    rw [MainSrv.load_taxonomy_cache_eq_of_some hd]
    rw [if_pos ⟨rfl, hexp⟩]
  refine ⟨hhit, ?_, ?_, ?_⟩
  · intro cache now cfg rows force h
    cases hd : cache.data with
    | none => rw [MainSrv.load_taxonomy_cache_eq_of_none hd]
    | some d =>
      rw [MainSrv.load_taxonomy_cache_eq_of_some hd]
      rw [if_neg]
      intro ⟨hf, hexp⟩
      rcases h with h | h | h
      · rw [hd] at h; exact Option.noConfusion h
      · exact absurd hexp (not_lt.mpr h)
      · rw [h] at hf; exact Bool.noConfusion hf
  · intro cfg
    unfold MainSrv.TAXONOMY_CACHE_TTL_SEC
    omega
  · intro cache now1 now2 cfg rows1 rows2 hlt
    have hd := MainSrv.load_taxonomy_cache_data_some cache now1 cfg rows1 false
    have hh := hhit (MainSrv.load_taxonomy_cache cache now1 cfg rows1 false).2 now2 cfg
      rows2 (MainSrv.load_taxonomy_cache cache now1 cfg rows1 false).1 hd hlt
    rw [hh]

/-- Witness for C8: concrete cache states exercising the hit path and the
two-calls-within-TTL property. -/
theorem taxonomy_cache_behavior_witness :
    ((⟨some ⟨"v", []⟩, 10⟩ : MainSrv.CacheState).data = some ⟨"v", []⟩ ∧
      ((⟨some ⟨"v", []⟩, 10⟩ : MainSrv.CacheState).expires_at > 3) ∧
      MainSrv.load_taxonomy_cache ⟨some ⟨"v", []⟩, 10⟩ 3 120 [] false =
        (⟨"v", []⟩, ⟨some ⟨"v", []⟩, 10⟩)) ∧
    ((3 : ℚ) < (MainSrv.load_taxonomy_cache ⟨none, 0⟩ 1 120 [] false).2.expires_at ∧
      (MainSrv.load_taxonomy_cache
        (MainSrv.load_taxonomy_cache ⟨none, 0⟩ 1 120 [] false).2 3 120 [] false).1 =
        (MainSrv.load_taxonomy_cache ⟨none, 0⟩ 1 120 [] false).1) := by
  have h1 := taxonomy_cache_hit_rebuild_ttl_behavior.1 ⟨some ⟨"v", []⟩, 10⟩ 3 120 []
    ⟨"v", []⟩ rfl (by norm_num)
  have hexp : (3 : ℚ) <
      (MainSrv.load_taxonomy_cache ⟨none, 0⟩ 1 120 [] false).2.expires_at := by
    have h2 := (taxonomy_cache_hit_rebuild_ttl_behavior.2.1) ⟨none, 0⟩ 1 120 [] false
      (Or.inl rfl)
    rw [h2]
    show (3 : ℚ) < 1 + ((MainSrv.TAXONOMY_CACHE_TTL_SEC 120 : Int) : ℚ)
    norm_num [MainSrv.TAXONOMY_CACHE_TTL_SEC]
  refine ⟨⟨rfl, by norm_num, h1⟩, hexp, ?_⟩
  exact (taxonomy_cache_hit_rebuild_ttl_behavior.2.2.2) ⟨none, 0⟩ 1 3 120 [] [] hexp

namespace Taxo

/-- One step of reading a decimal numeral left to right. -/
def decValStep (a : Nat) (c : Char) : Nat := 10 * a + (c.toNat - 48)

theorem digitChar_toNat_sub {m : Nat} (h : m < 10) : (Nat.digitChar m).toNat - 48 = m := by
  interval_cases m <;> decide

theorem digitChar_ne_dash {m : Nat} (h : m < 10) : Nat.digitChar m ≠ '-' := by
  interval_cases m <;> decide

theorem toDigitsCore_step (f n : Nat) (ds : List Char) :
    Nat.toDigitsCore 10 (f + 1) n ds =
      if n / 10 = 0 then Nat.digitChar (n % 10) :: ds
      else Nat.toDigitsCore 10 f (n / 10) (Nat.digitChar (n % 10) :: ds) := rfl

theorem toDigitsCore_foldl : ∀ (f n : Nat) (ds : List Char), n < 10 ^ f →
    (Nat.toDigitsCore 10 f n ds).foldl decValStep 0 = ds.foldl decValStep n := by
  intro f
  induction f with
  | zero =>
    intro n ds h
    rw [pow_zero] at h
    have hn : n = 0 := by omega
    subst hn
    rfl
  | succ f ih =>
    intro n ds h
    rw [toDigitsCore_step]
    by_cases h0 : n / 10 = 0
    · rw [if_pos h0, List.foldl_cons]
      have hlt : n % 10 < 10 := Nat.mod_lt n (by norm_num)
      have hinit : decValStep 0 (Nat.digitChar (n % 10)) = n := by
        unfold decValStep
        rw [digitChar_toNat_sub hlt]
        omega
      rw [hinit]
    · rw [if_neg h0]
      have hlt : n / 10 < 10 ^ f := by
        have hmul : n < 10 * 10 ^ f := by
          rw [← pow_succ']
          exact h
        exact Nat.div_lt_of_lt_mul hmul
      rw [ih (n / 10) (Nat.digitChar (n % 10) :: ds) hlt, List.foldl_cons]
      have hinit : decValStep (n / 10) (Nat.digitChar (n % 10)) = n := by
        unfold decValStep
        rw [digitChar_toNat_sub (Nat.mod_lt n (by norm_num))]
        omega
      rw [hinit]

theorem toDigitsCore_ne_dash : ∀ (f n : Nat) (ds : List Char),
    (∀ c ∈ ds, c ≠ '-') → ∀ c ∈ Nat.toDigitsCore 10 f n ds, c ≠ '-' := by
  intro f
  induction f with
  | zero => intro n ds hds c hc; exact hds c hc
  | succ f ih =>
    intro n ds hds c hc
    rw [toDigitsCore_step] at hc
    by_cases h0 : n / 10 = 0
    · rw [if_pos h0] at hc
      rcases List.mem_cons.mp hc with rfl | hmem
      · exact digitChar_ne_dash (Nat.mod_lt n (by norm_num))
      · exact hds c hmem
    · rw [if_neg h0] at hc
      refine ih (n / 10) _ ?_ c hc
      intro c2 hc2
      rcases List.mem_cons.mp hc2 with rfl | hmem
      · exact digitChar_ne_dash (Nat.mod_lt n (by norm_num))
      · exact hds c2 hmem

theorem repr_data (n : Nat) : (Nat.repr n).data = Nat.toDigits 10 n := rfl

theorem repr_ne_dash {n : Nat} {c : Char} (hc : c ∈ (Nat.repr n).data) : c ≠ '-' := by
  rw [repr_data] at hc
  exact toDigitsCore_ne_dash (n + 1) n [] (by simp) c hc

theorem lt_ten_pow (n : Nat) : n < 10 ^ (n + 1) := by
  induction n with
  | zero => norm_num
  | succ n ih =>
    have h1 : 10 ^ (n + 1) < 10 ^ (n + 2) :=
      Nat.pow_lt_pow_right (by norm_num) (by omega)
    omega

theorem decVal_repr (n : Nat) : (Nat.repr n).data.foldl decValStep 0 = n := by
  rw [repr_data]
  unfold Nat.toDigits
  rw [toDigitsCore_foldl (n + 1) n [] (lt_ten_pow n)]
  rfl

theorem repr_injective {m n : Nat} (h : (Nat.repr m).data = (Nat.repr n).data) :
    m = n := by
  have h1 := decVal_repr m
  have h2 := decVal_repr n
  rw [h] at h1
  rw [h1] at h2
  exact h2

theorem append_dash_cancel : ∀ {u1 : List Char} {u2 v1 v2 : List Char},
    (∀ c ∈ u1, c ≠ '-') → (∀ c ∈ u2, c ≠ '-') →
    u1 ++ '-' :: v1 = u2 ++ '-' :: v2 → u1 = u2 ∧ v1 = v2 := by
  intro u1
  induction u1 with
  | nil =>
    intro u2 v1 v2 _ hu2 h
    cases u2 with
    | nil =>
      simp only [List.nil_append, List.cons.injEq] at h
      exact ⟨rfl, h.2⟩
    | cons b bs =>
      simp only [List.nil_append, List.cons_append, List.cons.injEq] at h
      exact absurd h.1.symm (hu2 b (by simp))
  | cons a as ih =>
    intro u2 v1 v2 hu1 hu2 h
    cases u2 with
    | nil =>
      simp only [List.nil_append, List.cons_append, List.cons.injEq] at h
      exact absurd h.1 (hu1 a (by simp))
    | cons b bs =>
      simp only [List.cons_append, List.cons.injEq] at h
      obtain ⟨hab, h2⟩ := h
      obtain ⟨h3, h4⟩ := ih (fun c hc => hu1 c (List.mem_cons_of_mem _ hc))
        (fun c hc => hu2 c (List.mem_cons_of_mem _ hc)) h2
      exact ⟨by rw [hab, h3], h4⟩

end Taxo

namespace MainSrv

theorem compute_taxonomy_version_data (m : Option Nat) (c s t : Nat) :
    (compute_taxonomy_version m c s t).data =
      (Nat.repr (m.getD 0)).data ++ '-' :: ((Nat.repr c).data ++ '-' ::
        ((Nat.repr s).data ++ '-' :: (Nat.repr t).data)) := by
  unfold compute_taxonomy_version
  show ((((Nat.repr (m.getD 0) ++ "-") ++ Nat.repr c ++ "-") ++ Nat.repr s ++ "-") ++
      Nat.repr t).data = _
  simp only [String.data_append]
  show ((((Nat.repr (m.getD 0)).data ++ ['-']) ++ (Nat.repr c).data ++ ['-']) ++
      (Nat.repr s).data ++ ['-']) ++ (Nat.repr t).data = _
  simp [List.append_assoc]

theorem compute_taxonomy_version_inj {m1 m2 : Option Nat} {c1 s1 t1 c2 s2 t2 : Nat}
    (h : compute_taxonomy_version m1 c1 s1 t1 = compute_taxonomy_version m2 c2 s2 t2) :
    m1.getD 0 = m2.getD 0 ∧ c1 = c2 ∧ s1 = s2 ∧ t1 = t2 := by
  have hd : (compute_taxonomy_version m1 c1 s1 t1).data =
      (compute_taxonomy_version m2 c2 s2 t2).data := by rw [h]
  rw [compute_taxonomy_version_data, compute_taxonomy_version_data] at hd
  obtain ⟨e1, hd⟩ := Taxo.append_dash_cancel
    (fun c hc => Taxo.repr_ne_dash hc) (fun c hc => Taxo.repr_ne_dash hc) hd
  obtain ⟨e2, hd⟩ := Taxo.append_dash_cancel
    (fun c hc => Taxo.repr_ne_dash hc) (fun c hc => Taxo.repr_ne_dash hc) hd
  obtain ⟨e3, e4⟩ := Taxo.append_dash_cancel
    (fun c hc => Taxo.repr_ne_dash hc) (fun c hc => Taxo.repr_ne_dash hc) hd
  exact ⟨Taxo.repr_injective e1, Taxo.repr_injective e2, Taxo.repr_injective e3,
    Taxo.repr_injective e4⟩

/-- A single-category row set with name `Alpha`. -/
def rowA : TRow :=
  ⟨some "c1", some "Alpha", some "alpha", some 5,
    none, none, none, none, none, none, none, none⟩

/-- The same category id and timestamp but a different name and slug. -/
def rowB : TRow :=
  ⟨some "c1", some "Beta", some "beta", some 5,
    none, none, none, none, none, none, none, none⟩

end MainSrv

/-- Counterexample to C5 as stated: two different underlying row sets (the same
category renamed) build different snapshots yet carry the identical version
string — the version does not change although the underlying data did. -/
theorem taxonomy_version_not_injective :
    ([MainSrv.rowA] ≠ [MainSrv.rowB]) ∧
    MainSrv._build_taxonomy_cache_payload [MainSrv.rowA] ≠
      MainSrv._build_taxonomy_cache_payload [MainSrv.rowB] ∧
    (MainSrv._build_taxonomy_cache_payload [MainSrv.rowA]).taxonomy_version =
      (MainSrv._build_taxonomy_cache_payload [MainSrv.rowB]).taxonomy_version := by
  refine ⟨by decide, by decide, by decide⟩

/-- C5 (amended): the snapshot's version string is derived exactly from the tuple
(maximum created_at with a missing maximum read as 0; category, subcategory, and
tag counts), and two version strings are equal exactly when those tuples are
equal — so snapshots built from the same rows share a version and any change to
the tuple changes the version, but row changes that leave the tuple intact (the
counterexample) do not. -/
theorem taxonomy_version_characterization :
    (∀ rows : List MainSrv.TRow,
      (MainSrv._build_taxonomy_cache_payload rows).taxonomy_version =
        MainSrv.compute_taxonomy_version (MainSrv.buildTree rows).maxCreated
          (MainSrv.buildTree rows).cats.length
          (MainSrv.buildTree rows).seenSubs.length
          (MainSrv.buildTree rows).seenTags.length) ∧
    (∀ (m1 m2 : Option Nat) (c1 s1 t1 c2 s2 t2 : Nat),
      MainSrv.compute_taxonomy_version m1 c1 s1 t1 =
        MainSrv.compute_taxonomy_version m2 c2 s2 t2 ↔
        (m1.getD 0 = m2.getD 0 ∧ c1 = c2 ∧ s1 = s2 ∧ t1 = t2)) := by
  refine ⟨fun rows => rfl, ?_⟩
  intro m1 m2 c1 s1 t1 c2 s2 t2
  constructor
  · exact MainSrv.compute_taxonomy_version_inj
  · intro ⟨h1, h2, h3, h4⟩
    unfold MainSrv.compute_taxonomy_version
    rw [h1, h2, h3, h4]

namespace MainSrv

/-- Fuel-indexed core of Python `str.replace(pat, "")`: remove every
non-overlapping occurrence of `pat`, scanning left to right. -/
def removeAllAux (pat : List Char) : Nat → List Char → List Char
  | 0, l => l
  | _, [] => []
  | fuel + 1, c :: rest =>
    if pat.isPrefixOf (c :: rest) then
      removeAllAux pat fuel (List.drop (pat.length - 1) rest)
    else c :: removeAllAux pat fuel rest

def removeAll (pat : List Char) (l : List Char) : List Char :=
  removeAllAux pat l.length l

def isHexDigit (c : Char) : Bool :=
  (48 ≤ c.toNat && c.toNat ≤ 57) || (97 ≤ c.toNat && c.toNat ≤ 102) ||
    (65 ≤ c.toNat && c.toNat ≤ 70)

/-- Model of `uuid.UUID(value)` followed by `str(...)` (used by `is_uuid` and the
resolvers): drop `urn:` / `uuid:` markers, strip braces, drop hyphens, require
exactly 32 hex digits, and canonicalize to lowercase 8-4-4-4-12 form.  (The
exotic sign/`0x`/underscore forms CPython's `int(hex, 16)` would also accept are
outside the model.) -/
def pyUuidCanon (s : String) : Option String :=
  let t1 := removeAll "uuid:".data (removeAll "urn:".data s.data)
  let t2 := Taxo.trimBy (fun c => c == Char.ofNat 123 || c == Char.ofNat 125) t1
  let t3 := t2.filter (fun c => c ≠ '-')
  if t3.length = 32 ∧ t3.all isHexDigit then
    let h := t3.map Char.toLower
    some ⟨h.take 8 ++ '-' :: ((h.drop 8).take 4 ++ '-' :: (((h.drop 12).take 4) ++
      '-' :: ((h.drop 16).take 4 ++ '-' :: h.drop 20)))⟩
  else none

/-- The typed resolution errors of §7 of the specification, one constructor per
`raise ValueError(...)` site of the resolver. -/
inductive ResolveError
  | empty (label : String)
  | unknown (label : String) (raw : String)
  | ambiguous (label : String) (raw : String)
  | scopeMismatch (message : String)
deriving DecidableEq

/-- Embeds `_single_candidate_or_error` (lines 318-325): one candidate succeeds,
zero is unknown, several are ambiguous. -/
def _single_candidate_or_error (candidates : List String) (label raw : String) :
    Except ResolveError String :=
  if candidates.length = 1 then .ok (candidates.headD "")
  else if candidates = [] then .error (.unknown label raw)
  else .error (.ambiguous label raw)

/-- The resolver dictionary of the taxonomy snapshot (lines 492-508), restricted
to the maps the resolution functions read.  Python sets of ids are lists; node
ids are the `str(uuid)` canonical strings. -/
structure Resolver where
  categories_by_id : List String
  category_slug_to_id : List (String × String)
  category_name_to_ids : List (String × List String)
  subcategories_by_id : List String
  subcategory_slug_to_ids : List (String × List String)
  subcategory_name_to_ids : List (String × List String)
  subcategory_name_by_category : List ((String × String) × List String)
  subcategory_meta : List (String × String)
  tags_by_id : List String
  tag_slug_to_ids : List (String × List String)
  tag_name_to_ids : List (String × List String)
  tag_name_by_subcategory : List ((String × String) × List String)
  tag_meta : List (String × String × String)
deriving DecidableEq

/-- Embeds `_resolve_category_id` (lines 625-643). -/
def _resolve_category_id (raw_value : String) (r : Resolver) :
    Except ResolveError String :=
  let value := Taxo.pyStrip raw_value
  if value = "" then .error (.empty "category")
  else
    match pyUuidCanon value with
    | some key =>
      if key ∈ r.categories_by_id then .ok key
      else .error (.unknown "category" raw_value)
    | none =>
      match r.category_slug_to_id.lookup (slugify value) with
      | some cid => .ok cid
      | none =>
        _single_candidate_or_error
          ((r.category_name_to_ids.lookup (Taxo.pyLower value)).getD [])
          "category" raw_value

/-- Embeds `_resolve_subcategory_id` (lines 646-681); `subcategory_meta`
indexings are `getD ""` lookups (the ids present in the maps always carry
metadata in a real snapshot). -/
def _resolve_subcategory_id (raw_value : String) (r : Resolver)
    (category_id : Option String) : Except ResolveError String :=
  let value := Taxo.pyStrip raw_value
  if value = "" then .error (.empty "subcategory")
  else
    match pyUuidCanon value with
    | some key =>
      if key ∈ r.subcategories_by_id then
        match category_id with
        | some cid =>
          if (r.subcategory_meta.lookup key).getD "" ≠ cid then
            .error (.scopeMismatch "subcategory does not belong to selected category")
          else .ok key
        | none => .ok key
      else .error (.unknown "subcategory" raw_value)
    | none =>
      let candidates0 := (r.subcategory_slug_to_ids.lookup (slugify value)).getD []
      let candidates :=
        match category_id with
        | some cid =>
          candidates0.filter (fun i => (r.subcategory_meta.lookup i).getD "" == cid)
        | none => candidates0
      if candidates ≠ [] then
        _single_candidate_or_error candidates "subcategory" raw_value
      else
        let candidates2 :=
          match category_id with
          | some cid =>
            (r.subcategory_name_by_category.lookup (cid, Taxo.pyLower value)).getD []
          | none => (r.subcategory_name_to_ids.lookup (Taxo.pyLower value)).getD []
        _single_candidate_or_error candidates2 "subcategory" raw_value

/-- Embeds the `_apply_scope` closure of `_resolve_tag_id` (lines 694-708):
subcategory scope takes precedence over category scope. -/
def _apply_scope (r : Resolver) (category_id subcategory_id : Option String)
    (candidates : List String) : List String :=
  match subcategory_id with
  | some sid =>
    candidates.filter (fun i => ((r.tag_meta.lookup i).map (·.1)).getD "" == sid)
  | none =>
    match category_id with
    | some cid =>
      candidates.filter (fun i => ((r.tag_meta.lookup i).map (·.2)).getD "" == cid)
    | none => candidates

/-- Embeds `_resolve_tag_id` (lines 684-731). -/
def _resolve_tag_id (raw_value : String) (r : Resolver)
    (category_id subcategory_id : Option String) : Except ResolveError String :=
  let value := Taxo.pyStrip raw_value
  if value = "" then .error (.empty "tag")
  else
    match pyUuidCanon value with
    | some key =>
      if key ∈ r.tags_by_id then
        if _apply_scope r category_id subcategory_id [key] ≠ [key] then
          .error (.scopeMismatch "tag does not belong to selected category/subcategory")
        else .ok key
      else .error (.unknown "tag" raw_value)
    | none =>
      let candidates := _apply_scope r category_id subcategory_id
        ((r.tag_slug_to_ids.lookup (slugify value)).getD [])
      if candidates ≠ [] then
        _single_candidate_or_error candidates "tag" raw_value
      else
        let candidates0 :=
          match subcategory_id with
          | some sid =>
            (r.tag_name_by_subcategory.lookup (sid, Taxo.pyLower value)).getD []
          | none => (r.tag_name_to_ids.lookup (Taxo.pyLower value)).getD []
        _single_candidate_or_error
          (_apply_scope r category_id subcategory_id candidates0) "tag" raw_value

/-- The effective candidate set of non-UUID tag resolution: the scope-filtered
slug candidates when any exist, else the scope-filtered name candidates. -/
def tagCandidates (value : String) (r : Resolver)
    (category_id subcategory_id : Option String) : List String :=
  let slugCands := _apply_scope r category_id subcategory_id
    ((r.tag_slug_to_ids.lookup (slugify value)).getD [])
  if slugCands ≠ [] then slugCands
  else
    _apply_scope r category_id subcategory_id
      (match subcategory_id with
       | some sid => (r.tag_name_by_subcategory.lookup (sid, Taxo.pyLower value)).getD []
       | none => (r.tag_name_to_ids.lookup (Taxo.pyLower value)).getD [])

theorem single_candidate_spec (candidates : List String) (label raw : String) :
    (candidates = [] →
      _single_candidate_or_error candidates label raw = .error (.unknown label raw)) ∧
    (∀ x, candidates = [x] →
      _single_candidate_or_error candidates label raw = .ok x) ∧
    (2 ≤ candidates.length →
      _single_candidate_or_error candidates label raw = .error (.ambiguous label raw)) := by
  refine ⟨?_, ?_, ?_⟩
  · intro h
    subst h
    rfl
  · intro x h
    subst h
    rfl
  · intro h
    unfold _single_candidate_or_error
    rw [if_neg (by omega), if_neg (by
      intro hcon
      rw [hcon] at h
      simp at h)]

end MainSrv

deriving instance DecidableEq for Except

namespace MainSrv

/-- A canonical-form UUID used as a subcategory id in the counterexample
snapshot. -/
def exSubId : String := "00000000-0000-0000-0000-000000000001"

/-- A tiny snapshot: one category `ca` owning the one subcategory `exSubId`. -/
def exResolver : Resolver :=
  ⟨["ca"], [], [], [exSubId], [], [], [], [(exSubId, "ca")], [], [], [], [], []⟩

end MainSrv

/-- Counterexample to C6 as stated: a raw identifier that parses as the canonical
ID type and exists in the snapshot but violates the requested category scope
fails with the scope-mismatch error, not with `UnknownIdentifier`. -/
theorem uuid_scope_violation_not_unknown :
    MainSrv.pyUuidCanon (Taxo.pyStrip MainSrv.exSubId) = some MainSrv.exSubId ∧
    MainSrv.exSubId ∈ MainSrv.exResolver.subcategories_by_id ∧
    MainSrv._resolve_subcategory_id MainSrv.exSubId MainSrv.exResolver (some "cb") =
      .error (.scopeMismatch "subcategory does not belong to selected category") ∧
    MainSrv._resolve_subcategory_id MainSrv.exSubId MainSrv.exResolver (some "cb") ≠
      .error (.unknown "subcategory" MainSrv.exSubId) := by
  exact ⟨by decide, by decide, by decide, by decide⟩

/-- C6 (amended): for every raw identifier that parses as the canonical ID type
(a UUID), resolution never falls through to slug or name lookup: it succeeds with
the canonical key when the key exists in the snapshot and satisfies the scope,
fails with `UnknownIdentifier` when the key is absent, and fails with the
scope-mismatch error — not `UnknownIdentifier` — when the key exists but violates
the scope. -/
theorem uuid_resolution_canonical_path :
    (∀ (raw : String) (r : MainSrv.Resolver) (key : String),
      Taxo.pyStrip raw ≠ "" → MainSrv.pyUuidCanon (Taxo.pyStrip raw) = some key →
      MainSrv._resolve_category_id raw r =
        (if key ∈ r.categories_by_id then .ok key
         else .error (.unknown "category" raw))) ∧
    (∀ (raw : String) (r : MainSrv.Resolver) (key : String) (cat : Option String),
      Taxo.pyStrip raw ≠ "" → MainSrv.pyUuidCanon (Taxo.pyStrip raw) = some key →
      MainSrv._resolve_subcategory_id raw r cat =
        (if key ∈ r.subcategories_by_id then
          match cat with
          | some cid =>
            if (r.subcategory_meta.lookup key).getD "" ≠ cid then
              .error (.scopeMismatch "subcategory does not belong to selected category")
            else .ok key
          | none => .ok key
         else .error (.unknown "subcategory" raw))) ∧
    (∀ (raw : String) (r : MainSrv.Resolver) (key : String) (cat sub : Option String),
      Taxo.pyStrip raw ≠ "" → MainSrv.pyUuidCanon (Taxo.pyStrip raw) = some key →
      MainSrv._resolve_tag_id raw r cat sub =
        (if key ∈ r.tags_by_id then
          if MainSrv._apply_scope r cat sub [key] ≠ [key] then
            .error (.scopeMismatch "tag does not belong to selected category/subcategory")
          else .ok key
         else .error (.unknown "tag" raw))) := by
  refine ⟨?_, ?_, ?_⟩
  · intro raw r key hne huuid
    simp only [MainSrv._resolve_category_id]
    rw [if_neg hne, huuid]
  · intro raw r key cat hne huuid
    unfold MainSrv._resolve_subcategory_id
    rw [if_neg hne, huuid]
  · intro raw r key cat sub hne huuid
    unfold MainSrv._resolve_tag_id
    rw [if_neg hne, huuid]

/-- Witness for C6: a concrete in-snapshot UUID with no scope resolves to itself
through the canonical-id path. -/
theorem uuid_resolution_canonical_path_witness :
    Taxo.pyStrip MainSrv.exSubId ≠ "" ∧
    MainSrv.pyUuidCanon (Taxo.pyStrip MainSrv.exSubId) = some MainSrv.exSubId ∧
    MainSrv._resolve_subcategory_id MainSrv.exSubId MainSrv.exResolver none =
      .ok MainSrv.exSubId := by
  refine ⟨by decide, by decide, ?_⟩
  rw [uuid_resolution_canonical_path.2.1 MainSrv.exSubId MainSrv.exResolver
    MainSrv.exSubId none (by decide) (by decide)]
  decide

/-- C7: for every non-UUID identifier (nonempty once stripped), tag resolution
obeys the ambiguity policy on the effective scope-filtered candidate set (slug
candidates if any, else name candidates): zero candidates yield
`UnknownIdentifier`, exactly one succeeds returning that candidate, and two or
more yield `AmbiguousIdentifier`. -/
theorem non_uuid_ambiguity_policy (raw : String) (r : MainSrv.Resolver)
    (cat sub : Option String)
    (hne : Taxo.pyStrip raw ≠ "")
    (huuid : MainSrv.pyUuidCanon (Taxo.pyStrip raw) = none) :
    (MainSrv.tagCandidates (Taxo.pyStrip raw) r cat sub = [] →
      MainSrv._resolve_tag_id raw r cat sub = .error (.unknown "tag" raw)) ∧
    (∀ x, MainSrv.tagCandidates (Taxo.pyStrip raw) r cat sub = [x] →
      MainSrv._resolve_tag_id raw r cat sub = .ok x) ∧
    (2 ≤ (MainSrv.tagCandidates (Taxo.pyStrip raw) r cat sub).length →
      MainSrv._resolve_tag_id raw r cat sub = .error (.ambiguous "tag" raw)) := by
  have hres : MainSrv._resolve_tag_id raw r cat sub =
      MainSrv._single_candidate_or_error
        (MainSrv.tagCandidates (Taxo.pyStrip raw) r cat sub) "tag" raw := by
    simp only [MainSrv._resolve_tag_id, MainSrv.tagCandidates]
    rw [if_neg hne, huuid]
    by_cases hc : MainSrv._apply_scope r cat sub
        ((r.tag_slug_to_ids.lookup (MainSrv.slugify (Taxo.pyStrip raw))).getD []) ≠ []
    · rw [if_pos hc, if_pos hc]
    · rw [if_neg hc, if_neg hc]
  rw [hres]
  exact MainSrv.single_candidate_spec _ "tag" raw

namespace MainSrv

/-- A canonical-form UUID used as a tag id in the ambiguity-policy witness. -/
def exTagId : String := "00000000-0000-0000-0000-0000000000aa"

/-- A snapshot with a single tag whose slug is `rock`. -/
def exTagResolver : Resolver :=
  ⟨[], [], [], [], [], [], [], [], [exTagId], [("rock", [exTagId])], [], [],
    [(exTagId, "s1", "c1")]⟩

end MainSrv

/-- Witness for C7: the non-UUID raw value `Rock` has exactly one effective
candidate in the one-tag snapshot and resolves to it. -/
theorem non_uuid_ambiguity_policy_witness :
    Taxo.pyStrip "Rock" ≠ "" ∧
    MainSrv.pyUuidCanon (Taxo.pyStrip "Rock") = none ∧
    MainSrv.tagCandidates (Taxo.pyStrip "Rock") MainSrv.exTagResolver none none =
      [MainSrv.exTagId] ∧
    MainSrv._resolve_tag_id "Rock" MainSrv.exTagResolver none none =
      .ok MainSrv.exTagId := by
  refine ⟨by decide, by decide, by decide, ?_⟩
  exact (non_uuid_ambiguity_policy "Rock" MainSrv.exTagResolver none none
    (by decide) (by decide)).2.1 MainSrv.exTagId (by decide)

namespace MainSrv

/-- Number of category nodes with a given id. -/
def catCount (cats : List CatNode) (i : String) : Nat :=
  cats.countP (fun c => c.id == i)

/-- Total number of occurrences of a subcategory id across all categories'
subcategory lists. -/
def subOccur (cats : List CatNode) (sid : String) : Nat :=
  (cats.map (fun c => c.subcategories.countP (fun s => s.id == sid))).sum

/-- Total number of occurrences of a tag id across all subcategories' tag
lists. -/
def tagOccur (cats : List CatNode) (tid : String) : Nat :=
  (cats.map (fun c =>
    (c.subcategories.map (fun s => s.tags.countP (fun t => t.id == tid))).sum)).sum

/-- A row contributing the category id `i`. -/
def rowHasCat (i : String) (row : TRow) : Bool := row.catId == some i

/-- A row contributing the subcategory id `sid` (its category non-null). -/
def rowHasSub (sid : String) (row : TRow) : Bool :=
  row.catId.isSome && row.subId == some sid

/-- A row contributing the tag id `tid` (category and subcategory non-null). -/
def rowHasTag (tid : String) (row : TRow) : Bool :=
  row.catId.isSome && row.subId.isSome && row.tagId == some tid

/-- The category id of the first row in which a subcategory id appears. -/
def firstCatOfSub (rows : List TRow) (sid : String) : Option String :=
  (rows.find? (rowHasSub sid)).bind (·.catId)

/-- The subcategory id of the first row in which a tag id appears. -/
def firstSubOfTag (rows : List TRow) (tid : String) : Option String :=
  (rows.find? (rowHasTag tid)).bind (·.subId)

theorem sum_map_add {α : Type} (l : List α) (f g : α → Nat) :
    (l.map (fun x => f x + g x)).sum = (l.map f).sum + (l.map g).sum := by
  induction l with
  | nil => rfl
  | cons a t ih =>
    simp only [List.map_cons, List.sum_cons, ih]
    omega

theorem sum_map_ite {α : Type} (l : List α) (p : α → Prop) [DecidablePred p] (k : Nat) :
    (l.map (fun x => if p x then k else 0)).sum = k * l.countP (fun x => decide (p x)) := by
  induction l with
  | nil => simp
  | cons a t ih =>
    simp only [List.map_cons, List.sum_cons, List.countP_cons, ih]
    by_cases h : p a
    · rw [if_pos h]
      have hd : decide (p a) = true := decide_eq_true h
      rw [hd, if_pos rfl, Nat.mul_add, Nat.mul_one, Nat.add_comm]
    · rw [if_neg h]
      have hd : decide (p a) = false := decide_eq_false h
      rw [hd]
      simp

theorem catCount_append (cats : List CatNode) (c : CatNode) (i : String) :
    catCount (cats ++ [c]) i = catCount cats i + (if c.id == i then 1 else 0) := by
  unfold catCount
  rw [List.countP_append]
  simp [List.countP_cons]

theorem subOccur_append (cats : List CatNode) (c : CatNode) (sid : String) :
    subOccur (cats ++ [c]) sid =
      subOccur cats sid + c.subcategories.countP (fun s => s.id == sid) := by
  unfold subOccur
  rw [List.map_append, List.sum_append]
  simp

theorem tagOccur_append (cats : List CatNode) (c : CatNode) (tid : String) :
    tagOccur (cats ++ [c]) tid =
      tagOccur cats tid +
        (c.subcategories.map (fun s => s.tags.countP (fun t => t.id == tid))).sum := by
  unfold tagOccur
  rw [List.map_append, List.sum_append]
  simp

theorem catCount_addSubToCat (cats : List CatNode) (cid : String) (sub : SubNode)
    (i : String) : catCount (addSubToCat cats cid sub) i = catCount cats i := by
  unfold catCount addSubToCat
  rw [List.countP_map]
  apply List.countP_congr
  intro c _
  by_cases h : c.id = cid <;> simp [h, Function.comp]

theorem subOccur_addSubToCat (cats : List CatNode) (cid : String) (sub : SubNode)
    (sid : String) :
    subOccur (addSubToCat cats cid sub) sid =
      subOccur cats sid + (if sub.id == sid then 1 else 0) * catCount cats cid := by
  unfold subOccur addSubToCat catCount
  rw [List.map_map]
  have hcong : cats.map ((fun c => c.subcategories.countP (fun s => s.id == sid)) ∘
      (fun c => if c.id = cid then
        { c with subcategories := c.subcategories ++ [sub] } else c)) =
      cats.map (fun c => c.subcategories.countP (fun s => s.id == sid) +
        (if c.id = cid then (if sub.id == sid then 1 else 0) else 0)) := by
    apply List.map_congr_left
    intro c _
    by_cases h : c.id = cid
    · simp only [Function.comp, if_pos h]
      rw [List.countP_append]
      simp [List.countP_cons]
    · simp [Function.comp, h]
  rw [hcong, sum_map_add]
  congr 1
  rw [sum_map_ite cats (fun c => c.id = cid) (if sub.id == sid then 1 else 0)]
  congr 1

theorem tagOccur_addSubToCat (cats : List CatNode) (cid : String) (sub : SubNode)
    (tid : String) (hsub : sub.tags = []) :
    tagOccur (addSubToCat cats cid sub) tid = tagOccur cats tid := by
  unfold tagOccur addSubToCat
  rw [List.map_map]
  apply congrArg
  apply List.map_congr_left
  intro c _
  by_cases h : c.id = cid
  · simp only [Function.comp, if_pos h]
    rw [List.map_append, List.sum_append]
    simp [hsub]
  · simp [Function.comp, h]

theorem catCount_addTagToSub (cats : List CatNode) (sid : String) (tag : TagNode)
    (i : String) : catCount (addTagToSub cats sid tag) i = catCount cats i := by
  unfold catCount addTagToSub
  rw [List.countP_map]
  apply List.countP_congr
  intro c _
  simp [Function.comp]

theorem subOccur_addTagToSub (cats : List CatNode) (sid : String) (tag : TagNode)
    (sid' : String) : subOccur (addTagToSub cats sid tag) sid' = subOccur cats sid' := by
  unfold subOccur addTagToSub
  rw [List.map_map]
  apply congrArg
  apply List.map_congr_left
  intro c _
  simp only [Function.comp]
  rw [List.countP_map]
  apply List.countP_congr
  intro s _
  by_cases h : s.id = sid <;> simp [h, Function.comp]

theorem tagOccur_addTagToSub (cats : List CatNode) (sid : String) (tag : TagNode)
    (tid : String) :
    tagOccur (addTagToSub cats sid tag) tid =
      tagOccur cats tid + (if tag.id == tid then 1 else 0) * subOccur cats sid := by
  unfold tagOccur addTagToSub subOccur
  rw [List.map_map]
  have hcong : cats.map ((fun (c : CatNode) =>
      (c.subcategories.map (fun s => s.tags.countP (fun t => t.id == tid))).sum) ∘
      (fun (c : CatNode) => { c with subcategories := c.subcategories.map (fun s =>
        if s.id = sid then { s with tags := s.tags ++ [tag] } else s) })) =
      cats.map (fun (c : CatNode) =>
        (c.subcategories.map (fun s => s.tags.countP (fun t => t.id == tid))).sum +
        (if tag.id == tid then 1 else 0) *
          c.subcategories.countP (fun s => s.id == sid)) := by
    apply List.map_congr_left
    intro c _
    simp only [Function.comp]
    rw [List.map_map]
    have hinner : c.subcategories.map ((fun (s : SubNode) =>
        s.tags.countP (fun t => t.id == tid)) ∘
        (fun (s : SubNode) =>
          if s.id = sid then { s with tags := s.tags ++ [tag] } else s)) =
        c.subcategories.map (fun (s : SubNode) =>
          s.tags.countP (fun t => t.id == tid) +
          (if s.id = sid then (if tag.id == tid then 1 else 0) else 0)) := by
      apply List.map_congr_left
      intro s _
      by_cases h : s.id = sid
      · simp only [Function.comp, if_pos h]
        rw [List.countP_append]
        simp [List.countP_cons]
      · simp [Function.comp, h]
    rw [hinner, sum_map_add]
    congr 1
    rw [sum_map_ite c.subcategories (fun s => s.id = sid) (if tag.id == tid then 1 else 0)]
    congr 1
  rw [hcong, sum_map_add]
  congr 1
  rw [List.sum_map_mul_left]

end MainSrv

namespace MainSrv

theorem bool_not_true_of_false {b : Bool} (h : b = false) : ¬ b = true := by
  rw [h]
  exact Bool.false_ne_true

theorem beq_comm_str (a b : String) : (a == b) = (b == a) := by
  by_cases h : a = b
  · rw [h]
  · rw [show (a == b) = false from beq_eq_false_iff_ne.mpr h,
      show (b == a) = false from beq_eq_false_iff_ne.mpr (fun e => h e.symm)]

theorem any_append_one {α : Type} (l : List α) (r : α) (p : α → Bool) :
    (l ++ [r]).any p = (l.any p || p r) := by
  rw [List.any_append]
  simp

theorem contains_append_one {α : Type} [BEq α] (l : List α) (a x : α) :
    (l ++ [a]).contains x = (l.contains x || (x == a)) := by
  induction l with
  | nil => simp [List.contains_cons]
  | cons b t ih =>
    rw [List.cons_append, List.contains_cons, List.contains_cons, ih, Bool.or_assoc]

theorem find?_append_one {α : Type} (l : List α) (a : α) (p : α → Bool) :
    (l ++ [a]).find? p = (l.find? p).or (if p a = true then some a else none) := by
  induction l with
  | nil =>
    by_cases h : p a = true
    · rw [List.nil_append, if_pos h, List.find?_cons_of_pos _ h]
      rfl
    · rw [List.nil_append, if_neg h, List.find?_cons_of_neg _ h]
      rfl
  | cons b t ih =>
    by_cases h : p b = true
    · rw [List.cons_append, List.find?_cons_of_pos _ h, List.find?_cons_of_pos _ h]
      rfl
    · rw [List.cons_append, List.find?_cons_of_neg _ h, List.find?_cons_of_neg _ h, ih]

theorem firstCatOfSub_append (rows : List TRow) (row : TRow) (sid : String) :
    firstCatOfSub (rows ++ [row]) sid =
      if rows.any (rowHasSub sid) = true then firstCatOfSub rows sid
      else if rowHasSub sid row = true then row.catId else none := by
  unfold firstCatOfSub
  rw [find?_append_one]
  by_cases hany : rows.any (rowHasSub sid) = true
  · rw [if_pos hany]
    obtain ⟨x, hx, hpx⟩ := List.any_eq_true.mp hany
    obtain ⟨y, hy⟩ := Option.isSome_iff_exists.mp (List.find?_isSome.mpr ⟨x, hx, hpx⟩)
    rw [hy]
    rfl
  · have hnone : rows.find? (rowHasSub sid) = none := by
      rw [List.find?_eq_none]
      intro x hx hpx
      exact hany (List.any_eq_true.mpr ⟨x, hx, hpx⟩)
    rw [if_neg hany, hnone]
    by_cases hr : rowHasSub sid row = true
    · rw [if_pos hr, if_pos hr]
      rfl
    · rw [if_neg hr, if_neg hr]
      rfl

theorem firstSubOfTag_append (rows : List TRow) (row : TRow) (tid : String) :
    firstSubOfTag (rows ++ [row]) tid =
      if rows.any (rowHasTag tid) = true then firstSubOfTag rows tid
      else if rowHasTag tid row = true then row.subId else none := by
  unfold firstSubOfTag
  rw [find?_append_one]
  by_cases hany : rows.any (rowHasTag tid) = true
  · rw [if_pos hany]
    obtain ⟨x, hx, hpx⟩ := List.any_eq_true.mp hany
    obtain ⟨y, hy⟩ := Option.isSome_iff_exists.mp (List.find?_isSome.mpr ⟨x, hx, hpx⟩)
    rw [hy]
    rfl
  · have hnone : rows.find? (rowHasTag tid) = none := by
      rw [List.find?_eq_none]
      intro x hx hpx
      exact hany (List.any_eq_true.mpr ⟨x, hx, hpx⟩)
    rw [if_neg hany, hnone]
    by_cases hr : rowHasTag tid row = true
    · rw [if_pos hr, if_pos hr]
      rfl
    · rw [if_neg hr, if_neg hr]
      rfl

theorem catCount_pos_iff {cats : List CatNode} {cid : String} :
    0 < catCount cats cid ↔ cats.any (fun c => c.id == cid) = true := by
  unfold catCount
  rw [List.countP_pos_iff, List.any_eq_true]

theorem subOccur_pos_of_mem {cats : List CatNode} {c : CatNode} {s : SubNode}
    (hc : c ∈ cats) (hs : s ∈ c.subcategories) : 0 < subOccur cats s.id := by
  unfold subOccur
  have h1 : 0 < c.subcategories.countP (fun x => x.id == s.id) :=
    List.countP_pos_iff.mpr ⟨s, hs, by simp⟩
  have h2 : c.subcategories.countP (fun x => x.id == s.id) ≤
      (cats.map (fun c' => c'.subcategories.countP (fun x => x.id == s.id))).sum :=
    List.single_le_sum (fun x _ => Nat.zero_le x) _ (List.mem_map_of_mem _ hc)
  omega

theorem tagOccur_pos_of_mem {cats : List CatNode} {c : CatNode} {s : SubNode}
    {t : TagNode} (hc : c ∈ cats) (hs : s ∈ c.subcategories) (ht : t ∈ s.tags) :
    0 < tagOccur cats t.id := by
  unfold tagOccur
  have h1 : 0 < s.tags.countP (fun x => x.id == t.id) :=
    List.countP_pos_iff.mpr ⟨t, ht, by simp⟩
  have h2 : s.tags.countP (fun x => x.id == t.id) ≤
      (c.subcategories.map (fun s' => s'.tags.countP (fun x => x.id == t.id))).sum :=
    List.single_le_sum (fun x _ => Nat.zero_le x) _ (List.mem_map_of_mem _ hs)
  have h3 : (c.subcategories.map (fun s' => s'.tags.countP (fun x => x.id == t.id))).sum ≤
      (cats.map (fun c' =>
        (c'.subcategories.map (fun s' => s'.tags.countP (fun x => x.id == t.id))).sum)).sum :=
    List.single_le_sum (fun x _ => Nat.zero_le x) _ (List.mem_map_of_mem _ hc)
  omega

theorem pairs_append_cat {cats : List CatNode} {c0 c' : CatNode} {s' : SubNode}
    (h0 : c0.subcategories = []) (hc : c' ∈ cats ++ [c0]) (hs : s' ∈ c'.subcategories) :
    c' ∈ cats := by
  rcases List.mem_append.mp hc with h1 | h2
  · exact h1
  · rw [List.mem_singleton.mp h2, h0] at hs
    exact absurd hs (List.not_mem_nil s')

theorem pairs_addSubToCat {cats : List CatNode} {cid : String} {sub : SubNode}
    {c' : CatNode} {s' : SubNode} (hc : c' ∈ addSubToCat cats cid sub)
    (hs : s' ∈ c'.subcategories) :
    (∃ c ∈ cats, c'.id = c.id ∧ s' ∈ c.subcategories) ∨ (c'.id = cid ∧ s' = sub) := by
  obtain ⟨c, hcm, hceq⟩ := List.mem_map.mp hc
  by_cases hid : c.id = cid
  · rw [if_pos hid] at hceq
    subst hceq
    rcases List.mem_append.mp hs with h1 | h2
    · exact Or.inl ⟨c, hcm, rfl, h1⟩
    · exact Or.inr ⟨hid, List.mem_singleton.mp h2⟩
  · rw [if_neg hid] at hceq
    subst hceq
    exact Or.inl ⟨c, hcm, rfl, hs⟩

theorem triples_addSubToCat {cats : List CatNode} {cid : String} {sub : SubNode}
    {c' : CatNode} {s' : SubNode} {t' : TagNode} (h0 : sub.tags = [])
    (hc : c' ∈ addSubToCat cats cid sub) (hs : s' ∈ c'.subcategories)
    (ht : t' ∈ s'.tags) :
    ∃ c ∈ cats, ∃ s ∈ c.subcategories, c'.id = c.id ∧ s'.id = s.id ∧ t' ∈ s.tags := by
  rcases pairs_addSubToCat hc hs with ⟨c, hcm, hid, hsm⟩ | ⟨hid, hseq⟩
  · exact ⟨c, hcm, s', hsm, hid, rfl, ht⟩
  · rw [hseq, h0] at ht
    exact absurd ht (List.not_mem_nil t')

theorem pairs_addTagToSub {cats : List CatNode} {sid : String} {tag : TagNode}
    {c' : CatNode} {s' : SubNode} (hc : c' ∈ addTagToSub cats sid tag)
    (hs : s' ∈ c'.subcategories) :
    ∃ c ∈ cats, ∃ s ∈ c.subcategories, c'.id = c.id ∧ s'.id = s.id := by
  obtain ⟨c, hcm, hceq⟩ := List.mem_map.mp hc
  subst hceq
  obtain ⟨s, hsm, hseq⟩ := List.mem_map.mp hs
  refine ⟨c, hcm, s, hsm, rfl, ?_⟩
  by_cases hid : s.id = sid
  · rw [if_pos hid] at hseq
    rw [← hseq]
  · rw [if_neg hid] at hseq
    rw [← hseq]

theorem triples_addTagToSub {cats : List CatNode} {sid : String} {tag : TagNode}
    {c' : CatNode} {s' : SubNode} {t' : TagNode} (hc : c' ∈ addTagToSub cats sid tag)
    (hs : s' ∈ c'.subcategories) (ht : t' ∈ s'.tags) :
    (∃ c ∈ cats, ∃ s ∈ c.subcategories, c'.id = c.id ∧ s'.id = s.id ∧ t' ∈ s.tags) ∨
      (s'.id = sid ∧ t' = tag) := by
  obtain ⟨c, hcm, hceq⟩ := List.mem_map.mp hc
  subst hceq
  obtain ⟨s, hsm, hseq⟩ := List.mem_map.mp hs
  by_cases hid : s.id = sid
  · rw [if_pos hid] at hseq
    subst hseq
    rcases List.mem_append.mp ht with h1 | h2
    · exact Or.inl ⟨c, hcm, s, hsm, rfl, rfl, h1⟩
    · exact Or.inr ⟨hid, List.mem_singleton.mp h2⟩
  · rw [if_neg hid] at hseq
    subst hseq
    exact Or.inl ⟨c, hcm, s, hsm, rfl, rfl, ht⟩

/-- The invariant of the single pass of `_build_taxonomy_cache_payload` after
processing `rows`: per-id node counts at every level of the tree match presence
in the processed rows, the seen-key sets match the rows, and every node of the
tree sits at its first-seen location. -/
structure BuildInv (rows : List TRow) (st : BuildState) : Prop where
  cat_count : ∀ i, catCount st.cats i = if rows.any (rowHasCat i) = true then 1 else 0
  seen_subs : ∀ sid, st.seenSubs.contains sid = rows.any (rowHasSub sid)
  seen_tags : ∀ tid, st.seenTags.contains tid = rows.any (rowHasTag tid)
  sub_occur : ∀ sid, subOccur st.cats sid = if rows.any (rowHasSub sid) = true then 1 else 0
  tag_occur : ∀ tid, tagOccur st.cats tid = if rows.any (rowHasTag tid) = true then 1 else 0
  sub_loc : ∀ c ∈ st.cats, ∀ s ∈ c.subcategories, firstCatOfSub rows s.id = some c.id
  tag_loc : ∀ c ∈ st.cats, ∀ s ∈ c.subcategories, ∀ t ∈ s.tags,
    firstSubOfTag rows t.id = some s.id

theorem inv_any_sub {rows : List TRow} {st : BuildState} (h : BuildInv rows st)
    {c : CatNode} {s : SubNode} (hc : c ∈ st.cats) (hs : s ∈ c.subcategories) :
    rows.any (rowHasSub s.id) = true := by
  have hp := subOccur_pos_of_mem hc hs
  rw [h.sub_occur s.id] at hp
  by_cases hb : rows.any (rowHasSub s.id) = true
  · exact hb
  · rw [if_neg hb] at hp
    exact absurd hp (by omega)

theorem inv_any_tag {rows : List TRow} {st : BuildState} (h : BuildInv rows st)
    {c : CatNode} {s : SubNode} {t : TagNode} (hc : c ∈ st.cats)
    (hs : s ∈ c.subcategories) (ht : t ∈ s.tags) :
    rows.any (rowHasTag t.id) = true := by
  have hp := tagOccur_pos_of_mem hc hs ht
  rw [h.tag_occur t.id] at hp
  by_cases hb : rows.any (rowHasTag t.id) = true
  · exact hb
  · rw [if_neg hb] at hp
    exact absurd hp (by omega)

end MainSrv

namespace MainSrv

theorem bool_false_of_not_true {b : Bool} (h : ¬ b = true) : b = false := by
  cases b
  · rfl
  · exact absurd rfl h

theorem catCount_step {rows : List TRow} {st : BuildState} (h : BuildInv rows st)
    {row : TRow} {cid : String} (hc : row.catId = some cid) (nm sl : String) :
    ∀ i, catCount (if st.cats.any (fun c => c.id == cid) = true then st.cats
        else st.cats ++ [⟨cid, nm, sl, []⟩]) i =
      if (rows ++ [row]).any (rowHasCat i) = true then 1 else 0 := by
  intro i
  have hrc : rowHasCat i row = (cid == i) := by
    unfold rowHasCat
    rw [hc]
    rfl
  rw [any_append_one, hrc]
  by_cases ha : st.cats.any (fun c => c.id == cid) = true
  · rw [if_pos ha]
    have hpos : 0 < catCount st.cats cid := catCount_pos_iff.mpr ha
    have hanyc : rows.any (rowHasCat cid) = true := by
      rw [h.cat_count cid] at hpos
      by_cases hb : rows.any (rowHasCat cid) = true
      · exact hb
      · rw [if_neg hb] at hpos
        exact absurd hpos (by omega)
    by_cases hi : cid = i
    · subst hi
      rw [h.cat_count cid, hanyc]
      simp
    · rw [show (cid == i) = false from beq_eq_false_iff_ne.mpr hi, Bool.or_false]
      exact h.cat_count i
  · rw [if_neg ha]
    have hz : catCount st.cats cid = 0 := by
      by_cases hp : 0 < catCount st.cats cid
      · exact absurd (catCount_pos_iff.mp hp) ha
      · omega
    have hanyc : rows.any (rowHasCat cid) = false := by
      rw [h.cat_count cid] at hz
      by_cases hb : rows.any (rowHasCat cid) = true
      · rw [if_pos hb] at hz
        exact absurd hz (by omega)
      · exact bool_false_of_not_true hb
    rw [catCount_append]
    by_cases hi : cid = i
    · subst hi
      rw [h.cat_count cid, hanyc]
      simp
    · rw [show ((⟨cid, nm, sl, []⟩ : CatNode).id == i) = false from
        beq_eq_false_iff_ne.mpr hi, Bool.or_false,
        if_neg Bool.false_ne_true, Nat.add_zero]
      exact h.cat_count i

theorem catCount_C1_self {rows : List TRow} {st : BuildState} (h : BuildInv rows st)
    {row : TRow} {cid : String} (hc : row.catId = some cid) (nm sl : String) :
    catCount (if st.cats.any (fun c => c.id == cid) = true then st.cats
      else st.cats ++ [⟨cid, nm, sl, []⟩]) cid = 1 := by
  rw [catCount_step h hc nm sl cid]
  have hr : rowHasCat cid row = true := by
    unfold rowHasCat
    rw [hc]
    exact beq_self_eq_true cid
  rw [any_append_one, hr, Bool.or_true, if_pos rfl]

theorem subOccur_C1 (cats : List CatNode) (cid nm sl : String) (sid : String) :
    subOccur (if cats.any (fun c => c.id == cid) = true then cats
      else cats ++ [⟨cid, nm, sl, []⟩]) sid = subOccur cats sid := by
  by_cases ha : cats.any (fun c => c.id == cid) = true
  · rw [if_pos ha]
  · rw [if_neg ha, subOccur_append]
    simp

theorem tagOccur_C1 (cats : List CatNode) (cid nm sl : String) (tid : String) :
    tagOccur (if cats.any (fun c => c.id == cid) = true then cats
      else cats ++ [⟨cid, nm, sl, []⟩]) tid = tagOccur cats tid := by
  by_cases ha : cats.any (fun c => c.id == cid) = true
  · rw [if_pos ha]
  · rw [if_neg ha, tagOccur_append]
    simp

theorem pairs_C1 {cats : List CatNode} {cid nm sl : String} {c' : CatNode}
    {s' : SubNode}
    (hc : c' ∈ (if cats.any (fun c => c.id == cid) = true then cats
      else cats ++ [⟨cid, nm, sl, []⟩]))
    (hs : s' ∈ c'.subcategories) : c' ∈ cats := by
  by_cases ha : cats.any (fun c => c.id == cid) = true
  · rw [if_pos ha] at hc
    exact hc
  · rw [if_neg ha] at hc
    exact pairs_append_cat rfl hc hs

end MainSrv

namespace MainSrv

theorem buildStep_inv_cat {rows : List TRow} {st : BuildState} (h : BuildInv rows st)
    {row : TRow} {cid : String} (hc : row.catId = some cid) (hs : row.subId = none)
    (m : Option Nat) :
    BuildInv (rows ++ [row])
      ⟨if st.cats.any (fun c => c.id == cid) = true then st.cats
        else st.cats ++ [⟨cid, normName row.catName, normSlug row.catSlug, []⟩],
       st.seenSubs, st.seenTags, m⟩ := by
  have hrs : ∀ x, rowHasSub x row = false := by
    intro x
    unfold rowHasSub
    rw [hc, hs]
    rfl
  have hrt : ∀ x, rowHasTag x row = false := by
    intro x
    unfold rowHasTag
    rw [hc, hs]
    rfl
  refine ⟨catCount_step h hc _ _, ?_, ?_, ?_, ?_, ?_, ?_⟩
  · intro x
    dsimp only
    rw [any_append_one, hrs x, Bool.or_false]
    exact h.seen_subs x
  · intro x
    dsimp only
    rw [any_append_one, hrt x, Bool.or_false]
    exact h.seen_tags x
  · intro x
    dsimp only
    rw [subOccur_C1, any_append_one, hrs x, Bool.or_false]
    exact h.sub_occur x
  · intro x
    dsimp only
    rw [tagOccur_C1, any_append_one, hrt x, Bool.or_false]
    exact h.tag_occur x
  · intro c' hc' s' hs'
    dsimp only at hc'
    have hcm : c' ∈ st.cats := pairs_C1 hc' hs'
    rw [firstCatOfSub_append, if_pos (inv_any_sub h hcm hs')]
    exact h.sub_loc c' hcm s' hs'
  · intro c' hc' s' hs' t' ht'
    dsimp only at hc'
    have hcm : c' ∈ st.cats := pairs_C1 hc' hs'
    rw [firstSubOfTag_append, if_pos (inv_any_tag h hcm hs' ht')]
    exact h.tag_loc c' hcm s' hs' t' ht'

theorem buildStep_inv_sub_seen {rows : List TRow} {st : BuildState}
    (h : BuildInv rows st) {row : TRow} {cid sid : String}
    (hc : row.catId = some cid) (hs : row.subId = some sid) (ht : row.tagId = none)
    (hseen : st.seenSubs.contains sid = true) (m : Option Nat) :
    BuildInv (rows ++ [row])
      ⟨if st.cats.any (fun c => c.id == cid) = true then st.cats
        else st.cats ++ [⟨cid, normName row.catName, normSlug row.catSlug, []⟩],
       st.seenSubs, st.seenTags, m⟩ := by
  have hrs : ∀ x, rowHasSub x row = (sid == x) := by
    intro x
    unfold rowHasSub
    rw [hc, hs]
    rfl
  have hrt : ∀ x, rowHasTag x row = false := by
    intro x
    unfold rowHasTag
    rw [hc, hs, ht]
    rfl
  have hseenAny : rows.any (rowHasSub sid) = true := by
    rw [← h.seen_subs sid]
    exact hseen
  refine ⟨catCount_step h hc _ _, ?_, ?_, ?_, ?_, ?_, ?_⟩
  · intro x
    dsimp only
    rw [any_append_one, hrs x, h.seen_subs x]
    by_cases hx : sid = x
    · subst hx
      rw [hseenAny, Bool.true_or]
    · rw [show (sid == x) = false from beq_eq_false_iff_ne.mpr hx, Bool.or_false]
  · intro x
    dsimp only
    rw [any_append_one, hrt x, Bool.or_false]
    exact h.seen_tags x
  · intro x
    dsimp only
    rw [subOccur_C1, any_append_one, hrs x, h.sub_occur x]
    by_cases hx : sid = x
    · subst hx
      rw [hseenAny, Bool.true_or]
    · rw [show (sid == x) = false from beq_eq_false_iff_ne.mpr hx, Bool.or_false]
  · intro x
    dsimp only
    rw [tagOccur_C1, any_append_one, hrt x, Bool.or_false]
    exact h.tag_occur x
  · intro c' hc' s' hs'
    dsimp only at hc'
    have hcm : c' ∈ st.cats := pairs_C1 hc' hs'
    rw [firstCatOfSub_append, if_pos (inv_any_sub h hcm hs')]
    exact h.sub_loc c' hcm s' hs'
  · intro c' hc' s' hs' t' ht'
    dsimp only at hc'
    have hcm : c' ∈ st.cats := pairs_C1 hc' hs'
    rw [firstSubOfTag_append, if_pos (inv_any_tag h hcm hs' ht')]
    exact h.tag_loc c' hcm s' hs' t' ht'

theorem buildStep_inv_sub_new {rows : List TRow} {st : BuildState}
    (h : BuildInv rows st) {row : TRow} {cid sid : String}
    (hc : row.catId = some cid) (hs : row.subId = some sid) (ht : row.tagId = none)
    (hseen : st.seenSubs.contains sid = false) (m : Option Nat) :
    BuildInv (rows ++ [row])
      ⟨addSubToCat
          (if st.cats.any (fun c => c.id == cid) = true then st.cats
           else st.cats ++ [⟨cid, normName row.catName, normSlug row.catSlug, []⟩])
          cid ⟨sid, normName row.subName, normSlug row.subSlug, []⟩,
       st.seenSubs ++ [sid], st.seenTags, m⟩ := by
  have hrs : ∀ x, rowHasSub x row = (sid == x) := by
    intro x
    unfold rowHasSub
    rw [hc, hs]
    rfl
  have hrt : ∀ x, rowHasTag x row = false := by
    intro x
    unfold rowHasTag
    rw [hc, hs, ht]
    rfl
  have hseenAny : rows.any (rowHasSub sid) = false := by
    rw [← h.seen_subs sid]
    exact hseen
  have hC1 : catCount (if st.cats.any (fun c => c.id == cid) = true then st.cats
      else st.cats ++ [⟨cid, normName row.catName, normSlug row.catSlug, []⟩]) cid = 1 :=
    catCount_C1_self h hc _ _
  refine ⟨?_, ?_, ?_, ?_, ?_, ?_, ?_⟩
  · intro i
    dsimp only
    rw [catCount_addSubToCat]
    exact catCount_step h hc _ _ i
  · intro x
    dsimp only
    rw [contains_append_one, any_append_one, hrs x, h.seen_subs x, beq_comm_str x sid]
  · intro x
    dsimp only
    rw [any_append_one, hrt x, Bool.or_false]
    exact h.seen_tags x
  · intro x
    dsimp only
    rw [subOccur_addSubToCat, subOccur_C1, hC1, Nat.mul_one, h.sub_occur x,
      any_append_one, hrs x]
    dsimp only
    by_cases hx : sid = x
    · subst hx
      rw [hseenAny]
      simp
    · rw [show (sid == x) = false from beq_eq_false_iff_ne.mpr hx, Bool.or_false]
      simp
  · intro x
    dsimp only
    rw [tagOccur_addSubToCat _ _ _ _ rfl, tagOccur_C1, any_append_one, hrt x,
      Bool.or_false]
    exact h.tag_occur x
  · intro c' hc' s' hs'
    dsimp only at hc'
    rcases pairs_addSubToCat hc' hs' with ⟨c, hcm1, hid, hsm⟩ | ⟨hid, hseq⟩
    · have hcm : c ∈ st.cats := pairs_C1 hcm1 hsm
      rw [firstCatOfSub_append, if_pos (inv_any_sub h hcm hsm), hid]
      exact h.sub_loc c hcm s' hsm
    · rw [hseq]
      dsimp only
      have hr : rowHasSub sid row = true := by
        unfold rowHasSub
        rw [hc, hs]
        exact beq_self_eq_true sid
      rw [firstCatOfSub_append, if_neg (bool_not_true_of_false hseenAny), if_pos hr,
        hc, hid]
  · intro c' hc' s' hs' t' ht'
    dsimp only at hc'
    obtain ⟨c, hcm1, s, hsm1, hidc, hids, htm⟩ := triples_addSubToCat rfl hc' hs' ht'
    have hcm : c ∈ st.cats := pairs_C1 hcm1 hsm1
    rw [firstSubOfTag_append, if_pos (inv_any_tag h hcm hsm1 htm), hids]
    exact h.tag_loc c hcm s hsm1 t' htm

end MainSrv

namespace MainSrv

theorem buildStep_inv_tag_ss {rows : List TRow} {st : BuildState}
    (h : BuildInv rows st) {row : TRow} {cid sid tid : String}
    (hc : row.catId = some cid) (hs : row.subId = some sid)
    (ht : row.tagId = some tid) (hseen : st.seenSubs.contains sid = true)
    (hseenT : st.seenTags.contains tid = true) (m : Option Nat) :
    BuildInv (rows ++ [row])
      ⟨if st.cats.any (fun c => c.id == cid) = true then st.cats
        else st.cats ++ [⟨cid, normName row.catName, normSlug row.catSlug, []⟩],
       st.seenSubs, st.seenTags, m⟩ := by
  have hrs : ∀ x, rowHasSub x row = (sid == x) := by
    intro x
    unfold rowHasSub
    rw [hc, hs]
    rfl
  have hrt : ∀ x, rowHasTag x row = (tid == x) := by
    intro x
    unfold rowHasTag
    rw [hc, hs, ht]
    rfl
  have hseenAny : rows.any (rowHasSub sid) = true := by
    rw [← h.seen_subs sid]
    exact hseen
  have hseenTAny : rows.any (rowHasTag tid) = true := by
    rw [← h.seen_tags tid]
    exact hseenT
  refine ⟨catCount_step h hc _ _, ?_, ?_, ?_, ?_, ?_, ?_⟩
  · intro x
    dsimp only
    rw [any_append_one, hrs x, h.seen_subs x]
    by_cases hx : sid = x
    · subst hx
      rw [hseenAny, Bool.true_or]
    · rw [show (sid == x) = false from beq_eq_false_iff_ne.mpr hx, Bool.or_false]
  · intro x
    dsimp only
    rw [any_append_one, hrt x, h.seen_tags x]
    by_cases hx : tid = x
    · subst hx
      rw [hseenTAny, Bool.true_or]
    · rw [show (tid == x) = false from beq_eq_false_iff_ne.mpr hx, Bool.or_false]
  · intro x
    dsimp only
    rw [subOccur_C1, any_append_one, hrs x, h.sub_occur x]
    by_cases hx : sid = x
    · subst hx
      rw [hseenAny, Bool.true_or]
    · rw [show (sid == x) = false from beq_eq_false_iff_ne.mpr hx, Bool.or_false]
  · intro x
    dsimp only
    rw [tagOccur_C1, any_append_one, hrt x, h.tag_occur x]
    by_cases hx : tid = x
    · subst hx
      rw [hseenTAny, Bool.true_or]
    · rw [show (tid == x) = false from beq_eq_false_iff_ne.mpr hx, Bool.or_false]
  · intro c' hc' s' hs'
    dsimp only at hc'
    have hcm : c' ∈ st.cats := pairs_C1 hc' hs'
    rw [firstCatOfSub_append, if_pos (inv_any_sub h hcm hs')]
    exact h.sub_loc c' hcm s' hs'
  · intro c' hc' s' hs' t' ht'
    dsimp only at hc'
    have hcm : c' ∈ st.cats := pairs_C1 hc' hs'
    rw [firstSubOfTag_append, if_pos (inv_any_tag h hcm hs' ht')]
    exact h.tag_loc c' hcm s' hs' t' ht'

theorem buildStep_inv_tag_sn {rows : List TRow} {st : BuildState}
    (h : BuildInv rows st) {row : TRow} {cid sid tid : String}
    (hc : row.catId = some cid) (hs : row.subId = some sid)
    (ht : row.tagId = some tid) (hseen : st.seenSubs.contains sid = true)
    (hseenT : st.seenTags.contains tid = false) (m : Option Nat) :
    BuildInv (rows ++ [row])
      ⟨addTagToSub
          (if st.cats.any (fun c => c.id == cid) = true then st.cats
           else st.cats ++ [⟨cid, normName row.catName, normSlug row.catSlug, []⟩])
          sid ⟨tid, normName row.tagName, normSlug row.tagSlug⟩,
       st.seenSubs, st.seenTags ++ [tid], m⟩ := by
  have hrs : ∀ x, rowHasSub x row = (sid == x) := by
    intro x
    unfold rowHasSub
    rw [hc, hs]
    rfl
  have hrt : ∀ x, rowHasTag x row = (tid == x) := by
    intro x
    unfold rowHasTag
    rw [hc, hs, ht]
    rfl
  have hseenAny : rows.any (rowHasSub sid) = true := by
    rw [← h.seen_subs sid]
    exact hseen
  have hseenTAny : rows.any (rowHasTag tid) = false := by
    rw [← h.seen_tags tid]
    exact hseenT
  have hsub3 : subOccur (if st.cats.any (fun c => c.id == cid) = true then st.cats
      else st.cats ++ [⟨cid, normName row.catName, normSlug row.catSlug, []⟩]) sid = 1 := by
    rw [subOccur_C1, h.sub_occur sid, hseenAny, if_pos rfl]
  refine ⟨?_, ?_, ?_, ?_, ?_, ?_, ?_⟩
  · intro i
    dsimp only
    rw [catCount_addTagToSub]
    exact catCount_step h hc _ _ i
  · intro x
    dsimp only
    rw [any_append_one, hrs x, h.seen_subs x]
    by_cases hx : sid = x
    · subst hx
      rw [hseenAny, Bool.true_or]
    · rw [show (sid == x) = false from beq_eq_false_iff_ne.mpr hx, Bool.or_false]
  · intro x
    dsimp only
    rw [contains_append_one, any_append_one, hrt x, h.seen_tags x, beq_comm_str x tid]
  · intro x
    dsimp only
    rw [subOccur_addTagToSub, subOccur_C1, any_append_one, hrs x, h.sub_occur x]
    by_cases hx : sid = x
    · subst hx
      rw [hseenAny, Bool.true_or]
    · rw [show (sid == x) = false from beq_eq_false_iff_ne.mpr hx, Bool.or_false]
  · intro x
    dsimp only
    rw [tagOccur_addTagToSub, hsub3, Nat.mul_one, tagOccur_C1, h.tag_occur x,
      any_append_one, hrt x]
    dsimp only
    by_cases hx : tid = x
    · subst hx
      rw [hseenTAny]
      simp
    · rw [show (tid == x) = false from beq_eq_false_iff_ne.mpr hx, Bool.or_false]
      simp
  · intro c' hc' s' hs'
    dsimp only at hc'
    obtain ⟨c, hcm1, s, hsm1, hidc, hids⟩ := pairs_addTagToSub hc' hs'
    have hcm : c ∈ st.cats := pairs_C1 hcm1 hsm1
    rw [hids, hidc, firstCatOfSub_append, if_pos (inv_any_sub h hcm hsm1)]
    exact h.sub_loc c hcm s hsm1
  · intro c' hc' s' hs' t' ht'
    dsimp only at hc'
    rcases triples_addTagToSub hc' hs' ht' with
      ⟨c, hcm1, s, hsm1, hidc, hids, htm⟩ | ⟨hids, hteq⟩
    · have hcm : c ∈ st.cats := pairs_C1 hcm1 hsm1
      rw [firstSubOfTag_append, if_pos (inv_any_tag h hcm hsm1 htm), hids]
      exact h.tag_loc c hcm s hsm1 t' htm
    · rw [hteq]
      dsimp only
      have hr : rowHasTag tid row = true := by
        unfold rowHasTag
        rw [hc, hs, ht]
        exact beq_self_eq_true tid
      rw [firstSubOfTag_append, if_neg (bool_not_true_of_false hseenTAny), if_pos hr,
        hs, hids]

theorem buildStep_inv_tag_ns {rows : List TRow} {st : BuildState}
    (h : BuildInv rows st) {row : TRow} {cid sid tid : String}
    (hc : row.catId = some cid) (hs : row.subId = some sid)
    (ht : row.tagId = some tid) (hseen : st.seenSubs.contains sid = false)
    (hseenT : st.seenTags.contains tid = true) (m : Option Nat) :
    BuildInv (rows ++ [row])
      ⟨addSubToCat
          (if st.cats.any (fun c => c.id == cid) = true then st.cats
           else st.cats ++ [⟨cid, normName row.catName, normSlug row.catSlug, []⟩])
          cid ⟨sid, normName row.subName, normSlug row.subSlug, []⟩,
       st.seenSubs ++ [sid], st.seenTags, m⟩ := by
  have hrs : ∀ x, rowHasSub x row = (sid == x) := by
    intro x
    unfold rowHasSub
    rw [hc, hs]
    rfl
  have hrt : ∀ x, rowHasTag x row = (tid == x) := by
    intro x
    unfold rowHasTag
    rw [hc, hs, ht]
    rfl
  have hseenAny : rows.any (rowHasSub sid) = false := by
    rw [← h.seen_subs sid]
    exact hseen
  have hseenTAny : rows.any (rowHasTag tid) = true := by
    rw [← h.seen_tags tid]
    exact hseenT
  have hC1 : catCount (if st.cats.any (fun c => c.id == cid) = true then st.cats
      else st.cats ++ [⟨cid, normName row.catName, normSlug row.catSlug, []⟩]) cid = 1 :=
    catCount_C1_self h hc _ _
  refine ⟨?_, ?_, ?_, ?_, ?_, ?_, ?_⟩
  · intro i
    dsimp only
    rw [catCount_addSubToCat]
    exact catCount_step h hc _ _ i
  · intro x
    dsimp only
    rw [contains_append_one, any_append_one, hrs x, h.seen_subs x, beq_comm_str x sid]
  · intro x
    dsimp only
    rw [any_append_one, hrt x, h.seen_tags x]
    by_cases hx : tid = x
    · subst hx
      rw [hseenTAny, Bool.true_or]
    · rw [show (tid == x) = false from beq_eq_false_iff_ne.mpr hx, Bool.or_false]
  · intro x
    dsimp only
    rw [subOccur_addSubToCat, subOccur_C1, hC1, Nat.mul_one, h.sub_occur x,
      any_append_one, hrs x]
    dsimp only
    by_cases hx : sid = x
    · subst hx
      rw [hseenAny]
      simp
    · rw [show (sid == x) = false from beq_eq_false_iff_ne.mpr hx, Bool.or_false]
      simp
  · intro x
    dsimp only
    rw [tagOccur_addSubToCat _ _ _ _ rfl, tagOccur_C1, any_append_one, hrt x,
      h.tag_occur x]
    by_cases hx : tid = x
    · subst hx
      rw [hseenTAny, Bool.true_or]
    · rw [show (tid == x) = false from beq_eq_false_iff_ne.mpr hx, Bool.or_false]
  · intro c' hc' s' hs'
    dsimp only at hc'
    rcases pairs_addSubToCat hc' hs' with ⟨c, hcm1, hid, hsm⟩ | ⟨hid, hseq⟩
    · have hcm : c ∈ st.cats := pairs_C1 hcm1 hsm
      rw [firstCatOfSub_append, if_pos (inv_any_sub h hcm hsm), hid]
      exact h.sub_loc c hcm s' hsm
    · rw [hseq]
      dsimp only
      have hr : rowHasSub sid row = true := by
        unfold rowHasSub
        rw [hc, hs]
        exact beq_self_eq_true sid
      rw [firstCatOfSub_append, if_neg (bool_not_true_of_false hseenAny), if_pos hr,
        hc, hid]
  · intro c' hc' s' hs' t' ht'
    dsimp only at hc'
    obtain ⟨c, hcm1, s, hsm1, hidc, hids, htm⟩ := triples_addSubToCat rfl hc' hs' ht'
    have hcm : c ∈ st.cats := pairs_C1 hcm1 hsm1
    rw [firstSubOfTag_append, if_pos (inv_any_tag h hcm hsm1 htm), hids]
    exact h.tag_loc c hcm s hsm1 t' htm

theorem buildStep_inv_tag_nn {rows : List TRow} {st : BuildState}
    (h : BuildInv rows st) {row : TRow} {cid sid tid : String}
    (hc : row.catId = some cid) (hs : row.subId = some sid)
    (ht : row.tagId = some tid) (hseen : st.seenSubs.contains sid = false)
    (hseenT : st.seenTags.contains tid = false) (m : Option Nat) :
    BuildInv (rows ++ [row])
      ⟨addTagToSub
          (addSubToCat
            (if st.cats.any (fun c => c.id == cid) = true then st.cats
             else st.cats ++ [⟨cid, normName row.catName, normSlug row.catSlug, []⟩])
            cid ⟨sid, normName row.subName, normSlug row.subSlug, []⟩)
          sid ⟨tid, normName row.tagName, normSlug row.tagSlug⟩,
       st.seenSubs ++ [sid], st.seenTags ++ [tid], m⟩ := by
  have hrs : ∀ x, rowHasSub x row = (sid == x) := by
    intro x
    unfold rowHasSub
    rw [hc, hs]
    rfl
  have hrt : ∀ x, rowHasTag x row = (tid == x) := by
    intro x
    unfold rowHasTag
    rw [hc, hs, ht]
    rfl
  have hseenAny : rows.any (rowHasSub sid) = false := by
    rw [← h.seen_subs sid]
    exact hseen
  have hseenTAny : rows.any (rowHasTag tid) = false := by
    rw [← h.seen_tags tid]
    exact hseenT
  have hC1 : catCount (if st.cats.any (fun c => c.id == cid) = true then st.cats
      else st.cats ++ [⟨cid, normName row.catName, normSlug row.catSlug, []⟩]) cid = 1 :=
    catCount_C1_self h hc _ _
  have hsub3 : subOccur (addSubToCat
      (if st.cats.any (fun c => c.id == cid) = true then st.cats
       else st.cats ++ [⟨cid, normName row.catName, normSlug row.catSlug, []⟩])
      cid ⟨sid, normName row.subName, normSlug row.subSlug, []⟩) sid = 1 := by
    rw [subOccur_addSubToCat, subOccur_C1, hC1, Nat.mul_one, h.sub_occur sid, hseenAny]
    dsimp only
    simp
  refine ⟨?_, ?_, ?_, ?_, ?_, ?_, ?_⟩
  · intro i
    dsimp only
    rw [catCount_addTagToSub, catCount_addSubToCat]
    exact catCount_step h hc _ _ i
  · intro x
    dsimp only
    rw [contains_append_one, any_append_one, hrs x, h.seen_subs x, beq_comm_str x sid]
  · intro x
    dsimp only
    rw [contains_append_one, any_append_one, hrt x, h.seen_tags x, beq_comm_str x tid]
  · intro x
    dsimp only
    rw [subOccur_addTagToSub, subOccur_addSubToCat, subOccur_C1, hC1, Nat.mul_one,
      h.sub_occur x, any_append_one, hrs x]
    dsimp only
    by_cases hx : sid = x
    · subst hx
      rw [hseenAny]
      simp
    · rw [show (sid == x) = false from beq_eq_false_iff_ne.mpr hx, Bool.or_false]
      simp
  · intro x
    dsimp only
    rw [tagOccur_addTagToSub, hsub3, Nat.mul_one, tagOccur_addSubToCat _ _ _ _ rfl,
      tagOccur_C1, h.tag_occur x, any_append_one, hrt x]
    dsimp only
    by_cases hx : tid = x
    · subst hx
      rw [hseenTAny]
      simp
    · rw [show (tid == x) = false from beq_eq_false_iff_ne.mpr hx, Bool.or_false]
      simp
  · intro c' hc' s' hs'
    dsimp only at hc'
    obtain ⟨c1, hcm1, s1, hsm1, hidc1, hids1⟩ := pairs_addTagToSub hc' hs'
    rcases pairs_addSubToCat hcm1 hsm1 with ⟨c, hcm2, hidc2, hsm2⟩ | ⟨hidc2, hseq⟩
    · have hcm : c ∈ st.cats := pairs_C1 hcm2 hsm2
      rw [hids1, hidc1, hidc2, firstCatOfSub_append, if_pos (inv_any_sub h hcm hsm2)]
      exact h.sub_loc c hcm s1 hsm2
    · rw [hids1, hseq, hidc1, hidc2]
      dsimp only
      have hr : rowHasSub sid row = true := by
        unfold rowHasSub
        rw [hc, hs]
        exact beq_self_eq_true sid
      rw [firstCatOfSub_append, if_neg (bool_not_true_of_false hseenAny), if_pos hr, hc]
  · intro c' hc' s' hs' t' ht'
    dsimp only at hc'
    rcases triples_addTagToSub hc' hs' ht' with
      ⟨c1, hcm1, s1, hsm1, hidc1, hids1, htm1⟩ | ⟨hids1, hteq⟩
    · obtain ⟨c, hcm2, s, hsm2, hidc2, hids2, htm2⟩ :=
        triples_addSubToCat rfl hcm1 hsm1 htm1
      have hcm : c ∈ st.cats := pairs_C1 hcm2 hsm2
      rw [firstSubOfTag_append, if_pos (inv_any_tag h hcm hsm2 htm2), hids1, hids2]
      exact h.tag_loc c hcm s hsm2 t' htm2
    · rw [hteq]
      dsimp only
      have hr : rowHasTag tid row = true := by
        unfold rowHasTag
        rw [hc, hs, ht]
        exact beq_self_eq_true tid
      rw [firstSubOfTag_append, if_neg (bool_not_true_of_false hseenTAny), if_pos hr,
        hs, hids1]

end MainSrv

namespace MainSrv

theorem buildStep_inv {rows : List TRow} {st : BuildState} (row : TRow)
    (h : BuildInv rows st) : BuildInv (rows ++ [row]) (buildStep st row) := by
  cases hc : row.catId with
  | none =>
    have hstep : buildStep st row = st := by
      unfold buildStep
      rw [hc]
    rw [hstep]
    have hca : ∀ x, rowHasCat x row = false := by
      intro x
      unfold rowHasCat
      rw [hc]
      rfl
    have hrs : ∀ x, rowHasSub x row = false := by
      intro x
      unfold rowHasSub
      rw [hc]
      rfl
    have hrt : ∀ x, rowHasTag x row = false := by
      intro x
      unfold rowHasTag
      rw [hc]
      rfl
    refine ⟨?_, ?_, ?_, ?_, ?_, ?_, ?_⟩
    · intro i
      rw [any_append_one, hca i, Bool.or_false]
      exact h.cat_count i
    · intro x
      rw [any_append_one, hrs x, Bool.or_false]
      exact h.seen_subs x
    · intro x
      rw [any_append_one, hrt x, Bool.or_false]
      exact h.seen_tags x
    · intro x
      rw [any_append_one, hrs x, Bool.or_false]
      exact h.sub_occur x
    · intro x
      rw [any_append_one, hrt x, Bool.or_false]
      exact h.tag_occur x
    · intro c' hc' s' hs'
      rw [firstCatOfSub_append, if_pos (inv_any_sub h hc' hs')]
      exact h.sub_loc c' hc' s' hs'
    · intro c' hc' s' hs' t' ht'
      rw [firstSubOfTag_append, if_pos (inv_any_tag h hc' hs' ht')]
      exact h.tag_loc c' hc' s' hs' t' ht'
  | some cid =>
    cases hs : row.subId with
    | none =>
      have hstep : buildStep st row =
          ⟨if st.cats.any (fun c => c.id == cid) = true then st.cats
            else st.cats ++ [⟨cid, normName row.catName, normSlug row.catSlug, []⟩],
           st.seenSubs, st.seenTags, bumpMax st.maxCreated row.catCreated⟩ := by
        unfold buildStep
        rw [hc, hs]
      rw [hstep]
      exact buildStep_inv_cat h hc hs _
    | some sid =>
      cases ht : row.tagId with
      | none =>
        by_cases hseen : st.seenSubs.contains sid = true
        · have hstep : buildStep st row =
              ⟨if st.cats.any (fun c => c.id == cid) = true then st.cats
                else st.cats ++ [⟨cid, normName row.catName, normSlug row.catSlug, []⟩],
               st.seenSubs, st.seenTags,
               bumpMax (bumpMax st.maxCreated row.catCreated) row.subCreated⟩ := by
            unfold buildStep
            rw [hc, hs, ht]
            dsimp only
            rw [if_pos hseen]
          rw [hstep]
          exact buildStep_inv_sub_seen h hc hs ht hseen _
        · have hseen' : st.seenSubs.contains sid = false := bool_false_of_not_true hseen
          have hstep : buildStep st row =
              ⟨addSubToCat
                  (if st.cats.any (fun c => c.id == cid) = true then st.cats
                   else st.cats ++
                     [⟨cid, normName row.catName, normSlug row.catSlug, []⟩])
                  cid ⟨sid, normName row.subName, normSlug row.subSlug, []⟩,
               st.seenSubs ++ [sid], st.seenTags,
               bumpMax (bumpMax st.maxCreated row.catCreated) row.subCreated⟩ := by
            unfold buildStep
            rw [hc, hs, ht]
            dsimp only
            rw [if_neg hseen]
          rw [hstep]
          exact buildStep_inv_sub_new h hc hs ht hseen' _
      | some tid =>
        by_cases hseen : st.seenSubs.contains sid = true
        · by_cases hseenT : st.seenTags.contains tid = true
          · have hstep : buildStep st row =
                ⟨if st.cats.any (fun c => c.id == cid) = true then st.cats
                  else st.cats ++
                    [⟨cid, normName row.catName, normSlug row.catSlug, []⟩],
                 st.seenSubs, st.seenTags,
                 bumpMax (bumpMax (bumpMax st.maxCreated row.catCreated)
                   row.subCreated) row.tagCreated⟩ := by
              unfold buildStep
              rw [hc, hs, ht]
              dsimp only
              rw [if_pos hseen]
              dsimp only
              rw [if_pos hseenT]
            rw [hstep]
            exact buildStep_inv_tag_ss h hc hs ht hseen hseenT _
          · have hseenT' : st.seenTags.contains tid = false :=
              bool_false_of_not_true hseenT
            have hstep : buildStep st row =
                ⟨addTagToSub
                    (if st.cats.any (fun c => c.id == cid) = true then st.cats
                     else st.cats ++
                       [⟨cid, normName row.catName, normSlug row.catSlug, []⟩])
                    sid ⟨tid, normName row.tagName, normSlug row.tagSlug⟩,
                 st.seenSubs, st.seenTags ++ [tid],
                 bumpMax (bumpMax (bumpMax st.maxCreated row.catCreated)
                   row.subCreated) row.tagCreated⟩ := by
              unfold buildStep
              rw [hc, hs, ht]
              dsimp only
              rw [if_pos hseen]
              dsimp only
              rw [if_neg hseenT]
            rw [hstep]
            exact buildStep_inv_tag_sn h hc hs ht hseen hseenT' _
        · have hseen' : st.seenSubs.contains sid = false := bool_false_of_not_true hseen
          by_cases hseenT : st.seenTags.contains tid = true
          · have hstep : buildStep st row =
                ⟨addSubToCat
                    (if st.cats.any (fun c => c.id == cid) = true then st.cats
                     else st.cats ++
                       [⟨cid, normName row.catName, normSlug row.catSlug, []⟩])
                    cid ⟨sid, normName row.subName, normSlug row.subSlug, []⟩,
                 st.seenSubs ++ [sid], st.seenTags,
                 bumpMax (bumpMax (bumpMax st.maxCreated row.catCreated)
                   row.subCreated) row.tagCreated⟩ := by
              unfold buildStep
              rw [hc, hs, ht]
              dsimp only
              rw [if_neg hseen]
              dsimp only
              rw [if_pos hseenT]
            rw [hstep]
            exact buildStep_inv_tag_ns h hc hs ht hseen' hseenT _
          · have hseenT' : st.seenTags.contains tid = false :=
              bool_false_of_not_true hseenT
            have hstep : buildStep st row =
                ⟨addTagToSub
                    (addSubToCat
                      (if st.cats.any (fun c => c.id == cid) = true then st.cats
                       else st.cats ++
                         [⟨cid, normName row.catName, normSlug row.catSlug, []⟩])
                      cid ⟨sid, normName row.subName, normSlug row.subSlug, []⟩)
                    sid ⟨tid, normName row.tagName, normSlug row.tagSlug⟩,
                 st.seenSubs ++ [sid], st.seenTags ++ [tid],
                 bumpMax (bumpMax (bumpMax st.maxCreated row.catCreated)
                   row.subCreated) row.tagCreated⟩ := by
              unfold buildStep
              rw [hc, hs, ht]
              dsimp only
              rw [if_neg hseen]
              dsimp only
              rw [if_neg hseenT]
            rw [hstep]
            exact buildStep_inv_tag_nn h hc hs ht hseen' hseenT' _

theorem buildInv_init : BuildInv [] initBuild :=
  ⟨fun _ => rfl, fun _ => rfl, fun _ => rfl, fun _ => rfl, fun _ => rfl,
   fun c hc => absurd hc (List.not_mem_nil c),
   fun c hc => absurd hc (List.not_mem_nil c)⟩

theorem buildTree_inv (rows : List TRow) : BuildInv rows (buildTree rows) := by
  have hgen : ∀ (l : List TRow) (rows0 : List TRow) (st : BuildState),
      BuildInv rows0 st → BuildInv (rows0 ++ l) (l.foldl buildStep st) := by
    intro l
    induction l with
    | nil =>
      intro rows0 st h0
      rw [List.foldl_nil, List.append_nil]
      exact h0
    | cons r t ih =>
      intro rows0 st h0
      rw [List.foldl_cons, List.append_cons]
      exact ih (rows0 ++ [r]) (buildStep st r) (buildStep_inv r h0)
  have hfin := hgen rows [] initBuild buildInv_init
  rw [List.nil_append] at hfin
  exact hfin

end MainSrv

namespace MainSrv

theorem catCount_sortTree (cats : List CatNode) (i : String) :
    catCount (sortTree cats) i = catCount cats i := by
  unfold catCount sortTree
  rw [List.countP_map]
  have h1 : List.countP ((fun (c : CatNode) => c.id == i) ∘ (fun (c : CatNode) =>
      { c with subcategories := (List.insertionSort subLE c.subcategories).map (fun s =>
        { s with tags := List.insertionSort tagLE s.tags }) }))
      (List.insertionSort catLE cats) =
      List.countP (fun (c : CatNode) => c.id == i) (List.insertionSort catLE cats) :=
    List.countP_congr (fun a _ => Iff.rfl)
  rw [h1]
  exact (List.perm_insertionSort catLE cats).countP_eq _

theorem subOccur_sortTree (cats : List CatNode) (sid : String) :
    subOccur (sortTree cats) sid = subOccur cats sid := by
  unfold subOccur sortTree
  rw [List.map_map]
  have h1 : (List.insertionSort catLE cats).map ((fun (c : CatNode) =>
      c.subcategories.countP (fun s => s.id == sid)) ∘ (fun (c : CatNode) =>
      { c with subcategories := (List.insertionSort subLE c.subcategories).map (fun s =>
        { s with tags := List.insertionSort tagLE s.tags }) })) =
      (List.insertionSort catLE cats).map (fun (c : CatNode) =>
        c.subcategories.countP (fun s => s.id == sid)) := by
    apply List.map_congr_left
    intro c _
    simp only [Function.comp]
    rw [List.countP_map]
    have h2 : List.countP ((fun (s : SubNode) => s.id == sid) ∘ (fun (s : SubNode) =>
        { s with tags := List.insertionSort tagLE s.tags }))
        (List.insertionSort subLE c.subcategories) =
        List.countP (fun (s : SubNode) => s.id == sid)
          (List.insertionSort subLE c.subcategories) :=
      List.countP_congr (fun a _ => Iff.rfl)
    rw [h2]
    exact (List.perm_insertionSort subLE c.subcategories).countP_eq _
  rw [h1]
  exact List.Perm.sum_eq ((List.perm_insertionSort catLE cats).map _)

theorem tagOccur_sortTree (cats : List CatNode) (tid : String) :
    tagOccur (sortTree cats) tid = tagOccur cats tid := by
  unfold tagOccur sortTree
  rw [List.map_map]
  have h1 : (List.insertionSort catLE cats).map ((fun (c : CatNode) =>
      (c.subcategories.map (fun s => s.tags.countP (fun t => t.id == tid))).sum) ∘
      (fun (c : CatNode) =>
      { c with subcategories := (List.insertionSort subLE c.subcategories).map (fun s =>
        { s with tags := List.insertionSort tagLE s.tags }) })) =
      (List.insertionSort catLE cats).map (fun (c : CatNode) =>
        (c.subcategories.map (fun s => s.tags.countP (fun t => t.id == tid))).sum) := by
    apply List.map_congr_left
    intro c _
    simp only [Function.comp]
    rw [List.map_map]
    have h2 : (List.insertionSort subLE c.subcategories).map ((fun (s : SubNode) =>
        s.tags.countP (fun t => t.id == tid)) ∘ (fun (s : SubNode) =>
        { s with tags := List.insertionSort tagLE s.tags })) =
        (List.insertionSort subLE c.subcategories).map (fun (s : SubNode) =>
          s.tags.countP (fun t => t.id == tid)) := by
      apply List.map_congr_left
      intro s _
      simp only [Function.comp]
      exact (List.perm_insertionSort tagLE s.tags).countP_eq _
    rw [h2]
    exact List.Perm.sum_eq ((List.perm_insertionSort subLE c.subcategories).map _)
  rw [h1]
  exact List.Perm.sum_eq ((List.perm_insertionSort catLE cats).map _)

theorem pairs_sortTree {cats : List CatNode} {c' : CatNode} {s' : SubNode}
    (hc : c' ∈ sortTree cats) (hs : s' ∈ c'.subcategories) :
    ∃ c ∈ cats, ∃ s ∈ c.subcategories, c'.id = c.id ∧ s'.id = s.id := by
  unfold sortTree at hc
  obtain ⟨c, hcm, hceq⟩ := List.mem_map.mp hc
  subst hceq
  have hcm' : c ∈ cats := (List.perm_insertionSort catLE cats).mem_iff.mp hcm
  obtain ⟨s, hsm, hseq⟩ := List.mem_map.mp hs
  have hsm' : s ∈ c.subcategories :=
    (List.perm_insertionSort subLE c.subcategories).mem_iff.mp hsm
  exact ⟨c, hcm', s, hsm', rfl, by rw [← hseq]⟩

theorem triples_sortTree {cats : List CatNode} {c' : CatNode} {s' : SubNode}
    {t' : TagNode} (hc : c' ∈ sortTree cats) (hs : s' ∈ c'.subcategories)
    (ht : t' ∈ s'.tags) :
    ∃ c ∈ cats, ∃ s ∈ c.subcategories, s'.id = s.id ∧ t' ∈ s.tags := by
  unfold sortTree at hc
  obtain ⟨c, hcm, hceq⟩ := List.mem_map.mp hc
  subst hceq
  have hcm' : c ∈ cats := (List.perm_insertionSort catLE cats).mem_iff.mp hcm
  obtain ⟨s, hsm, hseq⟩ := List.mem_map.mp hs
  have hsm' : s ∈ c.subcategories :=
    (List.perm_insertionSort subLE c.subcategories).mem_iff.mp hsm
  subst hseq
  have htm : t' ∈ s.tags := (List.perm_insertionSort tagLE s.tags).mem_iff.mp ht
  exact ⟨c, hcm', s, hsm', rfl, htm⟩

end MainSrv

/-- C10: for every input row list — including rows with repeated or
inconsistently parented ids — the payload tree built by
`_build_taxonomy_cache_payload` is a well-formed tree: each category id present
in the rows carries exactly one category node (ids absent from the rows carry
none), each subcategory id appears in exactly one category's subcategory list,
namely under the category of the row in which it first appeared, and each tag
id appears in exactly one subcategory's tag list, namely under the subcategory
of the row in which it first appeared; in particular no node is duplicated. -/
theorem payload_tree_wellformed (rows : List MainSrv.TRow) :
    (∀ i, MainSrv.catCount (MainSrv._build_taxonomy_cache_payload rows).categories i =
        if rows.any (MainSrv.rowHasCat i) = true then 1 else 0) ∧
    (∀ sid, MainSrv.subOccur (MainSrv._build_taxonomy_cache_payload rows).categories sid =
        if rows.any (MainSrv.rowHasSub sid) = true then 1 else 0) ∧
    (∀ tid, MainSrv.tagOccur (MainSrv._build_taxonomy_cache_payload rows).categories tid =
        if rows.any (MainSrv.rowHasTag tid) = true then 1 else 0) ∧
    (∀ c ∈ (MainSrv._build_taxonomy_cache_payload rows).categories,
      ∀ s ∈ c.subcategories, MainSrv.firstCatOfSub rows s.id = some c.id) ∧
    (∀ c ∈ (MainSrv._build_taxonomy_cache_payload rows).categories,
      ∀ s ∈ c.subcategories, ∀ t ∈ s.tags,
        MainSrv.firstSubOfTag rows t.id = some s.id) := by
  have hinv := MainSrv.buildTree_inv rows
  have hcats : (MainSrv._build_taxonomy_cache_payload rows).categories =
      MainSrv.sortTree (MainSrv.buildTree rows).cats := rfl
  refine ⟨?_, ?_, ?_, ?_, ?_⟩
  · intro i
    rw [hcats, MainSrv.catCount_sortTree]
    exact hinv.cat_count i
  · intro sid
    rw [hcats, MainSrv.subOccur_sortTree]
    exact hinv.sub_occur sid
  · intro tid
    rw [hcats, MainSrv.tagOccur_sortTree]
    exact hinv.tag_occur tid
  · intro c' hc' s' hs'
    rw [hcats] at hc'
    obtain ⟨c, hcm, s, hsm, hidc, hids⟩ := MainSrv.pairs_sortTree hc' hs'
    rw [hids, hidc]
    exact hinv.sub_loc c hcm s hsm
  · intro c' hc' s' hs' t' ht'
    rw [hcats] at hc'
    obtain ⟨c, hcm, s, hsm, hids, htm⟩ := MainSrv.triples_sortTree hc' hs' ht'
    rw [hids]
    exact hinv.tag_loc c hcm s hsm t' htm

/-- A concrete taxonomy row exercising all three levels of the build loop. -/
def wRowC10 : MainSrv.TRow :=
  ⟨some "c1", some "Music", some "music", some 5,
   some "s1", some "Techno", some "techno", some 6,
   some "t1", some "Rave", some "rave", some 7⟩

/-- Witness: on the one-row input, the subcategory and tag of the row sit under
their first-seen parents in the built payload, and the category id carries
exactly one node. -/
theorem payload_tree_wellformed_witness :
    MainSrv.firstCatOfSub [wRowC10] "s1" = some "c1" ∧
    MainSrv.firstSubOfTag [wRowC10] "t1" = some "s1" ∧
    MainSrv.catCount (MainSrv._build_taxonomy_cache_payload [wRowC10]).categories "c1" =
      1 := by
  refine ⟨?_, ?_, ?_⟩
  · exact (payload_tree_wellformed [wRowC10]).2.2.2.1
      ⟨"c1", "Music", "music", [⟨"s1", "Techno", "techno", [⟨"t1", "Rave", "rave"⟩]⟩]⟩
      (by decide) ⟨"s1", "Techno", "techno", [⟨"t1", "Rave", "rave"⟩]⟩ (by decide)
  · exact (payload_tree_wellformed [wRowC10]).2.2.2.2
      ⟨"c1", "Music", "music", [⟨"s1", "Techno", "techno", [⟨"t1", "Rave", "rave"⟩]⟩]⟩
      (by decide) ⟨"s1", "Techno", "techno", [⟨"t1", "Rave", "rave"⟩]⟩ (by decide)
      ⟨"t1", "Rave", "rave"⟩ (by decide)
  · have h := (payload_tree_wellformed [wRowC10]).1 "c1"
    rw [h]
    decide
